import Mathlib

/-!
# Arwen WASM VM: gas metering, big-int host functions, indirect calls, async calls

A shallow embedding of parts of the executor host of `arwen-wasm-vm` (v1.4):

* `arwen/contexts/metering.go`      gas accounting and reconciliation
* `arwen/contexts/managedType.go`   the big-int handle table
* `arwen/elrondapi/bigIntOps.go`    the big-int host functions
* `arwen/elrondapi/elrondei.go`     argument extraction and `executeReadOnly`
* `arwen/host/asyncCall.go`         async gas partitioning and callback processing

Go `uint64` values are natural numbers; the arithmetic helpers cap them at `MaxUint64`.
Go maps are association lists: the list order stands for one iteration order of the map.
Pointer-shared objects (the output accounts, the big ints) live in one store of the host.
-/

namespace Arwen

/-! ## Errors -/

/-- The error values of package `arwen` (and the ad-hoc `fmt.Errorf` ones) that the embedded
code can return; `PanicNilDereference` and `PanicSliceBounds` stand for the Go run-time panics
of a method call on a nil value and of a slice expression beyond the capacity, which unwind
through the callers like a returned error. -/
inductive HostError where
  | ErrNotEnoughGas
  | ErrInputAndOutputGasDoesNotMatch
  | ErrMissingOutputAccount
  | ErrAdditionOverflow
  | ErrNoBigIntUnderThisHandle
  | ErrDivZero
  | ErrBitwiseNegative
  | ErrShiftNegative
  | ErrNegativeNumArguments
  | ErrMemLoad
  | ErrMemStore
  | ErrSyncExecutionNotInSameShard
  | ErrExecution
  | ErrCallBackFuncNotExpected
  | ErrUnmarshal
  | ErrSetProtectedStorage
  | ErrParseData
  | ErrGetCode
  | ErrTransfer
  | ErrNoManagedBufferUnderThisHandle
  | ErrBadBounds
  | ErrCreateGasConfig
  | ErrFailedTransfer
  | PanicNilDereference
  | PanicSliceBounds
  | PanicIndexOutOfRange
  | PanicMakeSliceLen
  deriving DecidableEq, Repr

/-! ## Package `math` -/

/-- Largest Go `uint64`. -/
def MaxUint64 : Nat := 2 ^ 64 - 1

/-- Modelled from the spec: `math.AddUint64` (package `math` is not under `src/`); the
accounting additions are "saturating on overflow". -/
def AddUint64 (a b : Nat) : Nat :=
  if MaxUint64 < a + b then MaxUint64 else a + b

/-- Modelled from the spec: `math.SubUint64` (package `math` is not under `src/`);
"saturating subtraction is used in accounting math". -/
def SubUint64 (a b : Nat) : Nat :=
  if a < b then 0 else a - b

/-- Modelled from the spec: `math.MulUint64` (package `math` is not under `src/`), the
multiplication counterpart of `AddUint64`, capped at `MaxUint64`. -/
def MulUint64 (a b : Nat) : Nat :=
  if MaxUint64 < a * b then MaxUint64 else a * b

/-- Modelled from the spec: `math.AddUint64WithErr` (package `math` is not under `src/`), the
addition that reports the overflow instead of saturating. -/
def AddUint64WithErr (a b : Nat) : Except HostError Nat :=
  if MaxUint64 < a + b then .error .ErrAdditionOverflow else .ok (a + b)

/-! ## Go maps as association lists -/

/-- Lookup `m[k]` with the `ok` flag. -/
def mapGet? {κ ν : Type} [DecidableEq κ] (m : List (κ × ν)) (k : κ) : Option ν :=
  match m with
  | [] => none
  | (k', v) :: rest => if k' = k then some v else mapGet? rest k

/-- Assignment `m[k] = v`: overwrite the entry of `k`, or add one. -/
def mapSet {κ ν : Type} [DecidableEq κ] (m : List (κ × ν)) (k : κ) (v : ν) : List (κ × ν) :=
  match m with
  | [] => [(k, v)]
  | (k', v') :: rest => if k' = k then (k, v) :: rest else (k', v') :: mapSet rest k v

/-- Removal `delete(m, k)`. -/
def mapDelete {κ ν : Type} [DecidableEq κ] (m : List (κ × ν)) (k : κ) : List (κ × ν) :=
  m.filter (fun p => decide (p.1 ≠ k))

/-- A byte string (`[]byte`, or a `string` used as a map key). -/
abbrev Bytes := List Nat

/-! ## Data model -/

/-- The call types of `vm.CallType`. -/
inductive CallType where
  | DirectCall
  | AsynchronousCall
  | AsynchronousCallBack
  deriving DecidableEq, Repr

/-- The fields of `vmcommon.OutputTransfer`. -/
structure OutputTransfer where
  GasLimit : Nat
  GasLocked : Nat
  Data : Bytes
  Value : Int := 0
  CallType : CallType := .DirectCall
  SenderAddress : Bytes := []
  deriving DecidableEq, Repr

/-- The gas fields of `vmcommon.OutputAccount`. -/
structure OutputAccount where
  GasUsed : Nat
  OutputTransfers : List OutputTransfer
  deriving DecidableEq, Repr

/-- The part of `vmcommon.VMOutput` that metering and the async calls touch; `ReturnCode` is
the numeric `vmcommon.ReturnCode`, 0 for `Ok`. -/
structure VMOutput where
  OutputAccounts : List (Bytes × OutputAccount)
  GasRemaining : Nat
  ReturnData : List Bytes := []
  ReturnCode : Nat := 0
  ReturnMessage : Bytes := []
  deriving DecidableEq, Repr

/-- The costs of `config.GasCost` that the embedded host functions charge. The type is not
under `src/`; its fields are plain `uint64` settings. -/
structure GasCost where
  DataCopyPerByte : Nat
  BigIntTDiv : Nat
  BigIntSub : Nat
  BigIntGetUnsignedBytes : Nat
  BigIntGetSignedBytes : Nat
  BigIntSetUnsignedBytes : Nat
  BigIntSetSignedBytes : Nat
  ExecuteReadOnly : Nat
  GetCode : Nat
  AoTPreparePerByte : Nat
  CreateContract : Nat
  CompilePerByte : Nat
  AsyncCallStep : Nat
  AsyncCallbackGasLock : Nat
  Int64StorageStore : Nat
  StorageLoad : Nat
  GetBlockTimeStamp : Nat
  BigIntGetUnsignedArgument : Nat
  BigIntGetSignedArgument : Nat
  BigIntGetInt64 : Nat
  GetCallValue : Nat
  TransferValue : Nat
  deriving DecidableEq, Repr

/-- The type `config.GasScheduleMap` (`map[string]map[string]uint64`), its names as bytes. -/
abbrev GasScheduleMap := List (Bytes × List (Bytes × Nat))

/-- The fields of `vmcommon.ESDTTransfer`; the token type is the numeric `core.ESDTType`. -/
structure ESDTTransfer where
  ESDTValue : Int
  ESDTTokenName : Bytes
  ESDTTokenType : Nat
  ESDTTokenNonce : Nat
  deriving DecidableEq, Repr

/-- State of `meteringContext` (without its state stack). -/
structure MeteringContext where
  gasSchedule : GasCost
  initialGasProvided : Nat
  initialCost : Nat
  gasForExecution : Nat
  gasUsedByAccounts : List (Bytes × Nat)
  deriving DecidableEq, Repr

/-- The runtime breakpoint values used here. -/
inductive BreakpointValue where
  | BreakpointNone
  | BreakpointExecutionFailed
  | BreakpointOutOfGas
  deriving DecidableEq, Repr

/-- Modelled from the spec: the single async call of the runtime, `arwen.AsyncCallInfo`
(not under `src/`), with the fields the `AsyncCallInfoHandler` getters read. -/
structure AsyncCallInfo where
  Destination : Bytes
  Data : Bytes
  GasLimit : Nat
  GasLocked : Nat
  ValueBytes : Bytes
  deriving DecidableEq, Repr

/-- The parts of the runtime context that the embedded code reads and writes; `callerAddr`,
`callValue`, `callType`, `gasPrice`, `gasProvided`, `arguments`, `esdtTransfers` and the
transaction hashes are the fields of the `VMInput` it holds. -/
structure RuntimeContext where
  scAddress : Bytes
  callerAddr : Bytes
  originalTxHash : Bytes
  callValue : Int
  pointsUsed : Nat
  readOnly : Bool
  memory : List Nat
  breakpoint : BreakpointValue
  errors : List HostError
  bigIntAPIErrorShouldFailExecution : Bool
  elrondAPIErrorShouldFailExecution : Bool
  callType : CallType := .DirectCall
  gasPrice : Nat := 0
  gasProvided : Nat := 0
  currentTxHash : Bytes := []
  asyncCallInfo : Option AsyncCallInfo := none
  arguments : List Bytes := []
  esdtTransfers : List ESDTTransfer := []
  elrondSyncExecAPIErrorShouldFailExecution : Bool := true
  deriving DecidableEq, Repr

/-- State of `managedTypesContext`: the big-int handle table (`bigIntMap`). -/
structure ManagedTypesContext where
  bigIntValues : List (Int × Int)
  deriving DecidableEq, Repr

/-- The host with its contexts and its stored gas-schedule map (`host.gasSchedule`). -/
structure VMHost where
  runtime : RuntimeContext
  metering : MeteringContext
  output : VMOutput
  managedTypes : ManagedTypesContext
  storage : List (Bytes × Bytes)
  gasSchedule : GasScheduleMap := []
  deriving DecidableEq, Repr

/-! ## `metering.go` -/

/-- Embedding of `outputContext.GetOutputAccounts`. -/
def GetOutputAccounts (host : VMHost) : List (Bytes × OutputAccount) :=
  host.output.OutputAccounts

/-- Modelled from the spec: `outputContext.GetOutputAccount` (the output context is not under
`src/`): "OutputAccounts are created lazily the first time an address is referenced". -/
def GetOutputAccount (host : VMHost) (address : Bytes) : VMHost × OutputAccount :=
  match mapGet? host.output.OutputAccounts address with
  | some account => (host, account)
  | none =>
    let account : OutputAccount := { GasUsed := 0, OutputTransfers := [] }
    ({ host with output :=
        { host.output with OutputAccounts := mapSet host.output.OutputAccounts address account } },
      account)

/-- Embedding of `getGasTransferredByAccount`: gas limit and gas locked of every transfer of the account. -/
def getGasTransferredByAccount (account : OutputAccount) : Nat :=
  account.OutputTransfers.foldl
    (fun gasUsed outputTransfer =>
      AddUint64 (AddUint64 gasUsed outputTransfer.GasLimit) outputTransfer.GasLocked) 0

/-- Embedding of `getCurrentTotalUsedGas`. -/
def getCurrentTotalUsedGas (host : VMHost) : Nat :=
  (GetOutputAccounts host).foldl
    (fun gasUsed entry =>
      AddUint64 (AddUint64 gasUsed entry.2.GasUsed) (getGasTransferredByAccount entry.2)) 0

/-- Embedding of `getGasUsedByAllOtherAccounts`. -/
def getGasUsedByAllOtherAccounts (host : VMHost) (outputAccounts : List (Bytes × OutputAccount)) :
    Nat :=
  outputAccounts.foldl
    (fun gasUsedAndTransferred entry =>
      let gasTransferred := getGasTransferredByAccount entry.2
      let gasUsed :=
        if entry.1 ≠ host.runtime.scAddress then
          (mapGet? host.metering.gasUsedByAccounts entry.1).getD 0
        else 0
      AddUint64 (AddUint64 gasUsedAndTransferred gasUsed) gasTransferred) 0

/-- Embedding of `GasSpentByContract`. -/
def GasSpentByContract (host : VMHost) : Nat :=
  AddUint64 host.metering.initialCost host.runtime.pointsUsed

/-- Embedding of `GetGasProvided`. -/
def GetGasProvided (host : VMHost) : Nat :=
  host.metering.initialGasProvided

/-- Embedding of `updateSCGasUsed`. -/
def updateSCGasUsed (host : VMHost) : VMHost :=
  let currentAccountAddress := host.runtime.scAddress
  let (host, currentContractAccount) := GetOutputAccount host currentAccountAddress
  let outputAccounts := GetOutputAccounts host
  let gasTransferredByCurrentAccount := getGasTransferredByAccount currentContractAccount
  let gasUsedByOthers := getGasUsedByAllOtherAccounts host outputAccounts
  let gasUsed := GasSpentByContract host
  let gasUsed := SubUint64 gasUsed gasTransferredByCurrentAccount
  let gasUsed := SubUint64 gasUsed gasUsedByOthers
  { host with metering :=
      { host.metering with
        gasUsedByAccounts := mapSet host.metering.gasUsedByAccounts currentAccountAddress gasUsed } }

/-- Embedding of `setGasUsedToOutputAccounts`; the `vmOutput` argument is the output context's own state, whose
accounts are shared by pointer with the ones `checkGas` reads. -/
def setGasUsedToOutputAccounts (host : VMHost) : VMHost × Option HostError :=
  let accounts := host.output.OutputAccounts.map
    (fun entry =>
      (entry.1,
        { entry.2 with GasUsed := (mapGet? host.metering.gasUsedByAccounts entry.1).getD 0 }))
  let host := { host with output := { host.output with OutputAccounts := accounts } }
  if host.metering.gasUsedByAccounts.all
      (fun entry => (mapGet? host.output.OutputAccounts entry.1).isSome) then
    (host, none)
  else
    (host, some .ErrMissingOutputAccount)

/-- Embedding of `checkGas`. -/
def checkGas (host : VMHost) (vmOutput : VMOutput) : Option HostError :=
  let gasUsed := getCurrentTotalUsedGas host
  let totalGas := AddUint64 gasUsed vmOutput.GasRemaining
  let gasProvided := GetGasProvided host
  if totalGas ≠ gasProvided then some .ErrInputAndOutputGasDoesNotMatch else none

/-- Embedding of `UpdateGasStateOnSuccess(vmOutput)`, with `vmOutput` the output context's state. -/
def UpdateGasStateOnSuccess (host : VMHost) : VMHost × Option HostError :=
  let host := updateSCGasUsed host
  match setGasUsedToOutputAccounts host with
  | (host, some err) => (host, some err)
  | (host, none) =>
    match checkGas host host.output with
    | some err => (host, some err)
    | none => (host, none)

/-- Embedding of `UseGas`. -/
def UseGas (host : VMHost) (gas : Nat) : VMHost :=
  let gasUsed := AddUint64 host.runtime.pointsUsed gas
  { host with runtime := { host.runtime with pointsUsed := gasUsed } }

/-- Embedding of `GasLeft`. -/
def GasLeft (host : VMHost) : Nat :=
  let gasProvided := host.metering.gasForExecution
  let gasUsed := host.runtime.pointsUsed
  if gasProvided < gasUsed then 0 else gasProvided - gasUsed

/-- Embedding of `UseGasBounded`. -/
def UseGasBounded (host : VMHost) (gasToUse : Nat) : VMHost × Option HostError :=
  if GasLeft host ≤ gasToUse then
    (host, some .ErrNotEnoughGas)
  else
    (UseGas host gasToUse, none)

/-! ## Exact sums used to state the reconciliation -/

/-- Exact sum of `GasUsed` over the output accounts. -/
def sumGasUsed (accounts : List (Bytes × OutputAccount)) : Nat :=
  (accounts.map (fun entry => entry.2.GasUsed)).sum

/-- Exact sum of `GasLimit` over all output transfers of all accounts. -/
def sumGasLimit (accounts : List (Bytes × OutputAccount)) : Nat :=
  (accounts.map (fun entry => (entry.2.OutputTransfers.map (fun t => t.GasLimit)).sum)).sum

/-- Exact sum of `GasLocked` over all output transfers of all accounts. -/
def sumGasLocked (accounts : List (Bytes × OutputAccount)) : Nat :=
  (accounts.map (fun entry => (entry.2.OutputTransfers.map (fun t => t.GasLocked)).sum)).sum

/-! ## Runtime helpers that are not under `src/` -/

/-- Modelled from the spec: `runtime.FailExecution` (the runtime context is not under `src/`):
"`failExecution(err)` sets the breakpoint to ExecutionFailed and records the error". -/
def FailExecution (host : VMHost) (err : HostError) : VMHost :=
  { host with runtime :=
      { host.runtime with
        breakpoint := .BreakpointExecutionFailed, errors := host.runtime.errors ++ [err] } }

/-- Modelled from the spec: `arwen.WithFault` / `arwen.WithFaultAndHost` (package `arwen` is
not under `src/`): with no error it reports `false`; with an error it reports `true`, after
failing the execution when the flag asks for it ("record error, continue" or "abort"). -/
def WithFault (err : Option HostError) (host : VMHost) (failExecution : Bool) : VMHost × Bool :=
  match err with
  | none => (host, false)
  | some e => if failExecution then (FailExecution host e, true) else (host, true)

/-- Modelled from the spec: `runtime.MemLoad` (the runtime context is not under `src/`):
"lengths must be non-negative; reads past memory end fail with memory-out-of-bounds". -/
def MemLoad (host : VMHost) (offset length : Int) : Except HostError Bytes :=
  if offset < 0 ∨ length < 0 ∨ (host.runtime.memory.length : Int) < offset + length then
    .error .ErrMemLoad
  else
    .ok ((host.runtime.memory.drop offset.toNat).take length.toNat)

/-- Modelled from the spec: `runtime.MemStore` (the runtime context is not under `src/`), the
bounds-checked write counterpart of `MemLoad`. -/
def MemStore (host : VMHost) (offset : Int) (data : Bytes) : Except HostError VMHost :=
  if offset < 0 ∨ (host.runtime.memory.length : Int) < offset + data.length then
    .error .ErrMemStore
  else
    .ok { host with runtime :=
            { host.runtime with
              memory := host.runtime.memory.take offset.toNat ++ data
                ++ host.runtime.memory.drop (offset.toNat + data.length) } }

/-! ## Go `math/big` and the two's-complement helpers -/

/-- Bit length of a natural number, by halving (`fuel` bounds the number of halvings). -/
def bitLenAux : Nat → Nat → Nat
  | 0, _ => 0
  | fuel + 1, n => if n = 0 then 0 else bitLenAux fuel (n / 2) + 1

/-- Embedding of `big.Int.BitLen`: the bit length of the absolute value. -/
def BitLen (v : Int) : Nat := bitLenAux v.natAbs v.natAbs

/-- Big-endian base-256 digits of `n` in front of `acc` (`fuel` bounds the number of digits). -/
def natBytesAux : Nat → Nat → Bytes → Bytes
  | 0, _, acc => acc
  | fuel + 1, n, acc => if n = 0 then acc else natBytesAux fuel (n / 256) (n % 256 :: acc)

/-- Big-endian bytes of a natural number, without leading zero byte. -/
def natBytes (n : Nat) : Bytes := natBytesAux n n []

/-- Embedding of `big.Int.Bytes`: the big-endian bytes of the absolute value. -/
def bigBytes (v : Int) : Bytes := natBytes v.natAbs

/-- The natural number with the given big-endian bytes. -/
def bytesToNat (bs : Bytes) : Nat := bs.foldl (fun acc b => acc * 256 + b) 0

/-- Embedding of `big.Int.SetBytes`: the unsigned big-endian reading of the bytes. -/
def bigSetBytes (bs : Bytes) : Int := (bytesToNat bs : Int)

/-- Bitwise complement of every byte. -/
def notBytes (bs : Bytes) : Bytes := bs.map (fun b => 255 - b)

/-- Embedding of `twos.ToBytes` of the library `big-int-util/twos-complement`: the shortest big-endian
two's-complement bytes of `i`, the empty sequence for 0. -/
def twosToBytes (i : Int) : Bytes :=
  if i < 0 then
    let plus1Bytes := bigBytes (i + 1)
    let body := notBytes plus1Bytes
    match plus1Bytes with
    | [] => 255 :: body
    | b :: _ => if 128 ≤ b then 255 :: body else body
  else if i = 0 then
    []
  else
    let originalBytes := bigBytes i
    match originalBytes with
    | [] => originalBytes
    | b :: _ => if 128 ≤ b then 0 :: originalBytes else originalBytes

/-- Embedding of `twos.SetBytes` of the library `big-int-util/twos-complement`: the big-endian
two's-complement reading of the bytes, 0 for the empty sequence. -/
def twosSetBytes (twosBytes : Bytes) : Int :=
  match twosBytes with
  | [] => 0
  | b :: _ =>
    if 128 ≤ b then
      -(bigSetBytes (notBytes twosBytes)) - 1
    else
      bigSetBytes twosBytes

/-! ## `managedType.go` -/

/-- The constant `maxBigIntByteLenForNormalCost`. -/
def maxBigIntByteLenForNormalCost : Nat := 32

/-- Embedding of `GetBigIntOrCreate`: the value under the handle, after creating it as 0 when missing. -/
def GetBigIntOrCreate (host : VMHost) (handle : Int) : VMHost × Int :=
  match mapGet? host.managedTypes.bigIntValues handle with
  | some value => (host, value)
  | none =>
    ({ host with managedTypes :=
        { bigIntValues := mapSet host.managedTypes.bigIntValues handle 0 } }, 0)

/-- Embedding of `GetBigInt`. -/
def GetBigInt (host : VMHost) (handle : Int) : Except HostError Int :=
  match mapGet? host.managedTypes.bigIntValues handle with
  | some value => .ok value
  | none => .error .ErrNoBigIntUnderThisHandle

/-- Embedding of `GetTwoBigInt`. -/
def GetTwoBigInt (host : VMHost) (handle1 handle2 : Int) : Except HostError (Int × Int) :=
  match mapGet? host.managedTypes.bigIntValues handle1 with
  | none => .error .ErrNoBigIntUnderThisHandle
  | some value1 =>
    match mapGet? host.managedTypes.bigIntValues handle2 with
    | none => .error .ErrNoBigIntUnderThisHandle
    | some value2 => .ok (value1, value2)

/-- A write through the pointer that `GetBigIntOrCreate` returned for `handle`
(`dest.Quo(a, b)`, `value.SetBytes(bytes)`, ...). -/
def setBigInt (host : VMHost) (handle : Int) (value : Int) : VMHost :=
  { host with managedTypes :=
      { bigIntValues := mapSet host.managedTypes.bigIntValues handle value } }

/-- Embedding of `ConsumeGasForThisIntNumberOfBytes`. -/
def ConsumeGasForThisIntNumberOfBytes (host : VMHost) (byteLen : Nat) : VMHost :=
  if maxBigIntByteLenForNormalCost < byteLen then
    UseGas host (MulUint64 byteLen host.metering.gasSchedule.DataCopyPerByte)
  else
    host

/-- Embedding of `ConsumeGasForBigIntCopy`. -/
def ConsumeGasForBigIntCopy (host : VMHost) (values : List Int) : VMHost :=
  values.foldl (fun host val => ConsumeGasForThisIntNumberOfBytes host (BitLen val / 8)) host

/-- The value under a handle, if any. -/
def bigIntAt (host : VMHost) (handle : Int) : Option Int :=
  mapGet? host.managedTypes.bigIntValues handle

/-! ## `bigIntOps.go`

A host function without result returns the host and the error it handed to `WithFault`, if
any; one with an `int32` result returns the host and that result. -/

/-- The common failure exit: `arwen.WithFault(err, context, flag); return`. -/
def faultExit (host : VMHost) (err : HostError) : VMHost × Option HostError :=
  ((WithFault (some err) host host.runtime.bigIntAPIErrorShouldFailExecution).1, some err)

/-- The division-like host functions share one body, up to the gas cost and the operation. -/
def bigIntDivLike (gasToUse : Nat) (op : Int → Int → Int) (host : VMHost)
    (destinationHandle op1Handle op2Handle : Int) : VMHost × Option HostError :=
  let host := UseGas host gasToUse
  let (host, dest) := GetBigIntOrCreate host destinationHandle
  match GetTwoBigInt host op1Handle op2Handle with
  | .error _ => faultExit host .ErrNoBigIntUnderThisHandle
  | .ok (a, b) =>
    let host := ConsumeGasForBigIntCopy host [dest, a, b]
    if b = 0 then
      faultExit host .ErrDivZero
    else
      (setBigInt host destinationHandle (op a b), none)

/-- Embedding of `v1_4_bigIntTDiv`: `dest.Quo(a, b)`, truncated division. -/
def v1_4_bigIntTDiv (host : VMHost) (destinationHandle op1Handle op2Handle : Int) :
    VMHost × Option HostError :=
  bigIntDivLike host.metering.gasSchedule.BigIntTDiv Int.tdiv host
    destinationHandle op1Handle op2Handle

/-- Embedding of `v1_4_bigIntTMod`: `dest.Rem(a, b)`, truncated modulus. -/
def v1_4_bigIntTMod (host : VMHost) (destinationHandle op1Handle op2Handle : Int) :
    VMHost × Option HostError :=
  bigIntDivLike host.metering.gasSchedule.BigIntSub Int.tmod host
    destinationHandle op1Handle op2Handle

/-- Embedding of `v1_4_bigIntEDiv`: `dest.Div(a, b)`, Euclidean division. -/
def v1_4_bigIntEDiv (host : VMHost) (destinationHandle op1Handle op2Handle : Int) :
    VMHost × Option HostError :=
  bigIntDivLike host.metering.gasSchedule.BigIntSub Int.ediv host
    destinationHandle op1Handle op2Handle

/-- Embedding of `v1_4_bigIntEMod`: `dest.Mod(a, b)`, Euclidean modulus. -/
def v1_4_bigIntEMod (host : VMHost) (destinationHandle op1Handle op2Handle : Int) :
    VMHost × Option HostError :=
  bigIntDivLike host.metering.gasSchedule.BigIntSub Int.emod host
    destinationHandle op1Handle op2Handle

/-- Conversion `int32(n)` of a Go integer. -/
def toInt32 (n : Int) : Int := (n + 2 ^ 31) % 2 ^ 32 - 2 ^ 31

/-- The failure exit of the `int32` host functions:
`if arwen.WithFault(err, context, flag) { return -1 }`. -/
def faultReturn (host : VMHost) (err : HostError) : VMHost × Int :=
  ((WithFault (some err) host host.runtime.bigIntAPIErrorShouldFailExecution).1, -1)

/-- Embedding of `v1_4_bigIntGetUnsignedBytes`. -/
def v1_4_bigIntGetUnsignedBytes (host : VMHost) (referenceHandle byteOffset : Int) :
    VMHost × Int :=
  let gasToUse := host.metering.gasSchedule.BigIntGetUnsignedBytes
  let host := UseGas host gasToUse
  match GetBigInt host referenceHandle with
  | .error err => faultReturn host err
  | .ok value =>
    let bytes := bigBytes value
    match MemStore host byteOffset bytes with
    | .error err => faultReturn host err
    | .ok host =>
      let gasToUse := MulUint64 host.metering.gasSchedule.DataCopyPerByte bytes.length
      let host := UseGas host gasToUse
      (host, toInt32 bytes.length)

/-- Embedding of `v1_4_bigIntGetSignedBytes`. -/
def v1_4_bigIntGetSignedBytes (host : VMHost) (referenceHandle byteOffset : Int) :
    VMHost × Int :=
  let gasToUse := host.metering.gasSchedule.BigIntGetSignedBytes
  let host := UseGas host gasToUse
  match GetBigInt host referenceHandle with
  | .error err => faultReturn host err
  | .ok value =>
    let bytes := twosToBytes value
    match MemStore host byteOffset bytes with
    | .error err => faultReturn host err
    | .ok host =>
      let gasToUse := MulUint64 host.metering.gasSchedule.DataCopyPerByte bytes.length
      let host := UseGas host gasToUse
      (host, toInt32 bytes.length)

/-- Embedding of `v1_4_bigIntSetUnsignedBytes`. -/
def v1_4_bigIntSetUnsignedBytes (host : VMHost) (destinationHandle byteOffset byteLength : Int) :
    VMHost × Option HostError :=
  let gasToUse := host.metering.gasSchedule.BigIntSetUnsignedBytes
  let host := UseGas host gasToUse
  match MemLoad host byteOffset byteLength with
  | .error err => faultExit host err
  | .ok bytes =>
    let (host, _) := GetBigIntOrCreate host destinationHandle
    let host := setBigInt host destinationHandle (bigSetBytes bytes)
    let gasToUse := MulUint64 host.metering.gasSchedule.DataCopyPerByte bytes.length
    (UseGas host gasToUse, none)

/-- Embedding of `v1_4_bigIntSetSignedBytes`. -/
def v1_4_bigIntSetSignedBytes (host : VMHost) (destinationHandle byteOffset byteLength : Int) :
    VMHost × Option HostError :=
  let gasToUse := host.metering.gasSchedule.BigIntSetSignedBytes
  let host := UseGas host gasToUse
  match MemLoad host byteOffset byteLength with
  | .error err => faultExit host err
  | .ok bytes =>
    let (host, _) := GetBigIntOrCreate host destinationHandle
    let host := setBigInt host destinationHandle (twosSetBytes bytes)
    let gasToUse := MulUint64 host.metering.gasSchedule.DataCopyPerByte bytes.length
    (UseGas host gasToUse, none)

/-- A signed byte sequence has a redundant sign byte when it starts with `0x00` and is not
followed by a byte with the high bit set, or starts with `0xFF` followed by a byte with the
high bit set. -/
def hasRedundantSignByte : Bytes → Bool
  | [] => false
  | [b] => b == 0
  | b :: c :: _ => (b == 0 && decide (c < 128)) || (b == 255 && decide (128 ≤ c))

/-- An unsigned byte sequence has a leading zero byte. -/
def hasLeadingZeroByte : Bytes → Bool
  | [] => false
  | b :: _ => b == 0

/-- Embedding of `v1_4_bigIntNot`. -/
def v1_4_bigIntNot (host : VMHost) (destinationHandle opHandle : Int) :
    VMHost × Option HostError :=
  let host := UseGas host host.metering.gasSchedule.BigIntSub
  let (host, dest) := GetBigIntOrCreate host destinationHandle
  match GetBigInt host opHandle with
  | .error _ => faultExit host .ErrNoBigIntUnderThisHandle
  | .ok a =>
    let host := ConsumeGasForBigIntCopy host [dest, a]
    if a < 0 then
      faultExit host .ErrBitwiseNegative
    else
      (setBigInt host destinationHandle (-a - 1), none)

/-- The binary bitwise host functions share one body, up to the operation. -/
def bigIntBitwise (op : Nat → Nat → Nat) (host : VMHost)
    (destinationHandle op1Handle op2Handle : Int) : VMHost × Option HostError :=
  let host := UseGas host host.metering.gasSchedule.BigIntSub
  let (host, _) := GetBigIntOrCreate host destinationHandle
  match GetTwoBigInt host op1Handle op2Handle with
  | .error _ => faultExit host .ErrNoBigIntUnderThisHandle
  | .ok (a, b) =>
    let host := ConsumeGasForBigIntCopy host [a, b]
    if a < 0 ∨ b < 0 then
      faultExit host .ErrBitwiseNegative
    else
      (setBigInt host destinationHandle (op a.toNat b.toNat : Nat), none)

/-- Embedding of `v1_4_bigIntAnd`: `dest.And(a, b)` on non-negative operands. -/
def v1_4_bigIntAnd (host : VMHost) (destinationHandle op1Handle op2Handle : Int) :
    VMHost × Option HostError :=
  bigIntBitwise Nat.land host destinationHandle op1Handle op2Handle

/-- Embedding of `v1_4_bigIntOr`: `dest.Or(a, b)` on non-negative operands. -/
def v1_4_bigIntOr (host : VMHost) (destinationHandle op1Handle op2Handle : Int) :
    VMHost × Option HostError :=
  bigIntBitwise Nat.lor host destinationHandle op1Handle op2Handle

/-- Embedding of `v1_4_bigIntXor`: `dest.Xor(a, b)` on non-negative operands. -/
def v1_4_bigIntXor (host : VMHost) (destinationHandle op1Handle op2Handle : Int) :
    VMHost × Option HostError :=
  bigIntBitwise Nat.xor host destinationHandle op1Handle op2Handle

/-- The shift host functions share one body, up to the operation. -/
def bigIntShift (op : Nat → Nat → Nat) (host : VMHost)
    (destinationHandle opHandle bits : Int) : VMHost × Option HostError :=
  let host := UseGas host host.metering.gasSchedule.BigIntSub
  let (host, _) := GetBigIntOrCreate host destinationHandle
  match GetBigInt host opHandle with
  | .error _ => faultExit host .ErrNoBigIntUnderThisHandle
  | .ok a =>
    let host := ConsumeGasForBigIntCopy host [a]
    if a < 0 ∨ bits < 0 then
      faultExit host .ErrShiftNegative
    else
      let result : Int := (op a.toNat bits.toNat : Nat)
      let host := setBigInt host destinationHandle result
      (ConsumeGasForBigIntCopy host [result], none)

/-- Embedding of `v1_4_bigIntShr`: `dest.Rsh(a, uint(bits))`. -/
def v1_4_bigIntShr (host : VMHost) (destinationHandle opHandle bits : Int) :
    VMHost × Option HostError :=
  bigIntShift (fun a n => a >>> n) host destinationHandle opHandle bits

/-- Embedding of `v1_4_bigIntShl`: `dest.Lsh(a, uint(bits))`. -/
def v1_4_bigIntShl (host : VMHost) (destinationHandle opHandle bits : Int) :
    VMHost × Option HostError :=
  bigIntShift (fun a n => a <<< n) host destinationHandle opHandle bits

/-! ## Call inputs, async records and collaborators -/

/-- The fields of `vmcommon.ContractCallInput` that the embedded code fills; a field left out of
a Go literal has its zero value. -/
structure ContractCallInput where
  CallerAddr : Bytes
  Arguments : List Bytes
  CallValue : Int
  GasPrice : Nat
  GasProvided : Nat
  RecipientAddr : Bytes
  Function : Bytes
  CallType : CallType := .DirectCall
  CurrentTxHash : Bytes := []
  OriginalTxHash : Bytes := []
  ReturnCallAfterError : Bool := false
  ESDTTransfers : List ESDTTransfer := []
  deriving DecidableEq, Repr

/-- The fields of `vmcommon.ContractCreateInput` that `createContract` fills: those of its
`VMInput` and the code with its metadata. -/
structure ContractCreateInput where
  CallerAddr : Bytes
  Arguments : List Bytes
  CallValue : Int
  GasPrice : Nat
  GasProvided : Nat
  ContractCode : Bytes
  ContractCodeMetadata : Bytes
  deriving DecidableEq, Repr

/-- Modelled from the spec: the async call record of package `arwen` (not under `src/`):
"AsyncCall. {destination, data, value, gasLimit, gasLocked, providedGas, successCallback,
errorCallback, status}". -/
structure AsyncGeneratedCall where
  Status : Nat
  Destination : Bytes
  Data : Bytes
  GasLimit : Nat
  GasLocked : Nat
  ValueBytes : Bytes
  SuccessCallback : Bytes
  ErrorCallback : Bytes
  ProvidedGas : Nat
  deriving DecidableEq, Repr

/-- Modelled from the spec: "AsyncContext. {callback, calls: ordered list<AsyncCall>}". -/
structure AsyncContext where
  Callback : Bytes
  AsyncCalls : List AsyncGeneratedCall
  deriving DecidableEq, Repr

/-- Modelled from the spec: "AsyncContextInfo. {callerAddress, returnData, contexts: mapping
identifier→AsyncContext}". -/
structure AsyncContextInfo where
  CallerAddr : Bytes
  ReturnData : Bytes
  AsyncContextMap : List (Bytes × AsyncContext)
  deriving DecidableEq, Repr

/-- The values of `arwen.AsyncCallExecutionMode`. -/
inductive AsyncCallExecutionMode where
  | SyncCall
  | AsyncBuiltinFuncIntraShard
  | AsyncBuiltinFuncCrossShard
  | ESDTTransferOnCallBack
  | AsyncUnknown
  deriving DecidableEq, Repr

/-- The collaborators of the embedded code that live outside `src/`: the blockchain hook
(`AreInSameShard`, `GetCode`), the parsers of call data and of ESDT transfers (`ParseData`
gives Go's three results, `ParseESDTTransfers` the `CallFunction` of the parsed transfer), the
host's own `ExecuteOnSameContext` and `ExecuteOnDestContext`, the JSON decoder, the configured
key prefixes, the output context (`Transfer`, `GetVMOutput`,
`CreateVMOutputInCaseOfError`, the text of a return code), the runtime's `ExecuteAsyncCall`,
the block timestamp of the blockchain hook, the status that the storage context reports for a
write of a new value over an old one, `config.CreateGasConfig`, the output context's
`TransferESDT` (with the gas limit for the execution it returns), the snapshots and the
`IsSmartContract` of the blockchain context, and the host's `CreateNewContract` (with the new
address it returns). -/
structure Collaborators where
  AreInSameShard : Bytes → Bytes → Bool
  ParseData : Bytes → Bytes × List Bytes × Option HostError
  IsBuiltinFunctionName : Bytes → Bool
  ExecuteOnSameContext : VMHost → ContractCallInput → VMHost × Option HostError
  jsonUnmarshal : Bytes → Except HostError AsyncContextInfo
  protectedKeyPrefix : Bytes
  AsyncDataPrefix : Bytes
  GetCode : Bytes → Bytes × Option HostError
  ParseESDTTransfers : Bytes → Bytes → Bytes → List Bytes → Except HostError Bytes
  ExecuteOnDestContext :
    VMHost → ContractCallInput → VMHost × Option VMOutput × Option HostError
  Transfer :
    VMHost → Bytes → Bytes → Nat → Nat → Int → Bytes → CallType → VMHost × Option HostError
  GetVMOutput : VMHost → VMOutput
  CreateVMOutputInCaseOfError : HostError → VMOutput
  returnCodeString : Nat → Bytes
  ExecuteAsyncCall : VMHost → Bytes → Bytes → Bytes → VMHost × Option HostError
  CurrentTimeStamp : Nat
  TimeLockKeyPrefix : Bytes
  storageStatus : Bytes → Bytes → Int
  CreateGasConfig : GasScheduleMap → Except HostError GasCost
  TransferESDT :
    VMHost → Bytes → Bytes → List ESDTTransfer → Option ContractCallInput →
      VMHost × Nat × Option HostError
  GetSnapshot : VMHost → Nat
  RevertToSnapshot : VMHost → Nat → VMHost
  IsSmartContract : Bytes → Bool
  CreateNewContract : VMHost → ContractCreateInput → VMHost × Bytes × Option HostError

/-! ## `elrondei.go` -/

/-- The constant `arwen.AddressLen`. -/
def AddressLen : Int := 32

/-- The constant `arwen.BalanceLen`. -/
def BalanceLen : Int := 32

/-- Conversion `uint64(n)` of a Go signed integer. -/
def toUint64 (n : Int) : Nat := (n % 2 ^ 64).toNat

/-- Embedding of `BoundGasLimit`. -/
def BoundGasLimit (host : VMHost) (value : Int) : Nat :=
  let gasLeft := GasLeft host
  let limit := toUint64 value
  if gasLeft < limit then gasLeft else limit

/-- Embedding of `runtime.SetReadOnly`. -/
def SetReadOnly (host : VMHost) (readOnly : Bool) : VMHost :=
  { host with runtime := { host.runtime with readOnly := readOnly } }

/-- Embedding of `isBuiltInCall`. -/
def isBuiltInCall (env : Collaborators) (data : Bytes) : Bool :=
  env.IsBuiltinFunctionName (env.ParseData data).1

/-- Embedding of `prepareIndirectContractCallInput`. -/
def prepareIndirectContractCallInput (env : Collaborators) (host : VMHost) (sender : Bytes)
    (value : Int) (gasLimit : Int) (destination function : Bytes) (data : List Bytes)
    (_gasToUse : Nat) (syncExecutionRequired : Bool) : Except HostError ContractCallInput :=
  if syncExecutionRequired && !env.AreInSameShard host.runtime.scAddress destination then
    .error .ErrSyncExecutionNotInSameShard
  else
    .ok { CallerAddr := sender, Arguments := data, CallValue := value, GasPrice := 0,
          GasProvided := BoundGasLimit host gasLimit, RecipientAddr := destination,
          Function := function }

/-- Embedding of `createContract`: the creation input, with the gas limit bound by
`BoundGasLimit`, is handed to `host.CreateNewContract`, whose results are returned. The
runtime parameter is unused. -/
def createContract (env : Collaborators) (host : VMHost) (sender : Bytes) (data : List Bytes)
    (value : Int) (gasLimit : Int) (code codeMetadata : Bytes) :
    VMHost × Bytes × Option HostError :=
  let contractCreate : ContractCreateInput :=
    { CallerAddr := sender, Arguments := data, CallValue := value, GasPrice := 0,
      GasProvided := BoundGasLimit host gasLimit, ContractCode := code,
      ContractCodeMetadata := codeMetadata }
  env.CreateNewContract host contractCreate

/-- Embedding of `ExecuteReadOnlyWithTypedArguments`; the result is the host and the returned `int32`. -/
def ExecuteReadOnlyWithTypedArguments (env : Collaborators) (host : VMHost) (gasLimit : Int)
    (function dest : Bytes) (args : List Bytes) : VMHost × Int :=
  let gasToUse := host.metering.gasSchedule.ExecuteReadOnly
  let host := UseGas host gasToUse
  let sender := host.runtime.scAddress
  let value := host.runtime.callValue
  match prepareIndirectContractCallInput env host sender value gasLimit dest function args
      gasToUse true with
  | .error err =>
    ((WithFault (some err) host host.runtime.elrondAPIErrorShouldFailExecution).1, 1)
  | .ok contractCallInput =>
    if isBuiltInCall env contractCallInput.Function then
      (host, 1)
    else
      let host := SetReadOnly host true
      let (host, err) := env.ExecuteOnSameContext host contractCallInput
      let host := SetReadOnly host false
      match WithFault err host host.runtime.elrondAPIErrorShouldFailExecution with
      | (host, true) => (host, 1)
      | (host, false) => (host, 0)

/-- Little-endian `int32` values of the consecutive 4-byte groups (the loop of
`createInt32Array`). -/
def int32Chunks : Bytes → List Int
  | b0 :: b1 :: b2 :: b3 :: rest =>
    toInt32 ((b0 + 256 * b1 + 65536 * b2 + 16777216 * b3 : Nat) : Int) :: int32Chunks rest
  | _ => []

/-- Embedding of `createInt32Array`: `numIntegers` entries, the decoded ones first, zero for the rest. -/
def createInt32Array (rawData : Bytes) (numIntegers : Int) : List Int :=
  let decoded := int32Chunks rawData
  decoded ++ List.replicate (numIntegers.toNat - decoded.length) 0

/-- Modelled from the spec: `runtime.MemLoadMultiple` (the runtime context is not under
`src/`): consecutive bounds-checked reads of the given lengths, starting at `offset`. -/
def MemLoadMultiple (host : VMHost) (offset : Int) : List Int → Except HostError (List Bytes)
  | [] => .ok []
  | length :: rest =>
    match MemLoad host offset length with
    | .error err => .error err
    | .ok result =>
      match MemLoadMultiple host (toInt32 (offset + length)) rest with
      | .error err => .error err
      | .ok results => .ok (result :: results)

/-- Embedding of `getArgumentsFromMemory`, with Go's three results `(data, totalArgumentBytes, err)`. -/
def getArgumentsFromMemory (host : VMHost) (numArguments argumentsLengthOffset dataOffset : Int) :
    List Bytes × Int × Option HostError :=
  if numArguments < 0 then
    ([], 0, some .ErrNegativeNumArguments)
  else
    match MemLoad host argumentsLengthOffset (toInt32 (numArguments * 4)) with
    | .error err => ([], 0, some err)
    | .ok argumentsLengthData =>
      let argumentLengths := createInt32Array argumentsLengthData numArguments
      match MemLoadMultiple host dataOffset argumentLengths with
      | .error err => ([], 0, some err)
      | .ok data =>
        let totalArgumentBytes :=
          argumentLengths.foldl (fun total length => toInt32 (total + length)) 0
        (data, totalArgumentBytes, none)

/-- The struct `indirectContractCallArguments`. -/
structure indirectContractCallArguments where
  dest : Bytes
  value : Option Int
  function : Bytes
  args : List Bytes
  actualLen : Int
  deriving DecidableEq, Repr

/-- Embedding of `extractIndirectContractCallArguments`: the `err` of `getArgumentsFromMemory` is assigned
and never read. -/
def extractIndirectContractCallArguments (host : VMHost) (destOffset valueOffset : Int)
    (hasValueOffset : Bool)
    (functionOffset functionLength numArguments argumentsLengthOffset dataOffset : Int) :
    VMHost × Except HostError indirectContractCallArguments :=
  match MemLoad host destOffset AddressLen with
  | .error err => (host, .error err)
  | .ok dest =>
    let valueResult : Except HostError (Option Int) :=
      if hasValueOffset then
        match MemLoad host valueOffset BalanceLen with
        | .error err => .error err
        | .ok valueBytes => .ok (some (bigSetBytes valueBytes))
      else .ok none
    match valueResult with
    | .error err => (host, .error err)
    | .ok value =>
      match MemLoad host functionOffset functionLength with
      | .error err => (host, .error err)
      | .ok function =>
        let (args, actualLen, _) :=
          getArgumentsFromMemory host numArguments argumentsLengthOffset dataOffset
        let gasToUse :=
          MulUint64 host.metering.gasSchedule.DataCopyPerByte (toUint64 actualLen)
        let host := UseGas host gasToUse
        (host, .ok { dest := dest, value := value, function := function, args := args,
                     actualLen := actualLen })

/-- Embedding of `extractIndirectContractCallArgumentsWithoutValue`. -/
def extractIndirectContractCallArgumentsWithoutValue (host : VMHost)
    (destOffset functionOffset functionLength numArguments argumentsLengthOffset
      dataOffset : Int) : VMHost × Except HostError indirectContractCallArguments :=
  extractIndirectContractCallArguments host destOffset 0 false functionOffset functionLength
    numArguments argumentsLengthOffset dataOffset

/-- Embedding of `ExecuteReadOnlyWithHost`. -/
def ExecuteReadOnlyWithHost (env : Collaborators) (host : VMHost) (gasLimit : Int)
    (addressOffset functionOffset functionLength numArguments argumentsLengthOffset
      dataOffset : Int) : VMHost × Int :=
  match extractIndirectContractCallArgumentsWithoutValue host addressOffset functionOffset
      functionLength numArguments argumentsLengthOffset dataOffset with
  | (host, .error err) =>
    ((WithFault (some err) host host.runtime.elrondAPIErrorShouldFailExecution).1, 1)
  | (host, .ok callArgs) =>
    ExecuteReadOnlyWithTypedArguments env host gasLimit callArgs.function callArgs.dest
      callArgs.args

/-! ## `asyncCall.go` -/

/-- The first loop body of `setupAsyncCallsGas` over the calls of one context: the running
`gasNeeded` and `callsWithZeroGas`, the calls as updated so far, and the error that stopped
the loop, if any. -/
def setupCallsGasLoop (gasLeft : Nat) :
    List AsyncGeneratedCall → Nat → Nat → List AsyncGeneratedCall × Nat × Nat × Option HostError
  | [], gasNeeded, callsWithZeroGas => ([], gasNeeded, callsWithZeroGas, none)
  | asyncCall :: rest, gasNeeded, callsWithZeroGas =>
    match AddUint64WithErr gasNeeded asyncCall.ProvidedGas with
    | .error err => (asyncCall :: rest, gasNeeded, callsWithZeroGas, some err)
    | .ok gasNeeded =>
      if gasLeft < gasNeeded then
        (asyncCall :: rest, gasNeeded, callsWithZeroGas, some .ErrNotEnoughGas)
      else if asyncCall.ProvidedGas = 0 then
        match setupCallsGasLoop gasLeft rest gasNeeded (callsWithZeroGas + 1) with
        | (rest, gasNeeded, callsWithZeroGas, err) =>
          (asyncCall :: rest, gasNeeded, callsWithZeroGas, err)
      else
        match setupCallsGasLoop gasLeft rest gasNeeded callsWithZeroGas with
        | (rest, gasNeeded, callsWithZeroGas, err) =>
          ({ asyncCall with GasLimit := asyncCall.ProvidedGas } :: rest, gasNeeded,
            callsWithZeroGas, err)

/-- The first loop of `setupAsyncCallsGas` over the contexts of the map. -/
def setupContextsGasLoop (gasLeft : Nat) :
    List (Bytes × AsyncContext) → Nat → Nat →
      List (Bytes × AsyncContext) × Nat × Nat × Option HostError
  | [], gasNeeded, callsWithZeroGas => ([], gasNeeded, callsWithZeroGas, none)
  | (identifier, asyncContext) :: rest, gasNeeded, callsWithZeroGas =>
    match setupCallsGasLoop gasLeft asyncContext.AsyncCalls gasNeeded callsWithZeroGas with
    | (calls, gasNeeded, callsWithZeroGas, some err) =>
      ((identifier, { asyncContext with AsyncCalls := calls }) :: rest, gasNeeded,
        callsWithZeroGas, some err)
    | (calls, gasNeeded, callsWithZeroGas, none) =>
      match setupContextsGasLoop gasLeft rest gasNeeded callsWithZeroGas with
      | (rest, gasNeeded, callsWithZeroGas, err) =>
        ((identifier, { asyncContext with AsyncCalls := calls }) :: rest, gasNeeded,
          callsWithZeroGas, err)

/-- The second loop of `setupAsyncCallsGas`: the share for every call without provided gas. -/
def shareGasLoop (gasShare : Nat) (contexts : List (Bytes × AsyncContext)) :
    List (Bytes × AsyncContext) :=
  contexts.map (fun entry =>
    (entry.1,
      { entry.2 with
        AsyncCalls := entry.2.AsyncCalls.map (fun asyncCall =>
          if asyncCall.ProvidedGas = 0 then { asyncCall with GasLimit := gasShare }
          else asyncCall) }))

/-- Embedding of `setupAsyncCallsGas`: the async info as left by the in-place updates, and the error. -/
def setupAsyncCallsGas (host : VMHost) (asyncInfo : AsyncContextInfo) :
    AsyncContextInfo × Option HostError :=
  let gasLeft := GasLeft host
  match setupContextsGasLoop gasLeft asyncInfo.AsyncContextMap 0 0 with
  | (contexts, _, _, some err) => ({ asyncInfo with AsyncContextMap := contexts }, some err)
  | (contexts, gasNeeded, callsWithZeroGas, none) =>
    if callsWithZeroGas = 0 then
      ({ asyncInfo with AsyncContextMap := contexts }, none)
    else if gasLeft ≤ gasNeeded then
      ({ asyncInfo with AsyncContextMap := contexts }, some .ErrNotEnoughGas)
    else
      let gasShare := (gasLeft - gasNeeded) / callsWithZeroGas
      ({ asyncInfo with AsyncContextMap := shareGasLoop gasShare contexts }, none)

/-- Modelled from the spec: `arwen.CustomStorageKey(arwen.AsyncDataPrefix, txHash)` (package
`arwen` is not under `src/`): "protectedKeyPrefix ∥ asyncDataPrefix ∥ originalTxHash". -/
def asyncCallStorageKey (env : Collaborators) (host : VMHost) : Bytes :=
  env.protectedKeyPrefix ++ env.AsyncDataPrefix ++ host.runtime.originalTxHash

/-- Modelled from the spec: `storage.GetStorageUnmetered` (the storage context is not under
`src/`): the stored bytes, empty for an unset key. -/
def GetStorageUnmetered (host : VMHost) (key : Bytes) : Bytes :=
  (mapGet? host.storage key).getD []

/-- Modelled from the spec: `storage.SetProtectedStorage` (the storage context is not under
`src/`): "Writes under readOnly fail"; otherwise the value is stored under the key. -/
def SetProtectedStorage (host : VMHost) (key value : Bytes) : VMHost × Option HostError :=
  if host.runtime.readOnly then
    (host, some .ErrSetProtectedStorage)
  else
    ({ host with storage := mapSet host.storage key value }, none)

/-- Position of the first call whose destination is the caller (the inner loop of
`processCallbackStack`). -/
def findCallPosition (callerAddr : Bytes) : List AsyncGeneratedCall → Option Nat
  | [] => none
  | asyncCall :: rest =>
    if callerAddr = asyncCall.Destination then some 0
    else (findCallPosition callerAddr rest).map (fun position => position + 1)

/-- The outer loop of `processCallbackStack`, threading `asyncCallPosition` and
`currentContextIdentifier`; it stops once the identifier is non-empty. -/
def findPendingCall (callerAddr : Bytes) :
    List (Bytes × AsyncContext) → Nat → Bytes → Nat × Bytes
  | [], asyncCallPosition, currentContextIdentifier =>
    (asyncCallPosition, currentContextIdentifier)
  | (contextIdentifier, asyncContext) :: rest, asyncCallPosition, currentContextIdentifier =>
    let found :=
      match findCallPosition callerAddr asyncContext.AsyncCalls with
      | some position => (position, contextIdentifier)
      | none => (asyncCallPosition, currentContextIdentifier)
    if 0 < found.2.length then found
    else findPendingCall callerAddr rest found.1 found.2

/-- Removal of the call at `asyncCallPosition`: the last call takes its place and the list is
cut by one. -/
def removePendingCall (currentContextCalls : List AsyncGeneratedCall) (asyncCallPosition : Nat) :
    List AsyncGeneratedCall :=
  match currentContextCalls.getLast? with
  | none => currentContextCalls
  | some last => (currentContextCalls.set asyncCallPosition last).dropLast

/-- The constant `arwen.CallbackFunctionName`, the text `callBack`. -/
def CallbackFunctionName : Bytes := [99, 97, 108, 108, 66, 97, 99, 107]

/-- Embedding of `isESDTTransferOnReturnDataFromFunctionAndArgs`. -/
def isESDTTransferOnReturnDataFromFunctionAndArgs (env : Collaborators)
    (sndAddr dstAddr functionName : Bytes) (args : List Bytes) : Bool × Bytes × List Bytes :=
  match env.ParseESDTTransfers sndAddr dstAddr functionName args with
  | .error _ => (false, functionName, args)
  | .ok callFunction => (callFunction.length == 0, functionName, args)

/-- Embedding of `isESDTTransferOnReturnDataWithNoAdditionalData`. -/
def isESDTTransferOnReturnDataWithNoAdditionalData (env : Collaborators)
    (sndAddr dstAddr : Bytes) (destinationVMOutput : VMOutput) : Bool × Bytes × List Bytes :=
  match destinationVMOutput.ReturnData with
  | [] => (false, [], [])
  | first :: _ =>
    match env.ParseData first with
    | (_, _, some _) => (false, [], [])
    | (functionName, args, none) =>
      isESDTTransferOnReturnDataFromFunctionAndArgs env sndAddr dstAddr functionName args

/-- Embedding of `determineAsyncCallExecutionMode`, with Go's two results. -/
def determineAsyncCallExecutionMode (env : Collaborators) (host : VMHost)
    (asyncCallInfo : AsyncCallInfo) : AsyncCallExecutionMode × Option HostError :=
  match env.ParseData asyncCallInfo.Data with
  | (_, _, some err) => (.AsyncUnknown, some err)
  | (functionName, args, none) =>
    let sameShard := env.AreInSameShard host.runtime.scAddress asyncCallInfo.Destination
    if env.IsBuiltinFunctionName functionName then
      if sameShard then
        let isESDTTransfer :=
          (isESDTTransferOnReturnDataFromFunctionAndArgs env host.runtime.scAddress
            asyncCallInfo.Destination functionName args).1
        if isESDTTransfer && decide (host.runtime.callType = .AsynchronousCall)
            && decide (host.runtime.callerAddr = asyncCallInfo.Destination) then
          (.ESDTTransferOnCallBack, none)
        else
          (.AsyncBuiltinFuncIntraShard, none)
      else
        (.AsyncBuiltinFuncCrossShard, none)
    else
      let (code, err) := env.GetCode asyncCallInfo.Destination
      if 0 < code.length ∧ err = none then
        (.SyncCall, none)
      else
        (.AsyncUnknown, none)

/-- Embedding of `canExecuteSynchronously`. -/
def canExecuteSynchronously (env : Collaborators) (destination : Bytes) (_data : Bytes) : Bool :=
  let (calledSCCode, err) := env.GetCode destination
  decide (0 < calledSCCode.length) && decide (err = none)

/-- Embedding of `sendStorageCallbackToDestination`. -/
def sendStorageCallbackToDestination (env : Collaborators) (host : VMHost)
    (callerAddress returnData : Bytes) : VMHost × Option HostError :=
  match env.Transfer host callerAddress host.runtime.scAddress (GasLeft host) 0
      host.runtime.callValue returnData .AsynchronousCallBack with
  | (host, some err) =>
    let host := UseGas host (GasLeft host)
    (FailExecution host err, some err)
  | (host, none) => (host, none)

/-- Embedding of `computeCallValueFromLastOutputTransfer`. -/
def computeCallValueFromLastOutputTransfer (host : VMHost) (destinationVMOutput : VMOutput) :
    Int :=
  if 0 < destinationVMOutput.ReturnData.length then
    0
  else
    match mapGet? destinationVMOutput.OutputAccounts host.runtime.scAddress with
    | none => 0
    | some outAcc =>
      match outAcc.OutputTransfers.getLast? with
      | none => 0
      | some lastOutTransfer =>
        if lastOutTransfer.Data.length = 0 then lastOutTransfer.Value else 0

/-- Embedding of `computeDataLengthFromArguments`; the result is kept as the `uint64` it is
converted back to at its use. -/
def computeDataLengthFromArguments (function : Bytes) (arguments : List Bytes) : Nat :=
  let numSeparators := arguments.length
  arguments.foldl (fun dataLength element => AddUint64 dataLength element.length)
    (AddUint64 function.length numSeparators)

/-- Embedding of `createCallbackContractCallInput`. A nil `asyncCallInfo` is `none`: the call
`asyncCallInfo.GetGasLocked()` then panics. -/
def createCallbackContractCallInput (env : Collaborators) (host : VMHost)
    (asyncCallInfo : Option AsyncCallInfo) (destinationVMOutput : VMOutput)
    (callbackInitiator callbackFunction : Bytes) (destinationErr : Option HostError) :
    Except HostError ContractCallInput :=
  let returnCodeBytes := bigBytes (destinationVMOutput.ReturnCode : Int)
  let arguments : List Bytes := [returnCodeBytes]
  let succeeded := decide (destinationErr = none) && decide (destinationVMOutput.ReturnCode = 0)
  let esdt : Bool × Bytes × List Bytes :=
    if succeeded then
      isESDTTransferOnReturnDataWithNoAdditionalData env callbackInitiator host.runtime.scAddress
        destinationVMOutput
    else (false, [], [])
  let arguments :=
    if succeeded then arguments ++ destinationVMOutput.ReturnData
    else arguments ++ [destinationVMOutput.ReturnMessage]
  let returnWithError := !succeeded
  match asyncCallInfo with
  | none => .error .PanicNilDereference
  | some asyncCallInfo =>
    let gasLimit := (destinationVMOutput.GasRemaining + asyncCallInfo.GasLocked) % 2 ^ 64
    let dataLength := computeDataLengthFromArguments callbackFunction arguments
    let gasToUse := host.metering.gasSchedule.AsyncCallStep
    let gas := MulUint64 host.metering.gasSchedule.DataCopyPerByte dataLength
    let gasToUse := AddUint64 gasToUse gas
    if gasLimit ≤ gasToUse then
      .error .ErrNotEnoughGas
    else
      let gasLimit := gasLimit - gasToUse
      let contractCallInput : ContractCallInput :=
        { CallerAddr := callbackInitiator,
          Arguments := arguments,
          CallValue := computeCallValueFromLastOutputTransfer host destinationVMOutput,
          CallType := .AsynchronousCallBack,
          GasPrice := host.runtime.gasPrice,
          GasProvided := gasLimit,
          CurrentTxHash := host.runtime.currentTxHash,
          OriginalTxHash := host.runtime.originalTxHash,
          ReturnCallAfterError := returnWithError,
          RecipientAddr := host.runtime.scAddress,
          Function := callbackFunction }
      if esdt.1 then
        .ok { contractCallInput with
              Function := esdt.2.1,
              Arguments := esdt.2.2 ++ [callbackFunction] ++ [returnCodeBytes]
                ++ (if 1 < destinationVMOutput.ReturnData.length then
                      destinationVMOutput.ReturnData.drop 1 else []) }
      else
        .ok contractCallInput

/-- Modelled from the spec: `output.Finish` (the output context is not under `src/`):
"append to return data of the current frame". -/
def Finish (host : VMHost) (data : Bytes) : VMHost :=
  { host with output := { host.output with ReturnData := host.output.ReturnData ++ [data] } }

/-- Modelled from the spec: `output.SetReturnMessage` (the output context is not under
`src/`), the setter of the return message of the output. -/
def SetReturnMessage (host : VMHost) (message : Bytes) : VMHost :=
  { host with output := { host.output with ReturnMessage := message } }

/-- Embedding of `processCallbackVMOutput`. -/
def processCallbackVMOutput (env : Collaborators) (host : VMHost)
    (callbackVMOutput : Option VMOutput) (callBackErr : Option HostError) :
    VMHost × Option HostError :=
  match callBackErr with
  | none => (host, none)
  | some err =>
    let host := { host with runtime := { host.runtime with gasProvided := 0 } }
    let callbackVMOutput := callbackVMOutput.getD (env.CreateVMOutputInCaseOfError err)
    let host := SetReturnMessage host callbackVMOutput.ReturnMessage
    let host := Finish host (env.returnCodeString callbackVMOutput.ReturnCode)
    let host := Finish host host.runtime.currentTxHash
    (host, none)

/-- Embedding of `processCallbackStack`. -/
def processCallbackStack (env : Collaborators) (host : VMHost) : VMHost × Option HostError :=
  let storageKey := asyncCallStorageKey env host
  let buff := GetStorageUnmetered host storageKey
  if buff.length = 0 then
    (host, none)
  else
    match env.jsonUnmarshal buff with
    | .error err => (host, some err)
    | .ok asyncInfo =>
      let (asyncCallPosition, currentContextIdentifier) :=
        findPendingCall host.runtime.callerAddr asyncInfo.AsyncContextMap 0 []
      if currentContextIdentifier.length = 0 then
        (host, some .ErrCallBackFuncNotExpected)
      else
        let currentContextCalls :=
          ((mapGet? asyncInfo.AsyncContextMap currentContextIdentifier).map
            (fun asyncContext => asyncContext.AsyncCalls)).getD []
        let currentContextCalls := removePendingCall currentContextCalls asyncCallPosition
        let asyncContextMap :=
          if currentContextCalls.length = 0 then
            mapDelete asyncInfo.AsyncContextMap currentContextIdentifier
          else asyncInfo.AsyncContextMap
        if 0 < asyncContextMap.length then
          (host, none)
        else
          match SetProtectedStorage host storageKey [] with
          | (host, some err) => (host, some err)
          | (host, none) =>
            if !canExecuteSynchronously env asyncInfo.CallerAddr asyncInfo.ReturnData then
              sendStorageCallbackToDestination env host asyncInfo.CallerAddr asyncInfo.ReturnData
            else
              match createCallbackContractCallInput env host none (env.GetVMOutput host)
                  asyncInfo.CallerAddr CallbackFunctionName none with
              | .error err => (host, some err)
              | .ok callbackCallInput =>
                match env.ExecuteOnDestContext host callbackCallInput with
                | (host, callbackVMOutput, callBackErr) =>
                  processCallbackVMOutput env host callbackVMOutput callBackErr

/-! ## Quantities used to state the gas partition -/

/-- Exact sum of the provided gas of the calls of one context. -/
def sumProvidedGasCalls (calls : List AsyncGeneratedCall) : Nat :=
  (calls.map (fun asyncCall => asyncCall.ProvidedGas)).sum

/-- Exact sum of the provided gas of all calls of all contexts. -/
def sumProvidedGas (contexts : List (Bytes × AsyncContext)) : Nat :=
  (contexts.map (fun entry => sumProvidedGasCalls entry.2.AsyncCalls)).sum

/-- Number of calls of one context with `ProvidedGas = 0`. -/
def countZeroGasCalls (calls : List AsyncGeneratedCall) : Nat :=
  (calls.filter (fun asyncCall => decide (asyncCall.ProvidedGas = 0))).length

/-- Number of calls of all contexts with `ProvidedGas = 0`. -/
def countZeroGas (contexts : List (Bytes × AsyncContext)) : Nat :=
  (contexts.map (fun entry => countZeroGasCalls entry.2.AsyncCalls)).sum

/-- The gas limits the spec describes: the provided gas where there is some, the share
otherwise. -/
def assignGasLimits (gasShare : Nat) (contexts : List (Bytes × AsyncContext)) :
    List (Bytes × AsyncContext) :=
  contexts.map (fun entry =>
    (entry.1,
      { entry.2 with
        AsyncCalls := entry.2.AsyncCalls.map (fun asyncCall =>
          { asyncCall with
            GasLimit := if asyncCall.ProvidedGas = 0 then gasShare
              else asyncCall.ProvidedGas }) }))

/-- The update of the first loop on one call. -/
def withProvidedGas (asyncCall : AsyncGeneratedCall) : AsyncGeneratedCall :=
  if asyncCall.ProvidedGas = 0 then asyncCall
  else { asyncCall with GasLimit := asyncCall.ProvidedGas }

/-- The first loop alone, written as one map. -/
def withProvidedGasAll (contexts : List (Bytes × AsyncContext)) : List (Bytes × AsyncContext) :=
  contexts.map (fun entry =>
    (entry.1, { entry.2 with AsyncCalls := entry.2.AsyncCalls.map withProvidedGas }))

/-! ## More of `metering.go` and `managedType.go` -/

/-- Embedding of `RestoreGas`. -/
def RestoreGas (host : VMHost) (gas : Nat) : VMHost :=
  let gasUsed := host.runtime.pointsUsed
  if gas ≤ gasUsed then
    let gasUsed := SubUint64 gasUsed gas
    { host with runtime := { host.runtime with pointsUsed := gasUsed } }
  else
    host

/-- Embedding of `deductInitialGas`; `input.GasProvided` is the gas provided of the runtime's
`VMInput`. -/
def deductInitialGas (host : VMHost) (code : Bytes) (baseCost costPerByte : Nat) :
    VMHost × Option HostError :=
  let codeLength := code.length
  let codeCost := MulUint64 codeLength costPerByte
  let initialCost := AddUint64 baseCost codeCost
  if host.runtime.gasProvided < initialCost then
    (host, some .ErrNotEnoughGas)
  else
    ({ host with metering :=
        { host.metering with
          initialCost := initialCost,
          gasForExecution := host.runtime.gasProvided - initialCost } }, none)

/-- Embedding of `DeductInitialGasForExecution`. -/
def DeductInitialGasForExecution (host : VMHost) (contract : Bytes) : VMHost × Option HostError :=
  let costPerByte := host.metering.gasSchedule.AoTPreparePerByte
  let baseCost := host.metering.gasSchedule.GetCode
  match deductInitialGas host contract baseCost costPerByte with
  | (host, some err) => (host, some err)
  | (host, none) => (host, none)

/-- The field of `arwen.CodeDeployInput` that the deployment costs read. -/
structure CodeDeployInput where
  ContractCode : Bytes
  deriving DecidableEq, Repr

/-- Embedding of `DeductInitialGasForDirectDeployment`. -/
def DeductInitialGasForDirectDeployment (host : VMHost) (input : CodeDeployInput) :
    VMHost × Option HostError :=
  deductInitialGas host input.ContractCode host.metering.gasSchedule.CreateContract
    host.metering.gasSchedule.CompilePerByte

/-- Embedding of `DeductInitialGasForIndirectDeployment`. -/
def DeductInitialGasForIndirectDeployment (host : VMHost) (input : CodeDeployInput) :
    VMHost × Option HostError :=
  deductInitialGas host input.ContractCode 0 host.metering.gasSchedule.CompilePerByte

/-- The saturating cost `baseCost + len(code) × costPerByte` that `deductInitialGas` computes. -/
def cappedInitialCost (code : Bytes) (baseCost costPerByte : Nat) : Nat :=
  min (baseCost + code.length * costPerByte) MaxUint64

/-- The probing loop of `PutBigInt`: the probe starts at `int32(len(bigIntValues))` and steps by one,
wrapping as `int32` does; `fuel` bounds the number of steps. -/
def probeBigIntHandle {ν : Type} (bigIntValues : List (Int × ν)) : Nat → Int → Int
  | 0, newHandle => newHandle
  | fuel + 1, newHandle =>
    if (mapGet? bigIntValues newHandle).isSome then
      probeBigIntHandle bigIntValues fuel (toInt32 (newHandle + 1))
    else newHandle

/-- Embedding of `PutBigInt`; a table of `n` entries has a free handle among any `n + 1`
distinct ones, so `n + 1` steps suffice. -/
def PutBigInt (host : VMHost) (value : Int) : VMHost × Int :=
  let newHandle := probeBigIntHandle host.managedTypes.bigIntValues
    (host.managedTypes.bigIntValues.length + 1) (toInt32 host.managedTypes.bigIntValues.length)
  ({ host with managedTypes :=
      { bigIntValues := mapSet host.managedTypes.bigIntValues newHandle value } }, newHandle)

/-- The operations of the handle-allocation claim on one managed-types state. -/
inductive HandleOp where
  | put (value : Int)
  | getOrCreate (handle : Int)
  deriving DecidableEq, Repr

/-- Runs the operations in order and collects the handles that `PutBigInt` returned. -/
def runHandleOps : List HandleOp → VMHost → VMHost × List Int
  | [], host => (host, [])
  | .put value :: rest, host =>
    let (host, handle) := PutBigInt host value
    let (host, handles) := runHandleOps rest host
    (host, handle :: handles)
  | .getOrCreate handle :: rest, host =>
    runHandleOps rest (GetBigIntOrCreate host handle).1

/-! ## Pointer-level model of `managedTypesContext`

Where sharing matters (the state stack), big ints are objects of a heap that the handle
table points to, and managed buffers are Go slices over backing arrays of a heap. -/

/-- A Go slice of bytes: its backing array (the index in the heap of arrays), the offset of its
first element in that array, its length and its capacity. -/
structure GoSlice where
  array : Nat
  offset : Nat
  len : Nat
  cap : Nat
  deriving DecidableEq, Repr

/-- The fields of Go's `elliptic.CurveParams`. -/
structure CurveParams where
  P : Int
  N : Int
  B : Int
  Gx : Int
  Gy : Int
  BitSize : Int
  Name : Bytes
  deriving DecidableEq, Repr

/-- The struct `managedTypesState`: the `bigIntMap` of pointers, the `managedBufferMap` of
slices and the `ellipticCurveMap`, whose curves are never written after their insertion and
are held by value here. -/
structure managedTypesState where
  bigIntValues : List (Int × Nat)
  mBufferValues : List (Int × GoSlice)
  ecValues : List (Int × CurveParams) := []
  deriving DecidableEq, Repr

/-- The struct `managedTypesContext`, together with the heap of `big.Int` objects and the heap
of byte arrays that its pointers and slices refer to. -/
structure managedTypesContext where
  bigInts : List Int
  arrays : List (List Nat)
  managedTypesValues : managedTypesState
  managedTypesStack : List managedTypesState
  deriving DecidableEq, Repr

namespace managedTypesContext

/-- The bytes a slice shows. -/
def sliceBytes (arrays : List (List Nat)) (slice : GoSlice) : Bytes :=
  (((arrays.get? slice.array).getD []).drop slice.offset).take slice.len

/-- The array with `data` written from position `pos` on. -/
def writeAt (array : List Nat) (pos : Nat) (data : Bytes) : List Nat :=
  array.take pos ++ data ++ array.drop (pos + data.length)

/-- The allocation sizes of Go's runtime up to 32768 bytes (the table of its
`sizeclasses.go`). -/
def goSizeClasses : List Nat :=
  [8, 16, 24, 32, 48, 64, 80, 96, 112, 128, 144, 160, 176, 192, 208, 224, 240, 256, 288, 320,
   352, 384, 416, 448, 480, 512, 576, 640, 704, 768, 896, 1024, 1152, 1280, 1408, 1536, 1792,
   2048, 2304, 2688, 3072, 3200, 3456, 4096, 4864, 5120, 5376, 6144, 6528, 6784, 6912, 8192,
   9472, 9728, 10240, 10880, 12288, 13568, 14336, 16384, 18432, 19072, 20480, 21760, 24576,
   27264, 28672, 32768]

/-- Go's `roundupsize`: the allocation that holds `size` bytes, the least size class that
reaches it or, beyond the classes, the next multiple of the page size 8192. -/
def roundupsize (size : Nat) : Nat :=
  match goSizeClasses.find? (fun sizeClass => decide (size ≤ sizeClass)) with
  | some sizeClass => sizeClass
  | none => (size + 8191) / 8192 * 8192

/-- The loop of Go's `growslice` for a capacity from 256 on: a quarter of the capacity and
192 more are added until `newLen` is reached. Every round adds more than one, so `newLen`
rounds of fuel are enough. -/
def growLoop (newLen : Nat) : Nat → Nat → Nat
  | 0, newcap => newcap
  | fuel + 1, newcap =>
    if newcap < newLen then growLoop newLen fuel (newcap + (newcap + 3 * 256) / 4) else newcap

/-- The capacity that Go's `growslice` (Go 1.18 and later) gives a slice of bytes of capacity
`oldCap` that has to hold `newLen` bytes: `newLen` itself when doubling does not reach it,
twice the old capacity below 256, the result of the loop otherwise, rounded up to an
allocation size. -/
def growCap (oldCap newLen : Nat) : Nat :=
  let doublecap := oldCap + oldCap
  let newcap :=
    if doublecap < newLen then newLen
    else if oldCap < 256 then doublecap
    else growLoop newLen newLen oldCap
  roundupsize newcap

/-- Go's `append(slice, data...)`: within the capacity the data is written into the backing
array behind the slice's last element; beyond it a new array of the capacity `growCap`,
zeroed behind the result, holds the result. -/
def goAppend (arrays : List (List Nat)) (slice : GoSlice) (data : Bytes) :
    List (List Nat) × GoSlice :=
  if slice.len + data.length ≤ slice.cap then
    (arrays.set slice.array
        (writeAt ((arrays.get? slice.array).getD []) (slice.offset + slice.len) data),
      { slice with len := slice.len + data.length })
  else
    let grown := sliceBytes arrays slice ++ data
    let newcap := growCap slice.cap grown.length
    (arrays ++ [grown ++ List.replicate (newcap - grown.length) 0],
      { array := arrays.length, offset := 0, len := grown.length, cap := newcap })

/-- The value of the big int a pointer refers to. -/
def bigIntOf (bigInts : List Int) (pointer : Nat) : Int :=
  (bigInts.get? pointer).getD 0

/-- The big-int loop of `clone`: every handle gets a new object holding the same value
(`big.NewInt(0).Set(bigInt)`). -/
def cloneBigIntValues (bigInts : List Int) : List (Int × Nat) → List Int × List (Int × Nat)
  | [] => (bigInts, [])
  | (bigIntHandle, bigInt) :: rest =>
    let copy := bigIntOf bigInts bigInt
    match cloneBigIntValues (bigInts ++ [copy]) rest with
    | (bigInts2, restClone) => (bigInts2, (bigIntHandle, bigInts.length) :: restClone)

/-- Embedding of `clone`: the big ints are copied into new objects, the buffers keep their
slices (`newmBufferState[mBufferHandle] = mBuffer`) and the curves are kept as they are. -/
def clone (context : managedTypesContext) : managedTypesContext × managedTypesState :=
  match cloneBigIntValues context.bigInts context.managedTypesValues.bigIntValues with
  | (bigInts, newBigIntState) =>
    ({ context with bigInts := bigInts },
      { bigIntValues := newBigIntState,
        mBufferValues := context.managedTypesValues.mBufferValues,
        ecValues := context.managedTypesValues.ecValues })

/-- Embedding of `PushState`. -/
def PushState (context : managedTypesContext) : managedTypesContext :=
  match clone context with
  | (context, newState) =>
    { context with managedTypesStack := context.managedTypesStack ++ [newState] }

/-- Embedding of `PopSetActiveState`. -/
def PopSetActiveState (context : managedTypesContext) : managedTypesContext :=
  match context.managedTypesStack.getLast? with
  | none => context
  | some prevState =>
    { context with
      managedTypesValues :=
        { bigIntValues := prevState.bigIntValues, mBufferValues := prevState.mBufferValues,
          ecValues := prevState.ecValues },
      managedTypesStack := context.managedTypesStack.dropLast }

/-- Embedding of `GetBigIntOrCreate`: the pointer under the handle, after creating a
`big.NewInt(0)` there when missing. -/
def GetBigIntOrCreate (context : managedTypesContext) (handle : Int) :
    managedTypesContext × Nat :=
  match mapGet? context.managedTypesValues.bigIntValues handle with
  | some value => (context, value)
  | none =>
    ({ context with
        bigInts := context.bigInts ++ [0],
        managedTypesValues :=
          { context.managedTypesValues with
            bigIntValues :=
              mapSet context.managedTypesValues.bigIntValues handle context.bigInts.length } },
      context.bigInts.length)

/-- Embedding of `GetTwoBigInt`. -/
def GetTwoBigInt (context : managedTypesContext) (handle1 handle2 : Int) :
    Except HostError (Nat × Nat) :=
  match mapGet? context.managedTypesValues.bigIntValues handle1 with
  | none => .error .ErrNoBigIntUnderThisHandle
  | some value1 =>
    match mapGet? context.managedTypesValues.bigIntValues handle2 with
    | none => .error .ErrNoBigIntUnderThisHandle
    | some value2 => .ok (value1, value2)

/-- Embedding of `PutBigInt`. -/
def PutBigInt (context : managedTypesContext) (value : Int) : managedTypesContext × Int :=
  let newHandle := probeBigIntHandle context.managedTypesValues.bigIntValues
    (context.managedTypesValues.bigIntValues.length + 1)
    (toInt32 context.managedTypesValues.bigIntValues.length)
  ({ context with
      bigInts := context.bigInts ++ [value],
      managedTypesValues :=
        { context.managedTypesValues with
          bigIntValues :=
            mapSet context.managedTypesValues.bigIntValues newHandle context.bigInts.length } },
    newHandle)

/-- A write through a `*big.Int`: `dest.SetInt64(value)`, `dest.Add(a, b)`. -/
def writeBigInt (context : managedTypesContext) (pointer : Nat) (value : Int) :
    managedTypesContext :=
  { context with bigInts := context.bigInts.set pointer value }

/-- What `v1_4_bigIntSetInt64` does to the managed types. -/
def bigIntSetInt64 (context : managedTypesContext) (destinationHandle : Int) (value : Int) :
    managedTypesContext :=
  match GetBigIntOrCreate context destinationHandle with
  | (context, dest) => writeBigInt context dest value

/-- What `v1_4_bigIntAdd` does to the managed types. -/
def bigIntAdd (context : managedTypesContext) (destinationHandle op1Handle op2Handle : Int) :
    managedTypesContext :=
  match GetBigIntOrCreate context destinationHandle with
  | (context, dest) =>
    match GetTwoBigInt context op1Handle op2Handle with
    | .error _ => context
    | .ok (a, b) =>
      writeBigInt context dest (bigIntOf context.bigInts a + bigIntOf context.bigInts b)

/-- Embedding of `SetBytes`; the caller's bytes come in a slice of their own. -/
def SetBytes (context : managedTypesContext) (mBufferHandle : Int) (bytes : Bytes) :
    managedTypesContext :=
  { context with
    arrays := context.arrays ++ [bytes],
    managedTypesValues :=
      { context.managedTypesValues with
        mBufferValues :=
          mapSet context.managedTypesValues.mBufferValues mBufferHandle
            { array := context.arrays.length, offset := 0, len := bytes.length,
              cap := bytes.length } } }

/-- Embedding of `GetBytes`. -/
def GetBytes (context : managedTypesContext) (mBufferHandle : Int) : Except HostError Bytes :=
  match mapGet? context.managedTypesValues.mBufferValues mBufferHandle with
  | none => .error .ErrNoManagedBufferUnderThisHandle
  | some mBuffer => .ok (sliceBytes context.arrays mBuffer)

/-- Embedding of `AppendBytes`. -/
def AppendBytes (context : managedTypesContext) (mBufferHandle : Int) (bytes : Bytes) :
    managedTypesContext × Bool :=
  match mapGet? context.managedTypesValues.mBufferValues mBufferHandle with
  | none => (context, false)
  | some mBuffer =>
    match goAppend context.arrays mBuffer bytes with
    | (arrays, mBuffer) =>
      ({ context with
          arrays := arrays,
          managedTypesValues :=
            { context.managedTypesValues with
              mBufferValues :=
                mapSet context.managedTypesValues.mBufferValues mBufferHandle mBuffer } },
        true)

/-- Embedding of `DeleteSlice`. -/
def DeleteSlice (context : managedTypesContext) (mBufferHandle startPosition lengthOfSlice : Int) :
    managedTypesContext × Except HostError Bytes :=
  match mapGet? context.managedTypesValues.mBufferValues mBufferHandle with
  | none => (context, .error .ErrNoManagedBufferUnderThisHandle)
  | some mBuffer =>
    if lengthOfSlice < 0 ∨ startPosition < 0 then
      (context, .error .ErrBadBounds)
    else if (mBuffer.cap : Int) < startPosition then
      (context, .error .PanicSliceBounds)
    else
      let head : GoSlice := { mBuffer with len := startPosition.toNat }
      let result : List (List Nat) × GoSlice :=
        if (mBuffer.len : Int) - startPosition < lengthOfSlice then
          (context.arrays, head)
        else
          let tail : GoSlice :=
            { array := mBuffer.array,
              offset := mBuffer.offset + (startPosition + lengthOfSlice).toNat,
              len := mBuffer.len - (startPosition + lengthOfSlice).toNat,
              cap := mBuffer.cap - (startPosition + lengthOfSlice).toNat }
          goAppend context.arrays head (sliceBytes context.arrays tail)
      let context : managedTypesContext :=
        { context with
          arrays := result.1,
          managedTypesValues :=
            { context.managedTypesValues with
              mBufferValues :=
                mapSet context.managedTypesValues.mBufferValues mBufferHandle result.2 } }
      (context, .ok (sliceBytes context.arrays result.2))

/-- Embedding of `InsertSlice`. The inserted `slice` is a Go slice of the heap, which may
share its backing array with the buffer: the inner `append(slice, mBuffer[startPosition:]...)`
runs first and writes behind `slice` when its capacity allows, then the outer `append` reads
`mBuffer[:startPosition]` and the inner result from the heap as the inner one left it. -/
def InsertSlice (context : managedTypesContext) (mBufferHandle startPosition : Int)
    (slice : GoSlice) : managedTypesContext × Except HostError Bytes :=
  match mapGet? context.managedTypesValues.mBufferValues mBufferHandle with
  | none => (context, .error .ErrNoManagedBufferUnderThisHandle)
  | some mBuffer =>
    if startPosition < 0 ∨ toInt32 (toInt32 mBuffer.len - 1) < startPosition then
      (context, .error .ErrBadBounds)
    else
      let head : GoSlice := { mBuffer with len := startPosition.toNat }
      let tail : GoSlice :=
        { array := mBuffer.array, offset := mBuffer.offset + startPosition.toNat,
          len := mBuffer.len - startPosition.toNat, cap := mBuffer.cap - startPosition.toNat }
      let inner := goAppend context.arrays slice (sliceBytes context.arrays tail)
      let result := goAppend inner.1 head (sliceBytes inner.1 inner.2)
      let context : managedTypesContext :=
        { context with
          arrays := result.1,
          managedTypesValues :=
            { context.managedTypesValues with
              mBufferValues :=
                mapSet context.managedTypesValues.mBufferValues mBufferHandle result.2 } }
      (context, .ok (sliceBytes context.arrays result.2))

end managedTypesContext

/-- The big-int operations of the state-stack claim. -/
inductive BigIntOp where
  | getOrCreate (handle : Int)
  | put (value : Int)
  | setInt64 (destinationHandle : Int) (value : Int)
  | add (destinationHandle op1Handle op2Handle : Int)
  deriving DecidableEq, Repr

/-- One big-int operation on the current state. -/
def applyBigIntOp (context : managedTypesContext) : BigIntOp → managedTypesContext
  | .getOrCreate handle => (context.GetBigIntOrCreate handle).1
  | .put value => (context.PutBigInt value).1
  | .setInt64 destinationHandle value => context.bigIntSetInt64 destinationHandle value
  | .add destinationHandle op1Handle op2Handle =>
    context.bigIntAdd destinationHandle op1Handle op2Handle

/-- A sequence of big-int operations on the current state. -/
def applyBigIntOps (context : managedTypesContext) (ops : List BigIntOp) : managedTypesContext :=
  ops.foldl applyBigIntOp context

/-- The big-int table as the guest sees it: the handles with the values they hold. -/
def bigIntTable (context : managedTypesContext) : List (Int × Int) :=
  context.managedTypesValues.bigIntValues.map
    (fun entry => (entry.1, managedTypesContext.bigIntOf context.bigInts entry.2))

/-- Every pointer of the current big-int table refers to an object of the heap. -/
def bigIntPointersValid (context : managedTypesContext) : Prop :=
  ∀ entry ∈ context.managedTypesValues.bigIntValues, entry.2 < context.bigInts.length

/-- A context holding the buffer `[1, 2, 3, 4]` under handle 0 and the big ints 10 and 20
under the handles 0 and 1. -/
def bufferContext : managedTypesContext :=
  { bigInts := [10, 20],
    arrays := [[1, 2, 3, 4]],
    managedTypesValues :=
      { bigIntValues := [(0, 0), (1, 1)],
        mBufferValues := [(0, { array := 0, offset := 0, len := 4, cap := 4 })] },
    managedTypesStack := [] }

/-- Every pointer of the current big-int table refers to an object of the heap outside the
range from `lo` up to `hi`, and the heap reaches `hi`. -/
def bigIntPointersAvoid (lo hi : Nat) (context : managedTypesContext) : Prop :=
  (∀ entry ∈ context.managedTypesValues.bigIntValues,
      entry.2 < context.bigInts.length ∧ (entry.2 < lo ∨ hi ≤ entry.2))
  ∧ hi ≤ context.bigInts.length

/-! ## More of `managedType.go`: slices and curves -/

/-- Embedding of `GetSlice`; the slice expression `mBuffer[startPosition:(startPosition +
lengthOfSlice)]` adds in `int32` and panics outside the capacity. The function writes
nothing: the context is returned as it was. -/
def managedTypesContext.GetSlice (context : managedTypesContext)
    (mBufferHandle startPosition lengthOfSlice : Int) :
    managedTypesContext × Except HostError Bytes :=
  match mapGet? context.managedTypesValues.mBufferValues mBufferHandle with
  | none => (context, .error .ErrNoManagedBufferUnderThisHandle)
  | some mBuffer =>
    if (mBuffer.len : Int) - startPosition < lengthOfSlice ∨ lengthOfSlice < 0
        ∨ startPosition < 0 then
      (context, .error .ErrBadBounds)
    else
      let high := toInt32 (startPosition + lengthOfSlice)
      if high < startPosition ∨ (mBuffer.cap : Int) < high then
        (context, .error .PanicSliceBounds)
      else
        (context,
          .ok (managedTypesContext.sliceBytes context.arrays
            { array := mBuffer.array, offset := mBuffer.offset + startPosition.toNat,
              len := (high - startPosition).toNat, cap := mBuffer.cap - startPosition.toNat }))

/-- The slice that `GetSlice` returns on success, as a slice of the heap:
`mBuffer[startPosition:(startPosition + lengthOfSlice)]` shares the backing array of the
buffer and keeps the capacity behind its start. -/
def managedTypesContext.GetSliceHeader (context : managedTypesContext)
    (mBufferHandle startPosition lengthOfSlice : Int) : Option GoSlice :=
  match mapGet? context.managedTypesValues.mBufferValues mBufferHandle with
  | none => none
  | some mBuffer =>
    if (mBuffer.len : Int) - startPosition < lengthOfSlice ∨ lengthOfSlice < 0
        ∨ startPosition < 0 then
      none
    else
      let high := toInt32 (startPosition + lengthOfSlice)
      if high < startPosition ∨ (mBuffer.cap : Int) < high then
        none
      else
        some { array := mBuffer.array, offset := mBuffer.offset + startPosition.toNat,
               len := (high - startPosition).toNat, cap := mBuffer.cap - startPosition.toNat }

/-- A slice of the heap that Go can hold: its backing array exists and reaches the slice's
capacity, and the length is within the capacity. -/
def sliceWellFormed (arrays : List (List Nat)) (slice : GoSlice) : Prop :=
  ∃ backing, arrays.get? slice.array = some backing
    ∧ slice.offset + slice.cap ≤ backing.length ∧ slice.len ≤ slice.cap

/-- The constant `p224CurveMultiplier`. -/
def p224CurveMultiplier : Int := 100

/-- The constant `p256CurveMultiplier`. -/
def p256CurveMultiplier : Int := 135

/-- The constant `p384CurveMultiplier`. -/
def p384CurveMultiplier : Int := 200

/-- The constant `p521CurveMultiplier`. -/
def p521CurveMultiplier : Int := 250

/-- The constant `p224CurveScalarMultMultiplier`. -/
def p224CurveScalarMultMultiplier : Int := 100

/-- The constant `p256CurveScalarMultMultiplier`. -/
def p256CurveScalarMultMultiplier : Int := 110

/-- The constant `p384CurveScalarMultMultiplier`. -/
def p384CurveScalarMultMultiplier : Int := 150

/-- The constant `p521CurveScalarMultMultiplier`. -/
def p521CurveScalarMultMultiplier : Int := 190

/-- The constant `p224CurveUnmarshalCompressedMultiplier`. -/
def p224CurveUnmarshalCompressedMultiplier : Int := 2000

/-- The constant `p256CurveUnmarshalCompressedMultiplier`. -/
def p256CurveUnmarshalCompressedMultiplier : Int := 100

/-- The constant `p384CurveUnmarshalCompressedMultiplier`. -/
def p384CurveUnmarshalCompressedMultiplier : Int := 200

/-- The constant `p521CurveUnmarshalCompressedMultiplier`. -/
def p521CurveUnmarshalCompressedMultiplier : Int := 400

/-- Embedding of `GetEllipticCurveSizeOfField`: `int32(curve.BitSize)`, or -1. -/
def managedTypesContext.GetEllipticCurveSizeOfField (context : managedTypesContext)
    (ecHandle : Int) : Int :=
  match mapGet? context.managedTypesValues.ecValues ecHandle with
  | none => -1
  | some curve => toInt32 curve.BitSize

/-- Embedding of `Get100xCurveGasCostMultiplier`. -/
def managedTypesContext.Get100xCurveGasCostMultiplier (context : managedTypesContext)
    (ecHandle : Int) : Int :=
  let sizeOfField := context.GetEllipticCurveSizeOfField ecHandle
  if sizeOfField < 0 then -1
  else if sizeOfField = 224 then p224CurveMultiplier
  else if sizeOfField = 256 then p256CurveMultiplier
  else if sizeOfField = 384 then p384CurveMultiplier
  else if sizeOfField = 521 then p521CurveMultiplier
  else -1

/-- Embedding of `GetScalarMult100xCurveGasCostMultiplier`. -/
def managedTypesContext.GetScalarMult100xCurveGasCostMultiplier (context : managedTypesContext)
    (ecHandle : Int) : Int :=
  let sizeOfField := context.GetEllipticCurveSizeOfField ecHandle
  if sizeOfField < 0 then -1
  else if sizeOfField = 224 then p224CurveScalarMultMultiplier
  else if sizeOfField = 256 then p256CurveScalarMultMultiplier
  else if sizeOfField = 384 then p384CurveScalarMultMultiplier
  else if sizeOfField = 521 then p521CurveScalarMultMultiplier
  else -1

/-- Embedding of `GetUCompressed100xCurveGasCostMultiplier`. -/
def managedTypesContext.GetUCompressed100xCurveGasCostMultiplier (context : managedTypesContext)
    (ecHandle : Int) : Int :=
  let sizeOfField := context.GetEllipticCurveSizeOfField ecHandle
  if sizeOfField < 0 then -1
  else if sizeOfField = 224 then p224CurveUnmarshalCompressedMultiplier
  else if sizeOfField = 256 then p256CurveUnmarshalCompressedMultiplier
  else if sizeOfField = 384 then p384CurveUnmarshalCompressedMultiplier
  else if sizeOfField = 521 then p521CurveUnmarshalCompressedMultiplier
  else -1

/-- A context holding curves of field size 224, 256, 384, 521 and 512 under the handles 0
to 4 (only the field size is filled in). -/
def curveContext : managedTypesContext :=
  { bigInts := [], arrays := [],
    managedTypesValues :=
      { bigIntValues := [], mBufferValues := [],
        ecValues :=
          [(0, { P := 0, N := 0, B := 0, Gx := 0, Gy := 0, BitSize := 224, Name := [] }),
           (1, { P := 0, N := 0, B := 0, Gx := 0, Gy := 0, BitSize := 256, Name := [] }),
           (2, { P := 0, N := 0, B := 0, Gx := 0, Gy := 0, BitSize := 384, Name := [] }),
           (3, { P := 0, N := 0, B := 0, Gx := 0, Gy := 0, BitSize := 521, Name := [] }),
           (4, { P := 0, N := 0, B := 0, Gx := 0, Gy := 0, BitSize := 512, Name := [] })] },
    managedTypesStack := [] }

/-- Embedding of `PutEllipticCurve`: the probe for a free handle is that of `PutBigInt`, and
a copy of the curve's fields, the `int` field size among them, is stored under it. -/
def managedTypesContext.PutEllipticCurve (context : managedTypesContext)
    (curve : CurveParams) : managedTypesContext × Int :=
  let newHandle := probeBigIntHandle context.managedTypesValues.ecValues
    (context.managedTypesValues.ecValues.length + 1)
    (toInt32 context.managedTypesValues.ecValues.length)
  ({ context with
      managedTypesValues :=
        { context.managedTypesValues with
          ecValues :=
            mapSet context.managedTypesValues.ecValues newHandle
              { P := curve.P, N := curve.N, B := curve.B, Gx := curve.Gx, Gy := curve.Gy,
                BitSize := curve.BitSize, Name := curve.Name } } },
    newHandle)

/-- The context after `PutEllipticCurve`, on an empty context, of a curve whose field size is
2^32 + 224, a value of Go's `int` beyond `int32` (only the field size is filled in): the
curve is held under handle 0. -/
def wideCurveContext : managedTypesContext :=
  (managedTypesContext.PutEllipticCurve
    { bigInts := [], arrays := [],
      managedTypesValues := { bigIntValues := [], mBufferValues := [], ecValues := [] },
      managedTypesStack := [] }
    { P := 0, N := 0, B := 0, Gx := 0, Gy := 0, BitSize := 2 ^ 32 + 224, Name := [] }).1

/-! ## `upgradeContract` and the storage locks of `elrondei.go` -/

/-- The ASCII code of a hexadecimal digit, in lower case. -/
def hexDigit (d : Nat) : Nat := if d < 10 then 48 + d else 87 + d

/-- Go's `hex.EncodeToString`, as the bytes of the string: two lower-case hexadecimal digits
for every byte. -/
def hexEncode : Bytes → Bytes
  | [] => []
  | b :: rest => hexDigit (b / 16 % 16) :: hexDigit (b % 16) :: hexEncode rest

/-- The constant `arwen.UpgradeFunctionName`, the bytes of `upgradeContract`. -/
def UpgradeFunctionName : Bytes :=
  [117, 112, 103, 114, 97, 100, 101, 67, 111, 110, 116, 114, 97, 99, 116]

/-- Modelled from the spec: `runtime.SetRuntimeBreakpointValue` (the runtime context is not
under `src/`): it sets the "runtime breakpoint". -/
def SetRuntimeBreakpointValue (host : VMHost) (value : BreakpointValue) : VMHost :=
  { host with runtime := { host.runtime with breakpoint := value } }

/-- Embedding of `upgradeContract`; 64 is the byte of `@`. The error of
`runtime.ExecuteAsyncCall` is only logged. -/
def upgradeContract (env : Collaborators) (host : VMHost)
    (destContractAddress code codeMetadata value : Bytes) (data : List Bytes) (gasLimit : Int) :
    VMHost :=
  let gasSchedule := host.metering.gasSchedule
  let minAsyncCallCost :=
    AddUint64 (MulUint64 2 gasSchedule.AsyncCallStep) gasSchedule.AsyncCallbackGasLock
  if toUint64 gasLimit < minAsyncCallCost then
    SetRuntimeBreakpointValue host .BreakpointOutOfGas
  else
    let callData := UpgradeFunctionName ++ [64] ++ hexEncode code ++ [64] ++ hexEncode codeMetadata
    let callData := data.foldl (fun callData arg => callData ++ ([64] ++ hexEncode arg)) callData
    (env.ExecuteAsyncCall host destContractAddress callData value).1

/-- The call data as the specification writes it: `upgradeContract@hex(code)@hex(metadata)`
followed by `@hex(arg)` for each argument in order. -/
def upgradeCallData (code codeMetadata : Bytes) (data : List Bytes) : Bytes :=
  UpgradeFunctionName ++ [64] ++ hexEncode code ++ [64] ++ hexEncode codeMetadata
    ++ (data.map (fun arg => [64] ++ hexEncode arg)).flatten

/-- Conversion of an integer to Go's `int64`, wrapping; `big.Int.Int64` of a value that does
not fit gives its low 64 bits so. -/
def toInt64 (n : Int) : Int := (n + 2 ^ 63) % 2 ^ 64 - 2 ^ 63

/-- Modelled from the spec: `arwen.CustomStorageKey(arwen.TimeLockKeyPrefix, key)` (package
`arwen` is not under `src/`): the time-lock layer "uses a dedicated key prefix" under the
protected prefix. -/
def timeLockStorageKey (env : Collaborators) (key : Bytes) : Bytes :=
  env.protectedKeyPrefix ++ env.TimeLockKeyPrefix ++ key

/-- Modelled from the spec: `storage.GetStorage` (the storage context is not under `src/`):
"`getStorage(key) → bytes` (meters with `storageLoad + dataCopyPerByte × len`)". -/
def GetStorage (host : VMHost) (key : Bytes) : VMHost × Bytes :=
  let data := GetStorageUnmetered host key
  (UseGas host
      (AddUint64 host.metering.gasSchedule.StorageLoad
        (MulUint64 host.metering.gasSchedule.DataCopyPerByte data.length)),
    data)

/-- The failure exit of the `elrondei.go` functions that return a number:
`if arwen.WithFault(err, context, runtime.ElrondAPIErrorShouldFailExecution()) { return -1 }`. -/
def elrondFaultReturn (host : VMHost) (err : HostError) : VMHost × Int :=
  ((WithFault (some err) host host.runtime.elrondAPIErrorShouldFailExecution).1, -1)

/-- Embedding of `v1_4_setStorageLock`; the storage status is the one the storage context
reports for the write. -/
def v1_4_setStorageLock (env : Collaborators) (host : VMHost)
    (keyOffset keyLength lockTimestamp : Int) : VMHost × Int :=
  let gasToUse := host.metering.gasSchedule.Int64StorageStore
  let host := UseGas host gasToUse
  match MemLoad host keyOffset keyLength with
  | .error err => elrondFaultReturn host err
  | .ok key =>
    let timeLockKey := timeLockStorageKey env key
    let bigTimestamp := lockTimestamp
    let storageStatus :=
      env.storageStatus (GetStorageUnmetered host timeLockKey) (bigBytes bigTimestamp)
    match SetProtectedStorage host timeLockKey (bigBytes bigTimestamp) with
    | (host, some err) => elrondFaultReturn host err
    | (host, none) => (host, toInt32 storageStatus)

/-- Embedding of `v1_4_getStorageLock`. -/
def v1_4_getStorageLock (env : Collaborators) (host : VMHost) (keyOffset keyLength : Int) :
    VMHost × Int :=
  let gasToUse := host.metering.gasSchedule.StorageLoad
  let host := UseGas host gasToUse
  match MemLoad host keyOffset keyLength with
  | .error err => elrondFaultReturn host err
  | .ok key =>
    let timeLockKey := timeLockStorageKey env key
    let (host, data) := GetStorage host timeLockKey
    let timeLock := toInt64 (bigSetBytes data)
    (host, timeLock)

/-- Embedding of `v1_4_getBlockTimestamp`. -/
def v1_4_getBlockTimestamp (env : Collaborators) (host : VMHost) : VMHost × Int :=
  let gasToUse := host.metering.gasSchedule.GetBlockTimeStamp
  let host := UseGas host gasToUse
  (host, toInt64 env.CurrentTimeStamp)

/-- Embedding of `v1_4_isStorageLocked`. -/
def v1_4_isStorageLocked (env : Collaborators) (host : VMHost) (keyOffset keyLength : Int) :
    VMHost × Int :=
  let (host, timeLock) := v1_4_getStorageLock env host keyOffset keyLength
  if timeLock < 0 then
    (host, -1)
  else
    let (host, currentTimestamp) := v1_4_getBlockTimestamp env host
    if timeLock ≤ currentTimestamp then (host, 0) else (host, 1)

/-- Embedding of `v1_4_clearStorageLock`. -/
def v1_4_clearStorageLock (env : Collaborators) (host : VMHost) (keyOffset keyLength : Int) :
    VMHost × Int :=
  v1_4_setStorageLock env host keyOffset keyLength 0

/-! ## `GasScheduleChange` of `arwen.go` and the async transfers of `asyncCall.go` -/

/-- Embedding of `meteringContext.SetGasSchedule`. -/
def SetGasSchedule (env : Collaborators) (host : VMHost) (gasMap : GasScheduleMap) : VMHost :=
  match env.CreateGasConfig gasMap with
  | .error _ => host
  | .ok gasSchedule => { host with metering := { host.metering with gasSchedule := gasSchedule } }

/-- Embedding of `GasScheduleChange`. The mutex is left out (one execution at a time), and so
is `wasmer.SetOpcodeCosts`, which writes a table of the WASM engine and no field of the
host. -/
def GasScheduleChange (env : Collaborators) (host : VMHost) (newGasSchedule : GasScheduleMap) :
    VMHost :=
  let host := { host with gasSchedule := newGasSchedule }
  match env.CreateGasConfig newGasSchedule with
  | .error _ => host
  | .ok _gasCostConfig => SetGasSchedule env host newGasSchedule

/-- Embedding of `sendAsyncCallToDestination`. -/
def sendAsyncCallToDestination (env : Collaborators) (host : VMHost)
    (asyncCallInfo : AsyncCallInfo) : VMHost × Option HostError :=
  match env.Transfer host asyncCallInfo.Destination host.runtime.scAddress
      asyncCallInfo.GasLimit asyncCallInfo.GasLocked (bigSetBytes asyncCallInfo.ValueBytes)
      asyncCallInfo.Data .AsynchronousCall with
  | (host, some err) =>
    let host := UseGas host (GasLeft host)
    (FailExecution host err, some err)
  | (host, none) =>
    let gasLeft := GasLeft host
    (UseGas host gasLeft, none)

/-- Embedding of `sendCallbackToCurrentCaller`; 64 is the byte of `@`. -/
def sendCallbackToCurrentCaller (env : Collaborators) (host : VMHost) :
    VMHost × Option HostError :=
  let retData := [64] ++ hexEncode (env.returnCodeString host.output.ReturnCode)
  let retData :=
    host.output.ReturnData.foldl (fun retData data => retData ++ ([64] ++ hexEncode data)) retData
  match env.Transfer host host.runtime.callerAddr host.runtime.scAddress (GasLeft host) 0
      host.runtime.callValue retData .AsynchronousCallBack with
  | (host, some err) =>
    let host := UseGas host (GasLeft host)
    (FailExecution host err, some err)
  | (host, none) =>
    let gasLeft := GasLeft host
    (UseGas host gasLeft, none)

/-- The callback data as the specification writes it: `@hex(name of the return code)`
followed by `@hex(d)` for every return datum in order. -/
def callbackReturnData (returnCodeName : Bytes) (returnData : List Bytes) : Bytes :=
  [64] ++ hexEncode returnCodeName ++ (returnData.map (fun d => [64] ++ hexEncode d)).flatten

/-! ## `getPendingAsyncCalls` of `asyncCall.go` and the total of the gas limits -/

/-- Modelled from the spec: the constant `arwen.AsyncCallPending` (package `arwen` is not
under `src/`), the first of "status ∈ {Pending, Resolved, Rejected}". -/
def AsyncCallPending : Nat := 0

/-- The body of the inner loop of `getPendingAsyncCalls` for one call of the context. -/
def getPendingAsyncCallsStep (contextIdentifier : Bytes) (asyncContext : AsyncContext)
    (pendingMap : List (Bytes × AsyncContext)) (asyncCall : AsyncGeneratedCall) :
    List (Bytes × AsyncContext) :=
  if asyncCall.Status ≠ AsyncCallPending then
    pendingMap
  else
    let pendingMap :=
      match mapGet? pendingMap contextIdentifier with
      | some _ => pendingMap
      | none =>
        mapSet pendingMap contextIdentifier
          { Callback := asyncContext.Callback, AsyncCalls := [] }
    match mapGet? pendingMap contextIdentifier with
    | some pending =>
      mapSet pendingMap contextIdentifier
        { pending with AsyncCalls := pending.AsyncCalls ++ [asyncCall] }
    | none => pendingMap

/-- Embedding of `getPendingAsyncCalls`: a new record, filled by the two nested loops. -/
def getPendingAsyncCalls (asyncInfo : AsyncContextInfo) : AsyncContextInfo :=
  { CallerAddr := asyncInfo.CallerAddr,
    ReturnData := asyncInfo.ReturnData,
    AsyncContextMap :=
      asyncInfo.AsyncContextMap.foldl
        (fun pendingMap entry =>
          entry.2.AsyncCalls.foldl (getPendingAsyncCallsStep entry.1 entry.2) pendingMap) [] }

/-- The pending calls of a list of calls, in their order. -/
def pendingCalls (calls : List AsyncGeneratedCall) : List AsyncGeneratedCall :=
  calls.filter (fun asyncCall => decide (asyncCall.Status = AsyncCallPending))

/-- The contexts as the specification describes the result: each context that has a pending
call, with its callback and exactly its pending calls. -/
def pendingContexts (contexts : List (Bytes × AsyncContext)) : List (Bytes × AsyncContext) :=
  contexts.filterMap (fun entry =>
    if pendingCalls entry.2.AsyncCalls = [] then none
    else some (entry.1, { Callback := entry.2.Callback,
                          AsyncCalls := pendingCalls entry.2.AsyncCalls }))

/-- Exact sum of the gas limits of all calls of all contexts. -/
def sumAsyncGasLimit (contexts : List (Bytes × AsyncContext)) : Nat :=
  (contexts.map (fun entry =>
    (entry.2.AsyncCalls.map (fun asyncCall => asyncCall.GasLimit)).sum)).sum

/-! ## Arguments, call value and ESDT transfers of `bigIntOps.go` and `elrondei.go` -/

/-- The index expression `list[index]` of Go with an `int32` index: the element, or the
index-out-of-range panic. -/
def goIndex {α : Type} (list : List α) (index : Int) : Except HostError α :=
  if index < 0 then .error .PanicIndexOutOfRange
  else
    match list.get? index.toNat with
    | some element => .ok element
    | none => .error .PanicIndexOutOfRange

/-- Embedding of `v1_4_bigIntGetUnsignedArgument`; the returned error is a panic. -/
def v1_4_bigIntGetUnsignedArgument (host : VMHost) (id destinationHandle : Int) :
    VMHost × Option HostError :=
  let gasToUse := host.metering.gasSchedule.BigIntGetUnsignedArgument
  let host := UseGas host gasToUse
  let args := host.runtime.arguments
  if toInt32 args.length ≤ id then
    (host, none)
  else
    let (host, _) := GetBigIntOrCreate host destinationHandle
    match goIndex args id with
    | .error panic => (host, some panic)
    | .ok arg => (setBigInt host destinationHandle (bigSetBytes arg), none)

/-- Embedding of `v1_4_bigIntGetSignedArgument`; the returned error is a panic. -/
def v1_4_bigIntGetSignedArgument (host : VMHost) (id destinationHandle : Int) :
    VMHost × Option HostError :=
  let gasToUse := host.metering.gasSchedule.BigIntGetSignedArgument
  let host := UseGas host gasToUse
  let args := host.runtime.arguments
  if toInt32 args.length ≤ id then
    (host, none)
  else
    let (host, _) := GetBigIntOrCreate host destinationHandle
    match goIndex args id with
    | .error panic => (host, some panic)
    | .ok arg => (setBigInt host destinationHandle (twosSetBytes arg), none)

/-- Embedding of `v1_4_bigIntGetInt64`: the result of `WithFault` is not read, and
`value.Int64()` follows on the nil `value` that `GetBigInt` returns with its error; the error
of the result is that panic. -/
def v1_4_bigIntGetInt64 (host : VMHost) (destinationHandle : Int) :
    VMHost × Except HostError Int :=
  let gasToUse := host.metering.gasSchedule.BigIntGetInt64
  let host := UseGas host gasToUse
  match GetBigInt host destinationHandle with
  | .error _ =>
    let host := (WithFault (some .ErrNoBigIntUnderThisHandle) host
      host.runtime.bigIntAPIErrorShouldFailExecution).1
    (host, .error .PanicNilDereference)
  | .ok value => (host, .ok (toInt64 value))

/-- Embedding of `getESDTTransferFromInput`: nil (`none`) beyond the last index, else the
indexed transfer. -/
def getESDTTransferFromInput (host : VMHost) (index : Int) :
    Except HostError (Option ESDTTransfer) :=
  let esdtTransfers := host.runtime.esdtTransfers
  if toInt32 (toInt32 esdtTransfers.length - 1) < index then
    .ok none
  else
    match goIndex esdtTransfers index with
    | .error panic => .error panic
    | .ok esdtTransfer => .ok (some esdtTransfer)

/-- Modelled from the spec: `arwen.PadBytesLeft` (package `arwen` is not under `src/`):
"`BalanceLen = 32` (left-padded big-endian)"; zero bytes in front up to the size. -/
def PadBytesLeft (data : Bytes) (size : Nat) : Bytes :=
  List.replicate (size - data.length) 0 ++ data

/-- Go's `copy(dst, src)`, as the contents of `dst` afterwards: the first
`min(len(dst), len(src))` bytes come from `src`. -/
def goCopy (dst : Bytes) (src : Bytes) : Bytes :=
  src.take dst.length ++ dst.drop src.length

/-- Embedding of `v1_4_getCallValueTokenNameByIndex`; `make([]byte, 0, n)` is a slice of
length 0. The error of the result is a panic. -/
def v1_4_getCallValueTokenNameByIndex (host : VMHost)
    (callValueOffset tokenNameOffset index : Int) : VMHost × Except HostError Int :=
  let gasToUse := host.metering.gasSchedule.GetCallValue
  let host := UseGas host gasToUse
  let callValue := bigBytes host.runtime.callValue
  let tokenName : Bytes := []
  match getESDTTransferFromInput host index with
  | .error panic => (host, .error panic)
  | .ok esdtTransfer =>
    let (tokenName, callValue) :=
      match esdtTransfer with
      | some esdtTransfer =>
        let tokenName : Bytes := []
        let tokenName := goCopy tokenName esdtTransfer.ESDTTokenName
        (tokenName, bigBytes esdtTransfer.ESDTValue)
      | none => (tokenName, callValue)
    let callValue := PadBytesLeft callValue BalanceLen.toNat
    match MemStore host tokenNameOffset tokenName with
    | .error err => ((elrondFaultReturn host err).1, .ok (-1))
    | .ok host =>
      match MemStore host callValueOffset callValue with
      | .error err => ((elrondFaultReturn host err).1, .ok (-1))
      | .ok host => (host, .ok (toInt32 tokenName.length))

/-- Modelled from the spec: the token type `core.Fungible` (package `core` is not under
`src/`), the first of "tokenType ∈ {Fungible, NonFungible, SemiFungible}". -/
def Fungible : Nat := 0

/-- Modelled from the spec: the token type `core.NonFungible`, the second of
"tokenType ∈ {Fungible, NonFungible, SemiFungible}". -/
def NonFungible : Nat := 1

/-- The constant `parsers.ArgsPerTransfer`: token name, nonce and value of each transfer. -/
def ArgsPerTransfer : Int := 3

/-- Embedding of `extractIndirectContractCallArgumentsWithValue`. -/
def extractIndirectContractCallArgumentsWithValue (host : VMHost)
    (destOffset valueOffset functionOffset functionLength numArguments argumentsLengthOffset
      dataOffset : Int) : VMHost × Except HostError indirectContractCallArguments :=
  extractIndirectContractCallArguments host destOffset valueOffset true functionOffset
    functionLength numArguments argumentsLengthOffset dataOffset

/-- Embedding of `TransferESDTNFTExecuteWithTypedArgs`; `TransferValue * uint64(len(transfers))`
is a plain `uint64` product. A nil `contractCallInput` is `none`. -/
def TransferESDTNFTExecuteWithTypedArgs (env : Collaborators) (host : VMHost) (dest : Bytes)
    (transfers : List ESDTTransfer) (gasLimit : Int) (function : Bytes) (data : List Bytes) :
    VMHost × Int :=
  let gasToUse := (host.metering.gasSchedule.TransferValue * transfers.length) % 2 ^ 64
  let host := UseGas host gasToUse
  let sender := host.runtime.scAddress
  let prepared : Except HostError (Option ContractCallInput) :=
    if 0 < function.length then
      match prepareIndirectContractCallInput env host sender 0 gasLimit dest function data
          gasToUse false with
      | .error executeErr => .error executeErr
      | .ok contractCallInput => .ok (some { contractCallInput with ESDTTransfers := transfers })
    else .ok none
  match prepared with
  | .error executeErr =>
    ((WithFault (some executeErr) host
        host.runtime.elrondSyncExecAPIErrorShouldFailExecution).1, 1)
  | .ok contractCallInput =>
    let snapshotBeforeTransfer := env.GetSnapshot host
    match env.TransferESDT host dest sender transfers contractCallInput with
    | (host, _, some executeErr) =>
      ((WithFault (some executeErr) host host.runtime.elrondAPIErrorShouldFailExecution).1, 1)
    | (host, gasLimitForExec, none) =>
      match contractCallInput with
      | none => (host, 0)
      | some contractCallInput =>
        if env.AreInSameShard sender dest && env.IsSmartContract dest then
          let contractCallInput := { contractCallInput with GasProvided := gasLimitForExec }
          match env.ExecuteOnDestContext host contractCallInput with
          | (host, _, some _) => (env.RevertToSnapshot host snapshotBeforeTransfer, 1)
          | (host, _, none) => (host, 0)
        else (host, 0)

/-- Embedding of `TransferESDTNFTExecuteWithHost`; `callArgs.value` is set, the value offset
being read. -/
def TransferESDTNFTExecuteWithHost (env : Collaborators) (host : VMHost)
    (destOffset tokenIDOffset tokenIDLen valueOffset nonce gasLimit functionOffset
      functionLength numArguments argumentsLengthOffset dataOffset : Int) : VMHost × Int :=
  match MemLoad host tokenIDOffset tokenIDLen with
  | .error executeErr =>
    ((WithFault (some executeErr) host host.runtime.elrondAPIErrorShouldFailExecution).1, 1)
  | .ok tokenIdentifier =>
    match extractIndirectContractCallArgumentsWithValue host destOffset valueOffset
        functionOffset functionLength numArguments argumentsLengthOffset dataOffset with
    | (host, .error err) =>
      ((WithFault (some err) host host.runtime.elrondAPIErrorShouldFailExecution).1, 1)
    | (host, .ok callArgs) =>
      let gasToUse :=
        MulUint64 host.metering.gasSchedule.DataCopyPerByte (toUint64 callArgs.actualLen)
      let host := UseGas host gasToUse
      let transfer : ESDTTransfer :=
        { ESDTValue := callArgs.value.getD 0,
          ESDTTokenName := tokenIdentifier,
          ESDTTokenNonce := toUint64 nonce,
          ESDTTokenType := Fungible }
      let transfer :=
        if 0 < nonce then { transfer with ESDTTokenType := NonFungible } else transfer
      TransferESDTNFTExecuteWithTypedArgs env host callArgs.dest [transfer] gasLimit
        callArgs.function callArgs.args

/-- Embedding of `v1_4_transferESDTNFTExecute`. -/
def v1_4_transferESDTNFTExecute (env : Collaborators) (host : VMHost)
    (destOffset tokenIDOffset tokenIDLen valueOffset nonce gasLimit functionOffset
      functionLength numArguments argumentsLengthOffset dataOffset : Int) : VMHost × Int :=
  TransferESDTNFTExecuteWithHost env host destOffset tokenIDOffset tokenIDLen valueOffset nonce
    gasLimit functionOffset functionLength numArguments argumentsLengthOffset dataOffset

/-- The loop of `v1_4_multiTransferESDTNFTExecute` that builds the transfers, from the index
`i` on for the given number of further rounds; an index expression out of range panics. -/
def multiTransferLoop (transferArgs : List Bytes) : Nat → Int → Except HostError (List ESDTTransfer)
  | 0, _ => .ok []
  | rounds + 1, i =>
    let tokenStartIndex := toInt32 (i * ArgsPerTransfer)
    match goIndex transferArgs tokenStartIndex with
    | .error panic => .error panic
    | .ok tokenName =>
      match goIndex transferArgs (toInt32 (tokenStartIndex + 1)) with
      | .error panic => .error panic
      | .ok nonceBytes =>
        match goIndex transferArgs (toInt32 (tokenStartIndex + 2)) with
        | .error panic => .error panic
        | .ok valueBytes =>
          let transfer : ESDTTransfer :=
            { ESDTTokenName := tokenName,
              ESDTTokenNonce := bytesToNat nonceBytes % 2 ^ 64,
              ESDTValue := bigSetBytes valueBytes,
              ESDTTokenType := Fungible }
          let transfer :=
            if 0 < transfer.ESDTTokenNonce then { transfer with ESDTTokenType := NonFungible }
            else transfer
          match multiTransferLoop transferArgs rounds (toInt32 (i + 1)) with
          | .error panic => .error panic
          | .ok transfers => .ok (transfer :: transfers)

/-- Embedding of `v1_4_multiTransferESDTNFTExecute`: the `err` of the second
`getArgumentsFromMemory` is assigned and never read; `make` with a negative length panics.
The error of the result is a panic. -/
def v1_4_multiTransferESDTNFTExecute (env : Collaborators) (host : VMHost)
    (destOffset numTokenTransfers tokenTransfersArgsLengthOffset tokenTransferDataOffset
      gasLimit functionOffset functionLength numArguments argumentsLengthOffset
      dataOffset : Int) : VMHost × Except HostError Int :=
  if numTokenTransfers = 0 then
    ((WithFault (some .ErrFailedTransfer) host
        host.runtime.elrondAPIErrorShouldFailExecution).1, .ok 1)
  else
    match extractIndirectContractCallArgumentsWithoutValue host destOffset functionOffset
        functionLength numArguments argumentsLengthOffset dataOffset with
    | (host, .error err) =>
      ((WithFault (some err) host host.runtime.elrondAPIErrorShouldFailExecution).1, .ok 1)
    | (host, .ok callArgs) =>
      let gasToUse :=
        MulUint64 host.metering.gasSchedule.DataCopyPerByte (toUint64 callArgs.actualLen)
      let host := UseGas host gasToUse
      let (transferArgs, actualLen, _) :=
        getArgumentsFromMemory host (toInt32 (numTokenTransfers * ArgsPerTransfer))
          tokenTransfersArgsLengthOffset tokenTransferDataOffset
      let gasToUse :=
        MulUint64 host.metering.gasSchedule.DataCopyPerByte (toUint64 actualLen)
      let host := UseGas host gasToUse
      if numTokenTransfers < 0 then
        (host, .error .PanicMakeSliceLen)
      else
        match multiTransferLoop transferArgs numTokenTransfers.toNat 0 with
        | .error panic => (host, .error panic)
        | .ok transfers =>
          let (host, result) :=
            TransferESDTNFTExecuteWithTypedArgs env host callArgs.dest transfers gasLimit
              callArgs.function callArgs.args
          (host, .ok result)

/-! ## Sample hosts -/

/-- A parent contract `[1]` that used all 10 gas provided: 2 on its own, 8 sent along an async
transfer to `[2]` with gas limit 5 and gas locked 3. -/
def asyncTransferHost : VMHost :=
  { runtime :=
      { scAddress := [1], callerAddr := [9], originalTxHash := [], callValue := 0, pointsUsed := 10,
        readOnly := false, memory := [], breakpoint := .BreakpointNone, errors := [],
        bigIntAPIErrorShouldFailExecution := true, elrondAPIErrorShouldFailExecution := true },
    metering :=
      { gasSchedule := ⟨0, 0, 0, 0, 0, 0, 0, 0, 0, 0, 0, 0, 0, 0, 0, 0, 0, 0, 0, 0, 0, 0⟩, initialGasProvided := 10, initialCost := 0,
        gasForExecution := 10, gasUsedByAccounts := [] },
    output :=
      { OutputAccounts :=
          [([1], { GasUsed := 0, OutputTransfers := [] }),
           ([2], { GasUsed := 0,
                   OutputTransfers := [{ GasLimit := 5, GasLocked := 3, Data := [] }] })],
        GasRemaining := 0 },
    managedTypes := { bigIntValues := [] },
    storage := [] }

def bigIntHost : VMHost :=
  { runtime :=
      { scAddress := [1], callerAddr := [9], originalTxHash := [], callValue := 0,
        pointsUsed := 0, readOnly := false, memory := [255, 127, 1, 200, 0, 0, 0, 0],
        breakpoint := .BreakpointNone, errors := [],
        bigIntAPIErrorShouldFailExecution := true, elrondAPIErrorShouldFailExecution := true },
    metering :=
      { gasSchedule := ⟨1, 2, 3, 4, 5, 6, 7, 8, 9, 10, 11, 12, 13, 14, 15, 16, 17, 18, 19, 20, 21, 22⟩, initialGasProvided := 1000, initialCost := 0,
        gasForExecution := 1000, gasUsedByAccounts := [] },
    output := { OutputAccounts := [], GasRemaining := 0 },
    managedTypes := { bigIntValues := [(0, -7), (1, 2), (2, 0), (3, 5)] },
    storage := [] }

/-- Pending async calls to the destinations `[21]` and `[22]` in one context `[99]`. -/
def twoPendingCalls : AsyncContextInfo :=
  { CallerAddr := [5], ReturnData := [],
    AsyncContextMap :=
      [([99],
        { Callback := [],
          AsyncCalls :=
            [{ Status := 0, Destination := [21], Data := [], GasLimit := 0, GasLocked := 0,
               ValueBytes := [], SuccessCallback := [], ErrorCallback := [], ProvidedGas := 0 },
             { Status := 0, Destination := [22], Data := [], GasLimit := 0, GasLocked := 0,
               ValueBytes := [], SuccessCallback := [], ErrorCallback := [],
               ProvidedGas := 0 }] })] }

/-- Collaborators of the sample runs: one shard, no built-in function, call data that is its
own function name, nested executions that leave the host as they found it, a decoder that
reads the buffer `[1]` as `twoPendingCalls`, code stored only for the address `[5]`,
transfers that succeed without effect, and a contract creation that leaves the host as it
found it and returns the caller's address followed by 1. -/
def sampleCollaborators : Collaborators :=
  { AreInSameShard := fun _ _ => true,
    ParseData := fun data => (data, [], none),
    IsBuiltinFunctionName := fun _ => false,
    ExecuteOnSameContext := fun host _ => (host, none),
    jsonUnmarshal := fun buff => if buff = [1] then .ok twoPendingCalls else .error .ErrUnmarshal,
    protectedKeyPrefix := [69],
    AsyncDataPrefix := [65],
    GetCode := fun address => if address = [5] then ([0, 97, 115, 109], none) else ([], none),
    ParseESDTTransfers := fun _ _ _ _ => .error .ErrParseData,
    ExecuteOnDestContext := fun host _ => (host, none, none),
    Transfer := fun host _ _ _ _ _ _ _ => (host, none),
    GetVMOutput := fun host => host.output,
    CreateVMOutputInCaseOfError := fun _ =>
      { OutputAccounts := [], GasRemaining := 0, ReturnCode := 10 },
    returnCodeString := fun code => [code],
    ExecuteAsyncCall := fun host address data value =>
      ({ host with runtime :=
          { host.runtime with
            asyncCallInfo :=
              some { Destination := address, Data := data, GasLimit := GasLeft host,
                     GasLocked := 0, ValueBytes := value } } }, none),
    CurrentTimeStamp := 1000,
    TimeLockKeyPrefix := [84],
    storageStatus := fun old new => if old = new then 0 else 1,
    CreateGasConfig := fun gasMap =>
      if gasMap = [] then .error .ErrCreateGasConfig
      else .ok ⟨2, 2, 2, 2, 2, 2, 2, 2, 2, 2, 2, 2, 2, 2, 2, 2, 2, 2, 2, 2, 2, 2⟩,
    TransferESDT := fun host _ _ _ callInput =>
      (host, (callInput.map (fun input => input.GasProvided)).getD 0, none),
    GetSnapshot := fun _ => 0,
    RevertToSnapshot := fun host _ => host,
    IsSmartContract := fun address => decide (address = [5]),
    CreateNewContract := fun host input => (host, input.CallerAddr ++ [1], none) }

/-- A read-only frame of the contract `[1]` with 1000 gas, 34 bytes of memory (a 32-byte
address, then a 2-byte function name), called back by `callerAddr`, with the buffer `[1]`
stored under the async-call storage key. -/
def callHost (callerAddr : Bytes) : VMHost :=
  { runtime :=
      { scAddress := [1], callerAddr := callerAddr, originalTxHash := [7], callValue := 0,
        pointsUsed := 0, readOnly := true, memory := List.replicate 32 3 ++ [102, 110],
        breakpoint := .BreakpointNone, errors := [],
        bigIntAPIErrorShouldFailExecution := true, elrondAPIErrorShouldFailExecution := true },
    metering :=
      { gasSchedule := ⟨1, 2, 3, 4, 5, 6, 7, 8, 9, 10, 11, 12, 13, 14, 15, 16, 17, 18, 19, 20, 21, 22⟩, initialGasProvided := 1000, initialCost := 0,
        gasForExecution := 1000, gasUsedByAccounts := [] },
    output := { OutputAccounts := [], GasRemaining := 0 },
    managedTypes := { bigIntValues := [] },
    storage := [([69, 65, 7], [1])] }

/-- Two calls in one context: one with all of 1000 gas provided, one with none. -/
def fullAndEmptyCalls : AsyncContextInfo :=
  { CallerAddr := [5], ReturnData := [],
    AsyncContextMap :=
      [([99],
        { Callback := [],
          AsyncCalls :=
            [{ Status := 0, Destination := [21], Data := [], GasLimit := 0, GasLocked := 0,
               ValueBytes := [], SuccessCallback := [], ErrorCallback := [],
               ProvidedGas := 1000 },
             { Status := 0, Destination := [22], Data := [], GasLimit := 0, GasLocked := 0,
               ValueBytes := [], SuccessCallback := [], ErrorCallback := [],
               ProvidedGas := 0 }] })] }

/-- The host `callHost` as the callback from `callerAddr` finds it after an earlier run. -/
def withCaller (host : VMHost) (callerAddr : Bytes) : VMHost :=
  { host with runtime := { host.runtime with callerAddr := callerAddr } }

/-- A host that burnt 30 of its 100 points, with a gas schedule whose per-byte preparation
cost is `2 ^ 63`, called with `gasProvided` gas. -/
def deployHost (gasProvided : Nat) : VMHost :=
  { runtime :=
      { scAddress := [1], callerAddr := [9], originalTxHash := [], callValue := 0,
        pointsUsed := 30, readOnly := false, memory := [],
        breakpoint := .BreakpointNone, errors := [],
        bigIntAPIErrorShouldFailExecution := true, elrondAPIErrorShouldFailExecution := true,
        gasProvided := gasProvided },
    metering :=
      { gasSchedule :=
          { DataCopyPerByte := 1, BigIntTDiv := 1, BigIntSub := 1, BigIntGetUnsignedBytes := 1,
            BigIntGetSignedBytes := 1, BigIntSetUnsignedBytes := 1, BigIntSetSignedBytes := 1,
            ExecuteReadOnly := 1, GetCode := 5, AoTPreparePerByte := 2 ^ 63,
            CreateContract := 7, CompilePerByte := 3, AsyncCallStep := 1,
            AsyncCallbackGasLock := 4, Int64StorageStore := 1, StorageLoad := 1,
            GetBlockTimeStamp := 1, BigIntGetUnsignedArgument := 1,
            BigIntGetSignedArgument := 1, BigIntGetInt64 := 1, GetCallValue := 1,
            TransferValue := 1 },
        initialGasProvided := gasProvided, initialCost := 0, gasForExecution := 100,
        gasUsedByAccounts := [] },
    output := { OutputAccounts := [], GasRemaining := 0 },
    managedTypes := { bigIntValues := [] },
    storage := [] }

/-- Collaborators of a node with two shards: the destination `[21]` is in another shard than
every contract that runs here, code is held only for the address `[5]` of this shard, and
`[66]` is the one built-in function name. -/
def twoShardCollaborators : Collaborators :=
  { sampleCollaborators with
    AreInSameShard := fun _ destination => decide (destination ≠ [21]),
    IsBuiltinFunctionName := fun name => decide (name = [66]) }

/-- An async call to `destination` whose data is the function name `[102]`. -/
def asyncCallTo (destination : Bytes) : AsyncCallInfo :=
  { Destination := destination, Data := [102], GasLimit := 0, GasLocked := 40, ValueBytes := [] }

/-- The contract `[1]` with 1000 gas left, writable, with `record` stored under the
async-call storage key, called back by `callerAddr`. -/
def callbackHost (callerAddr record : Bytes) : VMHost :=
  { runtime :=
      { scAddress := [1], callerAddr := callerAddr, originalTxHash := [7], callValue := 0,
        pointsUsed := 0, readOnly := false, memory := [],
        breakpoint := .BreakpointNone, errors := [],
        bigIntAPIErrorShouldFailExecution := true, elrondAPIErrorShouldFailExecution := true,
        callType := .AsynchronousCallBack, gasProvided := 1000, currentTxHash := [8] },
    metering :=
      { gasSchedule := ⟨1, 2, 3, 4, 5, 6, 7, 8, 9, 10, 11, 12, 13, 14, 15, 16, 17, 18, 19, 20, 21, 22⟩, initialGasProvided := 1000,
        initialCost := 0, gasForExecution := 1000, gasUsedByAccounts := [] },
    output := { OutputAccounts := [], GasRemaining := 500 },
    managedTypes := { bigIntValues := [] },
    storage := [([69, 65, 7], record)] }

/-- One pending async call, to the destination `[21]`, made for the caller `[5]`. -/
def onePendingCall : AsyncContextInfo :=
  { CallerAddr := [5], ReturnData := [],
    AsyncContextMap :=
      [([99],
        { Callback := [],
          AsyncCalls :=
            [{ Status := 0, Destination := [21], Data := [], GasLimit := 0, GasLocked := 0,
               ValueBytes := [], SuccessCallback := [], ErrorCallback := [],
               ProvidedGas := 0 }] })] }

/-- The sample collaborators with a decoder that reads the buffer `[2]` as `onePendingCall`. -/
def onePendingCollaborators : Collaborators :=
  { sampleCollaborators with
    jsonUnmarshal := fun buff =>
      if buff = [2] then .ok onePendingCall else .error .ErrUnmarshal }

/-- A destination output with return code Ok, two return data and 500 gas remaining. -/
def okDestinationOutput : VMOutput :=
  { OutputAccounts := [], GasRemaining := 500, ReturnData := [[1, 2], [3]], ReturnCode := 0 }

/-- The deploy host with the given `AsyncCallStep` cost (its `AsyncCallbackGasLock` is 4). -/
def upgradeHost (asyncCallStep : Nat) : VMHost :=
  { deployHost 100 with
    metering :=
      { (deployHost 100).metering with
        gasSchedule :=
          { (deployHost 100).metering.gasSchedule with AsyncCallStep := asyncCallStep } } }

/-- The deploy host holding a stored gas-schedule map. -/
def scheduledHost : VMHost :=
  { deployHost 100 with gasSchedule := [([66], [([71], 5)])] }

/-- Collaborators whose `Transfer` appends the output transfer to the destination's account,
and rejects an empty destination. -/
def recordingCollaborators : Collaborators :=
  { sampleCollaborators with
    Transfer := fun host destination sender gasLimit gasLocked value data callType =>
      if destination = [] then (host, some .ErrTransfer)
      else
        let (host, account) := GetOutputAccount host destination
        ({ host with output :=
            { host.output with
              OutputAccounts := mapSet host.output.OutputAccounts destination
                { account with
                  OutputTransfers := account.OutputTransfers ++
                    [{ GasLimit := gasLimit, GasLocked := gasLocked, Data := data,
                       Value := value, CallType := callType, SenderAddress := sender }] } } },
          none) }

/-- The deploy host (caller `[9]`, 70 gas left) after an execution that returned the data
`[255]` and `[1, 2]` with return code 0. -/
def returningHost : VMHost :=
  { deployHost 100 with
    output := { OutputAccounts := [], GasRemaining := 0, ReturnData := [[255], [1, 2]] } }

/-- An async call to the destination with the given status and no gas provided. -/
def asyncCallWithStatus (status : Nat) (destination : Bytes) : AsyncGeneratedCall :=
  { Status := status, Destination := destination, Data := [], GasLimit := 0, GasLocked := 0,
    ValueBytes := [], SuccessCallback := [], ErrorCallback := [], ProvidedGas := 0 }

/-- Three contexts: `[97]` with a resolved and two pending calls, `[98]` with a resolved call
only, `[99]` with one pending call. -/
def mixedStatusCalls : AsyncContextInfo :=
  { CallerAddr := [5], ReturnData := [7],
    AsyncContextMap :=
      [([97], { Callback := [1],
                AsyncCalls :=
                  [{ (asyncCallWithStatus 1 [21]) with ProvidedGas := 1 },
                   asyncCallWithStatus 0 [22], asyncCallWithStatus 0 [23]] }),
       ([98], { Callback := [2], AsyncCalls := [asyncCallWithStatus 1 [24]] }),
       ([99], { Callback := [3], AsyncCalls := [asyncCallWithStatus 0 [25]] })] }

/-- The deploy host with `2 ^ 64 - 1` gas for execution, 30 points of it used. -/
def fullGasHost : VMHost :=
  { deployHost 100 with
    metering := { (deployHost 100).metering with gasForExecution := MaxUint64 } }

/-- The big-int host called with the argument `[1, 0]` and one ESDT transfer of 300 units of
the token `[84, 75, 78]`, with 64 bytes of memory holding 7. -/
def esdtInputHost : VMHost :=
  { bigIntHost with
    runtime :=
      { bigIntHost.runtime with
        arguments := [[1, 0]],
        esdtTransfers :=
          [{ ESDTValue := 300, ESDTTokenName := [84, 75, 78], ESDTTokenType := 0,
             ESDTTokenNonce := 0 }],
        memory := List.replicate 64 7 } }

/-- Collaborators that take every destination for a smart contract and whose
`ExecuteOnDestContext` enters the callee with the ESDT transfers of the call input. -/
def esdtRecordingCollaborators : Collaborators :=
  { sampleCollaborators with
    IsSmartContract := fun _ => true,
    ExecuteOnDestContext := fun host input =>
      ({ host with runtime := { host.runtime with esdtTransfers := input.ESDTTransfers } },
        none, none) }

/-- Collaborators whose current block timestamp is 2^63, a `uint64` beyond `int64`. -/
def lateBlockCollaborators : Collaborators :=
  { sampleCollaborators with CurrentTimeStamp := 2 ^ 63 }

/-! # Theorems -/

/-! ## Maps and handles -/

theorem mapGet?_mapSet_self {κ ν : Type} [DecidableEq κ] (m : List (κ × ν)) (k : κ) (v : ν) :
    mapGet? (mapSet m k v) k = some v := by
  induction m with
  | nil => simp [mapSet, mapGet?]
  | cons p rest ih =>
    obtain ⟨k', v'⟩ := p
    by_cases hk : k' = k
    · simp [mapSet, mapGet?, hk]
    · simp [mapSet, mapGet?, hk, ih]

theorem mapGet?_mapSet_other {κ ν : Type} [DecidableEq κ] (m : List (κ × ν)) (k k2 : κ) (v : ν)
    (hne : k2 ≠ k) : mapGet? (mapSet m k v) k2 = mapGet? m k2 := by
  induction m with
  | nil =>
    have : ¬ k = k2 := fun h => hne h.symm
    simp [mapSet, mapGet?, this]
  | cons p rest ih =>
    obtain ⟨k', v'⟩ := p
    by_cases hk : k' = k
    · have : ¬ k = k2 := fun h => hne h.symm
      have h2 : ¬ k' = k2 := by rw [hk]; exact this
      simp [mapSet, mapGet?, hk, this]
    · by_cases hk2 : k' = k2
      · subst hk2
        simp [mapSet, mapGet?, hne]
      · simp [mapSet, mapGet?, hk, hk2, ih]

theorem UseGas_managedTypes (host : VMHost) (gas : Nat) :
    (UseGas host gas).managedTypes = host.managedTypes := rfl

theorem ConsumeGasForThisIntNumberOfBytes_managedTypes (host : VMHost) (n : Nat) :
    (ConsumeGasForThisIntNumberOfBytes host n).managedTypes = host.managedTypes := by
  unfold ConsumeGasForThisIntNumberOfBytes
  split <;> rfl

theorem ConsumeGasForBigIntCopy_managedTypes (host : VMHost) (values : List Int) :
    (ConsumeGasForBigIntCopy host values).managedTypes = host.managedTypes := by
  unfold ConsumeGasForBigIntCopy
  induction values generalizing host with
  | nil => rfl
  | cons v rest ih =>
    simp only [List.foldl_cons]
    rw [ih, ConsumeGasForThisIntNumberOfBytes_managedTypes]

theorem bigIntAt_GetBigIntOrCreate (host : VMHost) (handle h : Int) (v : Int)
    (hv : bigIntAt host h = some v) :
    bigIntAt (GetBigIntOrCreate host handle).1 h = some v := by
  unfold GetBigIntOrCreate
  split
  · exact hv
  · rename_i hnone
    unfold bigIntAt at hv ⊢
    simp only
    rw [mapGet?_mapSet_other]
    · exact hv
    · intro heq
      rw [heq, hnone] at hv
      exact absurd hv (by simp)

theorem faultExit_managedTypes (host : VMHost) (err : HostError) :
    (faultExit host err).1.managedTypes = host.managedTypes := by
  unfold faultExit WithFault FailExecution
  simp only
  split <;> rfl

theorem GetTwoBigInt_ok (host : VMHost) (h1 h2 : Int) (a b : Int)
    (ha : bigIntAt host h1 = some a) (hb : bigIntAt host h2 = some b) :
    GetTwoBigInt host h1 h2 = .ok (a, b) := by
  unfold bigIntAt at ha hb
  unfold GetTwoBigInt
  rw [ha, hb]

/-- The success path of the division-like host functions. -/
theorem bigIntDivLike_ok (gasToUse : Nat) (op : Int → Int → Int) (host : VMHost)
    (d h1 h2 : Int) (a b : Int)
    (ha : bigIntAt host h1 = some a) (hb : bigIntAt host h2 = some b) (hb0 : b ≠ 0) :
    (bigIntDivLike gasToUse op host d h1 h2).2 = none
    ∧ bigIntAt (bigIntDivLike gasToUse op host d h1 h2).1 d = some (op a b) := by
  have ha1 : bigIntAt (GetBigIntOrCreate (UseGas host gasToUse) d).1 h1 = some a :=
    bigIntAt_GetBigIntOrCreate _ d h1 a ha
  have hb1 : bigIntAt (GetBigIntOrCreate (UseGas host gasToUse) d).1 h2 = some b :=
    bigIntAt_GetBigIntOrCreate _ d h2 b hb
  unfold bigIntDivLike
  simp only
  rw [GetTwoBigInt_ok _ h1 h2 a b ha1 hb1]
  simp only [hb0, if_false]
  refine ⟨trivial, ?_⟩
  unfold bigIntAt setBigInt
  simp only
  exact mapGet?_mapSet_self _ _ _

/-- The division-by-zero path of the division-like host functions. -/
theorem bigIntDivLike_zero (gasToUse : Nat) (op : Int → Int → Int) (host : VMHost)
    (d h1 h2 : Int) (a : Int)
    (ha : bigIntAt host h1 = some a) (hb : bigIntAt host h2 = some 0) :
    (bigIntDivLike gasToUse op host d h1 h2).2 = some .ErrDivZero
    ∧ ∀ h v, bigIntAt host h = some v →
        bigIntAt (bigIntDivLike gasToUse op host d h1 h2).1 h = some v := by
  have ha1 : bigIntAt (GetBigIntOrCreate (UseGas host gasToUse) d).1 h1 = some a :=
    bigIntAt_GetBigIntOrCreate _ d h1 a ha
  have hb1 : bigIntAt (GetBigIntOrCreate (UseGas host gasToUse) d).1 h2 = some 0 :=
    bigIntAt_GetBigIntOrCreate _ d h2 0 hb
  unfold bigIntDivLike
  simp only
  rw [GetTwoBigInt_ok _ h1 h2 a 0 ha1 hb1]
  simp only [if_true]
  refine ⟨rfl, ?_⟩
  intro h v hv
  have hv1 : bigIntAt (GetBigIntOrCreate (UseGas host gasToUse) d).1 h = some v :=
    bigIntAt_GetBigIntOrCreate _ d h v hv
  unfold bigIntAt at hv1 ⊢
  rw [faultExit_managedTypes, ConsumeGasForBigIntCopy_managedTypes]
  exact hv1

/-! ## Gas reconciliation and bounded gas use -/


theorem AddUint64_eq_min (a b : Nat) : AddUint64 a b = min (a + b) MaxUint64 := by
  unfold AddUint64
  split <;> omega

theorem AddUint64_min_left (a b : Nat) :
    AddUint64 (min a MaxUint64) b = min (a + b) MaxUint64 := by
  unfold AddUint64
  split <;> omega

theorem AddUint64_min_min (a b : Nat) :
    AddUint64 (min a MaxUint64) (min b MaxUint64) = min (a + b) MaxUint64 := by
  unfold AddUint64
  split <;> omega

theorem GetOutputAccount_metering (host : VMHost) (address : Bytes) :
    (GetOutputAccount host address).1.metering = host.metering := by
  unfold GetOutputAccount
  split <;> rfl

theorem foldl_transfers_min (ts : List OutputTransfer) (acc : Nat) :
    ts.foldl (fun gasUsed outputTransfer =>
      AddUint64 (AddUint64 gasUsed outputTransfer.GasLimit) outputTransfer.GasLocked)
      (min acc MaxUint64)
    = min (acc + (ts.map (fun t => t.GasLimit)).sum + (ts.map (fun t => t.GasLocked)).sum)
        MaxUint64 := by
  induction ts generalizing acc with
  | nil => simp
  | cons t rest ih =>
    simp only [List.foldl_cons, List.map_cons, List.sum_cons]
    rw [AddUint64_min_left, AddUint64_min_left, ih]
    congr 1
    omega

theorem getGasTransferredByAccount_eq_min (account : OutputAccount) :
    getGasTransferredByAccount account
      = min ((account.OutputTransfers.map (fun t => t.GasLimit)).sum
              + (account.OutputTransfers.map (fun t => t.GasLocked)).sum) MaxUint64 := by
  have h := foldl_transfers_min account.OutputTransfers 0
  have h0 : min 0 MaxUint64 = 0 := by simp
  rw [h0] at h
  unfold getGasTransferredByAccount
  rw [h]
  congr 1
  omega

theorem foldl_accounts_min (accounts : List (Bytes × OutputAccount)) (acc : Nat) :
    accounts.foldl (fun gasUsed entry =>
      AddUint64 (AddUint64 gasUsed entry.2.GasUsed) (getGasTransferredByAccount entry.2))
      (min acc MaxUint64)
    = min (acc + sumGasUsed accounts + sumGasLimit accounts + sumGasLocked accounts)
        MaxUint64 := by
  induction accounts generalizing acc with
  | nil => simp [sumGasUsed, sumGasLimit, sumGasLocked]
  | cons entry rest ih =>
    simp only [List.foldl_cons]
    rw [AddUint64_min_left, getGasTransferredByAccount_eq_min, AddUint64_min_min]
    rw [ih]
    simp only [sumGasUsed, sumGasLimit, sumGasLocked, List.map_cons, List.sum_cons]
    congr 1
    omega

theorem getCurrentTotalUsedGas_eq_min (host : VMHost) :
    getCurrentTotalUsedGas host
      = min (sumGasUsed host.output.OutputAccounts + sumGasLimit host.output.OutputAccounts
              + sumGasLocked host.output.OutputAccounts) MaxUint64 := by
  have h := foldl_accounts_min host.output.OutputAccounts 0
  have h0 : min 0 MaxUint64 = 0 := by simp
  rw [h0] at h
  unfold getCurrentTotalUsedGas GetOutputAccounts
  rw [h]
  congr 1
  omega

theorem checkGas_none (host : VMHost) (h : checkGas host host.output = none) :
    min (sumGasUsed host.output.OutputAccounts + sumGasLimit host.output.OutputAccounts
          + sumGasLocked host.output.OutputAccounts + host.output.GasRemaining) MaxUint64
      = GetGasProvided host := by
  unfold checkGas at h
  simp only [ne_eq, ite_not] at h
  split at h
  · rename_i heq
    rw [getCurrentTotalUsedGas_eq_min, AddUint64_min_left] at heq
    exact heq
  · exact absurd h (by simp)

theorem UpdateGasStateOnSuccess_none (host host' : VMHost)
    (h : UpdateGasStateOnSuccess host = (host', none)) :
    checkGas host' host'.output = none ∧ GetGasProvided host' = GetGasProvided host := by
  unfold UpdateGasStateOnSuccess at h
  simp only at h
  split at h
  · simp at h
  · rename_i host2 hset
    split at h
    · simp at h
    · rename_i hcheck
      simp only [Prod.mk.injEq, and_true] at h
      subst h
      refine ⟨hcheck, ?_⟩
      unfold setGasUsedToOutputAccounts at hset
      simp only at hset
      split at hset
      · simp only [Prod.mk.injEq, and_true] at hset
        subst hset
        simp [GetGasProvided, updateSCGasUsed, GetOutputAccount_metering]
      · simp at hset


/-- C1 (as amended): whenever `UpdateGasStateOnSuccess` returns no error, the sum over all output
accounts of `GasUsed`, plus the sum over all their output transfers of `GasLimit` and of
`GasLocked`, plus `GasRemaining`, capped at `MaxUint64`, equals the gas provided; the cap is
not reached, and the sum is exact, whenever the gas provided is below `MaxUint64`. -/
theorem updateGasStateOnSuccess_reconciles (host host' : VMHost)
    (h : UpdateGasStateOnSuccess host = (host', none)) :
    min (sumGasUsed host'.output.OutputAccounts + sumGasLimit host'.output.OutputAccounts
          + sumGasLocked host'.output.OutputAccounts + host'.output.GasRemaining) MaxUint64
      = GetGasProvided host'
    ∧ GetGasProvided host' = GetGasProvided host
    ∧ (GetGasProvided host < MaxUint64 →
        sumGasUsed host'.output.OutputAccounts + sumGasLimit host'.output.OutputAccounts
          + sumGasLocked host'.output.OutputAccounts + host'.output.GasRemaining
        = GetGasProvided host) := by
  obtain ⟨hcheck, hprov⟩ := UpdateGasStateOnSuccess_none host host' h
  have hmin := checkGas_none host' hcheck
  refine ⟨hmin, hprov, ?_⟩
  intro hlt
  rw [hprov] at hmin
  omega

/-- Witness for C1: the reconciliation at a host with one locked async transfer. -/
theorem updateGasStateOnSuccess_reconciles_witness :
    GetGasProvided asyncTransferHost < MaxUint64 ∧
    sumGasUsed (UpdateGasStateOnSuccess asyncTransferHost).1.output.OutputAccounts
      + sumGasLimit (UpdateGasStateOnSuccess asyncTransferHost).1.output.OutputAccounts
      + sumGasLocked (UpdateGasStateOnSuccess asyncTransferHost).1.output.OutputAccounts
      + (UpdateGasStateOnSuccess asyncTransferHost).1.output.GasRemaining
      = GetGasProvided asyncTransferHost :=
  ⟨by decide,
   (updateGasStateOnSuccess_reconciles asyncTransferHost
      (UpdateGasStateOnSuccess asyncTransferHost).1 (by decide)).2.2 (by decide)⟩

/-- C1 (as stated) fails: with a transfer of gas limit 5 and gas locked 3, the call succeeds
although used gas 2 plus gas limit 5 plus remaining 0 is 7, not the 10 provided. -/
theorem updateGasStateOnSuccess_gasLimit_sum_mismatch :
    (UpdateGasStateOnSuccess asyncTransferHost).2 = none ∧
    sumGasUsed (UpdateGasStateOnSuccess asyncTransferHost).1.output.OutputAccounts
      + sumGasLimit (UpdateGasStateOnSuccess asyncTransferHost).1.output.OutputAccounts
      + (UpdateGasStateOnSuccess asyncTransferHost).1.output.GasRemaining = 7 ∧
    GetGasProvided (UpdateGasStateOnSuccess asyncTransferHost).1 = 10 := by
  decide

/-- C2: `UseGasBounded n` fails with not-enough-gas and leaves the host unchanged when
`GasLeft ≤ n`, otherwise succeeds and adds exactly `n` to the points used; so
`UseGasBounded (GasLeft)` fails, and with `GasLeft ≥ 1`, `UseGasBounded (GasLeft - 1)` succeeds
and leaves `GasLeft = 1`. -/
theorem useGasBounded_strict (host : VMHost) (n : Nat)
    (hwf : host.metering.gasForExecution ≤ MaxUint64) :
    (GasLeft host ≤ n → UseGasBounded host n = (host, some .ErrNotEnoughGas))
    ∧ (n < GasLeft host →
        (UseGasBounded host n).2 = none
        ∧ (UseGasBounded host n).1.runtime.pointsUsed = host.runtime.pointsUsed + n)
    ∧ UseGasBounded host (GasLeft host) = (host, some .ErrNotEnoughGas)
    ∧ (1 ≤ GasLeft host →
        (UseGasBounded host (GasLeft host - 1)).2 = none
        ∧ GasLeft (UseGasBounded host (GasLeft host - 1)).1 = 1) := by
  have hfail : ∀ m, GasLeft host ≤ m → UseGasBounded host m = (host, some .ErrNotEnoughGas) := by
    intro m hm
    simp [UseGasBounded, hm]
  have hok : ∀ m, m < GasLeft host →
      (UseGasBounded host m).2 = none
      ∧ (UseGasBounded host m).1.runtime.pointsUsed = host.runtime.pointsUsed + m := by
    intro m hm
    have hnot : ¬ GasLeft host ≤ m := by omega
    have hadd : AddUint64 host.runtime.pointsUsed m = host.runtime.pointsUsed + m := by
      unfold GasLeft at hm
      unfold AddUint64
      simp only at hm
      split at hm <;> split <;> omega
    simp [UseGasBounded, hnot, UseGas, hadd]
  refine ⟨hfail n, hok n, hfail _ (le_refl _), ?_⟩
  intro h1
  obtain ⟨hnone, hpts⟩ := hok (GasLeft host - 1) (by omega)
  refine ⟨hnone, ?_⟩
  have hmet : (UseGasBounded host (GasLeft host - 1)).1.metering = host.metering := by
    have hnot : ¬ GasLeft host ≤ GasLeft host - 1 := by omega
    simp [UseGasBounded, hnot, UseGas]
  have hgl : GasLeft host = host.metering.gasForExecution - host.runtime.pointsUsed := by
    unfold GasLeft
    simp only
    split <;> omega
  have key : ∀ (host2 : VMHost) (g : Nat), host2.metering = host.metering →
      g = host.metering.gasForExecution - host.runtime.pointsUsed → 1 ≤ g →
      host2.runtime.pointsUsed = host.runtime.pointsUsed + (g - 1) → GasLeft host2 = 1 := by
    intro host2 g hm hg hg1 hp
    unfold GasLeft
    simp only
    rw [hm, hp]
    split <;> omega
  exact key _ _ hmet hgl h1 hpts

/-- Witness for C2: with 1000 gas left, using 999 succeeds and leaves 1. -/
theorem useGasBounded_strict_witness :
    bigIntHost.metering.gasForExecution ≤ MaxUint64
    ∧ 1 ≤ GasLeft bigIntHost
    ∧ (UseGasBounded bigIntHost (GasLeft bigIntHost - 1)).2 = none
    ∧ GasLeft (UseGasBounded bigIntHost (GasLeft bigIntHost - 1)).1 = 1 :=
  ⟨by decide, by decide,
   (useGasBounded_strict bigIntHost 4 (by decide)).2.2.2 (by decide)⟩

/-! ## Division -/

theorem tmod_nonneg_bound (a b : Int) (ha : 0 ≤ a) (hb : b ≠ 0) :
    0 ≤ a.tmod b ∧ a.tmod b < |b| := by
  have hbpos : 0 < |b| := abs_pos.mpr hb
  have h2 : a.tmod |b| < |b| := Int.tmod_lt_of_pos a hbpos
  have h3 : a.tmod |b| = a.tmod b := by
    rcases abs_choice b with h | h <;> rw [h]
    exact Int.tmod_neg a b
  rw [h3] at h2
  exact ⟨Int.tmod_nonneg b ha, h2⟩

theorem neg_tmod_eq (a b : Int) : (-a).tmod b = -(a.tmod b) := by
  rw [Int.tmod_def, Int.tmod_def, Int.neg_tdiv]
  ring

theorem tmod_sign_bound (a b : Int) (hb : b ≠ 0) :
    (a.tmod b = 0 ∨ Int.sign (a.tmod b) = Int.sign a) ∧ |a.tmod b| < |b| := by
  rcases le_or_lt 0 a with ha | ha
  · obtain ⟨h1, h2⟩ := tmod_nonneg_bound a b ha hb
    refine ⟨?_, by rw [abs_of_nonneg h1]; exact h2⟩
    rcases eq_or_lt_of_le h1 with h0 | hpos
    · exact Or.inl h0.symm
    · right
      have hapos : 0 < a := by
        rcases eq_or_lt_of_le ha with h | h
        · rw [← h] at hpos
          simp at hpos
        · exact h
      rw [Int.sign_eq_one_of_pos hpos, Int.sign_eq_one_of_pos hapos]
  · have hna : 0 ≤ -a := by omega
    obtain ⟨h1, h2⟩ := tmod_nonneg_bound (-a) b hna hb
    rw [neg_tmod_eq] at h1 h2
    refine ⟨?_, by rw [abs_of_nonpos (by omega)]; exact h2⟩
    rcases eq_or_lt_of_le h1 with h0 | hpos
    · left
      omega
    · right
      rw [Int.sign_eq_neg_one_of_neg (by omega), Int.sign_eq_neg_one_of_neg ha]

/-- C3: with `a` and `b ≠ 0` stored under existing handles, the values `q`, `r` stored by
`bigIntTDiv`, `bigIntTMod` satisfy `a = q * b + r`, `r = 0` or `sign r = sign a`, and
`|r| < |b|`; the values `q2`, `r2` stored by `bigIntEDiv`, `bigIntEMod` satisfy
`a = q2 * b + r2` and `0 ≤ r2 < |b|`. -/
theorem bigInt_division_identities (host : VMHost) (dq dr dq2 dr2 h1 h2 : Int) (a b : Int)
    (ha : bigIntAt host h1 = some a) (hb : bigIntAt host h2 = some b) (hb0 : b ≠ 0) :
    ∃ q r q2 r2 : Int,
      bigIntAt (v1_4_bigIntTDiv host dq h1 h2).1 dq = some q
      ∧ bigIntAt (v1_4_bigIntTMod host dr h1 h2).1 dr = some r
      ∧ bigIntAt (v1_4_bigIntEDiv host dq2 h1 h2).1 dq2 = some q2
      ∧ bigIntAt (v1_4_bigIntEMod host dr2 h1 h2).1 dr2 = some r2
      ∧ a = q * b + r ∧ (r = 0 ∨ Int.sign r = Int.sign a) ∧ |r| < |b|
      ∧ a = q2 * b + r2 ∧ 0 ≤ r2 ∧ r2 < |b| := by
  refine ⟨a.tdiv b, a.tmod b, a.ediv b, a.emod b,
    (bigIntDivLike_ok _ _ host dq h1 h2 a b ha hb hb0).2,
    (bigIntDivLike_ok _ _ host dr h1 h2 a b ha hb hb0).2,
    (bigIntDivLike_ok _ _ host dq2 h1 h2 a b ha hb hb0).2,
    (bigIntDivLike_ok _ _ host dr2 h1 h2 a b ha hb hb0).2,
    (Int.tdiv_add_tmod' a b).symm,
    (tmod_sign_bound a b hb0).1, (tmod_sign_bound a b hb0).2, ?_,
    Int.emod_nonneg a hb0, Int.emod_lt a hb0⟩
  have := Int.ediv_add_emod' a b
  exact this.symm

/-- C6: with both operand handles existing and the second operand 0, each of `bigIntTDiv`,
`bigIntTMod`, `bigIntEDiv`, `bigIntEMod` fails with the division-by-zero error and leaves
the value under every handle that existed before the call unchanged. -/
theorem bigInt_division_by_zero (host : VMHost) (d h1 h2 : Int) (a : Int)
    (ha : bigIntAt host h1 = some a) (hb : bigIntAt host h2 = some 0) :
    ((v1_4_bigIntTDiv host d h1 h2).2 = some .ErrDivZero
      ∧ ∀ h v, bigIntAt host h = some v → bigIntAt (v1_4_bigIntTDiv host d h1 h2).1 h = some v)
    ∧ ((v1_4_bigIntTMod host d h1 h2).2 = some .ErrDivZero
      ∧ ∀ h v, bigIntAt host h = some v → bigIntAt (v1_4_bigIntTMod host d h1 h2).1 h = some v)
    ∧ ((v1_4_bigIntEDiv host d h1 h2).2 = some .ErrDivZero
      ∧ ∀ h v, bigIntAt host h = some v → bigIntAt (v1_4_bigIntEDiv host d h1 h2).1 h = some v)
    ∧ ((v1_4_bigIntEMod host d h1 h2).2 = some .ErrDivZero
      ∧ ∀ h v, bigIntAt host h = some v → bigIntAt (v1_4_bigIntEMod host d h1 h2).1 h = some v) :=
  ⟨bigIntDivLike_zero _ _ host d h1 h2 a ha hb, bigIntDivLike_zero _ _ host d h1 h2 a ha hb,
   bigIntDivLike_zero _ _ host d h1 h2 a ha hb, bigIntDivLike_zero _ _ host d h1 h2 a ha hb⟩

/-! ## Byte conversions -/

theorem natBytesAux_eq (n : Nat) : ∀ (fuel : Nat) (acc : Bytes), n ≤ fuel →
    natBytesAux fuel n acc = natBytesAux n n [] ++ acc := by
  induction n using Nat.strong_induction_on with
  | _ n ih =>
    intro fuel acc hfuel
    by_cases hn : n = 0
    · subst hn
      cases fuel <;> simp [natBytesAux]
    · obtain ⟨f, rfl⟩ : ∃ f, fuel = f + 1 := ⟨fuel - 1, by omega⟩
      obtain ⟨m, rfl⟩ : ∃ m, n = m + 1 := ⟨n - 1, by omega⟩
      have hlt : (m + 1) / 256 < m + 1 := Nat.div_lt_self (by omega) (by omega)
      have h1 : (m + 1) / 256 ≤ f := by omega
      have h2 : (m + 1) / 256 ≤ m := by omega
      simp only [natBytesAux, hn, if_false]
      rw [ih _ hlt f _ h1, ih _ hlt m _ h2]
      simp

theorem natBytes_zero : natBytes 0 = [] := by
  simp [natBytes, natBytesAux]

theorem natBytes_pos (n : Nat) (hn : 0 < n) :
    natBytes n = natBytes (n / 256) ++ [n % 256] := by
  obtain ⟨m, rfl⟩ : ∃ m, n = m + 1 := ⟨n - 1, by omega⟩
  have hlt : (m + 1) / 256 < m + 1 := Nat.div_lt_self (by omega) (by omega)
  unfold natBytes
  simp only [natBytesAux, Nat.succ_ne_zero, if_false]
  rw [natBytesAux_eq _ m _ (by omega)]

theorem bytesToNat_append (bs : Bytes) (b : Nat) :
    bytesToNat (bs ++ [b]) = bytesToNat bs * 256 + b := by
  simp [bytesToNat, List.foldl_append]

theorem bytesToNat_cons_zero (bs : Bytes) : bytesToNat (0 :: bs) = bytesToNat bs := by
  simp [bytesToNat]

/-- Bytes without leading zero are recovered from their number. -/
theorem natBytes_bytesToNat (bs : Bytes) (hbytes : ∀ x ∈ bs, x < 256)
    (hlead : hasLeadingZeroByte bs = false) :
    natBytes (bytesToNat bs) = bs ∧ (bs ≠ [] → 0 < bytesToNat bs) := by
  induction bs using List.reverseRecOn with
  | nil => simp [bytesToNat, natBytes_zero]
  | append_singleton init b ih =>
    have hb : b < 256 := hbytes b (by simp)
    rw [bytesToNat_append]
    cases init with
    | nil =>
      have hb0 : b ≠ 0 := by
        intro h0
        simp [hasLeadingZeroByte, h0] at hlead
      have hpos : 0 < bytesToNat [] * 256 + b := by
        simp [bytesToNat]; omega
      refine ⟨?_, fun _ => hpos⟩
      rw [natBytes_pos _ hpos]
      have hd : (bytesToNat [] * 256 + b) / 256 = 0 := by
        simp [bytesToNat]; omega
      have hm : (bytesToNat [] * 256 + b) % 256 = b := by
        simp [bytesToNat]; omega
      rw [hd, hm, natBytes_zero]
    | cons c rest =>
      have hlead2 : hasLeadingZeroByte (c :: rest) = false := by
        simpa [hasLeadingZeroByte] using hlead
      obtain ⟨ih1, ih2⟩ := ih (fun x hx => hbytes x (by simp at hx ⊢; tauto)) hlead2
      have hpos0 := ih2 (by simp)
      have hpos : 0 < bytesToNat (c :: rest) * 256 + b := by omega
      refine ⟨?_, fun _ => hpos⟩
      rw [natBytes_pos _ hpos]
      have hd : (bytesToNat (c :: rest) * 256 + b) / 256 = bytesToNat (c :: rest) := by omega
      have hm : (bytesToNat (c :: rest) * 256 + b) % 256 = b := by omega
      rw [hd, hm, ih1]


theorem notBytes_notBytes (bs : Bytes) (hbytes : ∀ x ∈ bs, x < 256) :
    notBytes (notBytes bs) = bs := by
  induction bs with
  | nil => rfl
  | cons b rest ih =>
    have hb : b < 256 := hbytes b (by simp)
    have hrest := ih (fun x hx => hbytes x (by simp [hx]))
    simp only [notBytes, List.map_cons, List.map_map] at hrest ⊢
    rw [hrest]
    congr 1
    omega

theorem notBytes_lt (bs : Bytes) : ∀ x ∈ notBytes bs, x < 256 := by
  intro x hx
  simp only [notBytes, List.mem_map] at hx
  obtain ⟨y, _, rfl⟩ := hx
  omega

/-- The two's-complement encoding of the decoded value of canonical bytes is the bytes. -/
theorem twosToBytes_twosSetBytes (bs : Bytes) (hbytes : ∀ x ∈ bs, x < 256)
    (hcanon : hasRedundantSignByte bs = false) :
    twosToBytes (twosSetBytes bs) = bs := by
  cases bs with
  | nil => simp [twosSetBytes, twosToBytes]
  | cons x rest =>
    have hx : x < 256 := hbytes x (by simp)
    by_cases hhigh : 128 ≤ x
    · -- negative value
      have hval : twosSetBytes (x :: rest)
          = -((bytesToNat (notBytes (x :: rest)) : Nat) : Int) - 1 := by
        simp [twosSetBytes, hhigh, bigSetBytes]
      have hneg : twosSetBytes (x :: rest) < 0 := by rw [hval]; omega
      have hplus : bigBytes (twosSetBytes (x :: rest) + 1)
          = natBytes (bytesToNat (notBytes (x :: rest))) := by
        rw [hval]
        unfold bigBytes
        congr 1
        omega
      unfold twosToBytes
      simp only [hneg, if_true]
      rw [hplus]
      by_cases hff : x = 255
      · subst hff
        have hnb : notBytes (255 :: rest) = 0 :: notBytes rest := by simp [notBytes]
        rw [hnb, bytesToNat_cons_zero]
        cases rest with
        | nil => simp [notBytes, bytesToNat, natBytes_zero]
        | cons c rest2 =>
          have hc : c < 128 := by
            by_contra hge
            simp [hasRedundantSignByte] at hcanon
            omega
          have hlead : hasLeadingZeroByte (notBytes (c :: rest2)) = false := by
            simp [notBytes, hasLeadingZeroByte]; omega
          have hrt := (natBytes_bytesToNat _ (notBytes_lt (c :: rest2)) hlead).1
          rw [hrt]
          have hnb2 : notBytes (c :: rest2) = (255 - c) :: notBytes rest2 := by simp [notBytes]
          have hrest := notBytes_notBytes (c :: rest2) (fun y hy => hbytes y (by simp at hy ⊢; tauto))
          rw [hnb2] at hrest ⊢
          have h128 : 128 ≤ 255 - c := by omega
          simp only [h128, if_true]
          rw [hrest]
      · have hlead : hasLeadingZeroByte (notBytes (x :: rest)) = false := by
          simp [notBytes, hasLeadingZeroByte]; omega
        have hrt := (natBytes_bytesToNat _ (notBytes_lt (x :: rest)) hlead).1
        rw [hrt]
        have hnb : notBytes (x :: rest) = (255 - x) :: notBytes rest := by simp [notBytes]
        have hrest := notBytes_notBytes (x :: rest) hbytes
        rw [hnb] at hrest ⊢
        have h128 : ¬ 128 ≤ 255 - x := by omega
        simp only [h128, if_false]
        exact hrest
    · -- non-negative value
      have hval : twosSetBytes (x :: rest) = ((bytesToNat (x :: rest) : Nat) : Int) := by
        simp [twosSetBytes, hhigh, bigSetBytes]
      by_cases hx0 : x = 0
      · subst hx0
        cases rest with
        | nil => simp [hasRedundantSignByte] at hcanon
        | cons c rest2 =>
          have hc : 128 ≤ c := by
            by_contra hlt
            simp [hasRedundantSignByte] at hcanon
            omega
          have hlead : hasLeadingZeroByte (c :: rest2) = false := by
            simp [hasLeadingZeroByte]; omega
          obtain ⟨hrt, hpos⟩ := natBytes_bytesToNat (c :: rest2)
            (fun y hy => hbytes y (by simp at hy ⊢; tauto)) hlead
          have hpos2 := hpos (by simp)
          rw [hval, bytesToNat_cons_zero]
          unfold twosToBytes
          have h1 : ¬ ((bytesToNat (c :: rest2) : Nat) : Int) < 0 := by omega
          have h2 : ¬ ((bytesToNat (c :: rest2) : Nat) : Int) = 0 := by omega
          simp only [h1, h2, if_false]
          unfold bigBytes
          rw [Int.natAbs_ofNat, hrt]
          simp [hc]
      · have hlead : hasLeadingZeroByte (x :: rest) = false := by
          simp [hasLeadingZeroByte, hx0]
        obtain ⟨hrt, hpos⟩ := natBytes_bytesToNat (x :: rest) hbytes hlead
        have hpos2 := hpos (by simp)
        rw [hval]
        unfold twosToBytes
        have h1 : ¬ ((bytesToNat (x :: rest) : Nat) : Int) < 0 := by omega
        have h2 : ¬ ((bytesToNat (x :: rest) : Nat) : Int) = 0 := by omega
        simp only [h1, h2, if_false]
        unfold bigBytes
        rw [Int.natAbs_ofNat, hrt]
        simp [hhigh]

theorem toInt32_of_small (n : Nat) (hn : (n : Int) < 2 ^ 31) : toInt32 n = n := by
  unfold toInt32
  norm_num at hn ⊢
  omega

theorem MemLoad_congr (host host2 : VMHost) (offset length : Int)
    (hmem : host2.runtime.memory = host.runtime.memory) :
    MemLoad host2 offset length = MemLoad host offset length := by
  unfold MemLoad
  rw [hmem]

theorem take_drop_store (mem data : List Nat) (o : Nat)
    (h : o + data.length ≤ mem.length) :
    ((mem.take o ++ data ++ mem.drop (o + data.length)).drop o).take data.length = data
    ∧ (mem.take o ++ data ++ mem.drop (o + data.length)).length = mem.length := by
  have hlen : (List.take o mem).length = o := by
    rw [List.length_take]; omega
  refine ⟨?_, ?_⟩
  · rw [List.append_assoc, List.drop_append_of_le_length (by omega),
      List.drop_of_length_le (by omega)]
    simp
  · simp only [List.length_append, List.length_take, List.length_drop]
    omega

theorem MemLoad_MemStore (host : VMHost) (out : Int) (data : Bytes)
    (hout0 : 0 ≤ out) (hout : out + data.length ≤ host.runtime.memory.length) :
    ∃ host2, MemStore host out data = .ok host2
      ∧ host2.managedTypes = host.managedTypes
      ∧ host2.metering = host.metering
      ∧ MemLoad host2 out data.length = .ok data := by
  have hcond : ¬ (out < 0 ∨ (host.runtime.memory.length : Int) < out + data.length) := by omega
  obtain ⟨o, rfl⟩ : ∃ o : Nat, out = o := ⟨out.toNat, by omega⟩
  have ho : o + data.length ≤ host.runtime.memory.length := by omega
  obtain ⟨h1, h2⟩ := take_drop_store host.runtime.memory data o ho
  refine ⟨{ host with runtime :=
            { host.runtime with
              memory := host.runtime.memory.take o ++ data
                ++ host.runtime.memory.drop (o + data.length) } }, ?_, rfl, rfl, ?_⟩
  · unfold MemStore
    rw [if_neg hcond]
    simp
  · unfold MemLoad
    simp only [Int.toNat_ofNat]
    rw [h2, h1]
    have hcond2 : ¬ ((o : Int) < 0 ∨ (data.length : Int) < 0 ∨
        (host.runtime.memory.length : Int) < o + data.length) := by omega
    rw [if_neg hcond2]

theorem UseGas_memory (host : VMHost) (gas : Nat) :
    (UseGas host gas).runtime.memory = host.runtime.memory := rfl

/-- What the set-bytes host functions store, shown for any decoder. -/
theorem setBytes_stores (host : VMHost) (gas : Nat) (decode : Bytes → Int) (h : Int)
    (bytes : Bytes) :
    let host1 := (GetBigIntOrCreate (UseGas host gas) h).1
    let host2 := UseGas (setBigInt host1 h (decode bytes))
      (MulUint64 (setBigInt host1 h (decode bytes)).metering.gasSchedule.DataCopyPerByte
        bytes.length)
    bigIntAt host2 h = some (decode bytes) ∧ host2.runtime.memory = host.runtime.memory := by
  refine ⟨?_, ?_⟩
  · simp only [bigIntAt, UseGas, setBigInt]
    exact mapGet?_mapSet_self _ _ _
  · simp only [UseGas, setBigInt]
    unfold GetBigIntOrCreate
    split <;> rfl

theorem setSignedBytes_stores (host : VMHost) (h off len : Int) (b : Bytes)
    (hload : MemLoad host off len = .ok b) :
    bigIntAt (v1_4_bigIntSetSignedBytes host h off len).1 h = some (twosSetBytes b)
    ∧ (v1_4_bigIntSetSignedBytes host h off len).1.runtime.memory = host.runtime.memory := by
  have hload2 : MemLoad (UseGas host host.metering.gasSchedule.BigIntSetSignedBytes) off len
      = .ok b := by
    rw [MemLoad_congr host _ _ _ (UseGas_memory _ _)]; exact hload
  unfold v1_4_bigIntSetSignedBytes
  simp only
  rw [hload2]
  exact setBytes_stores host _ twosSetBytes h b

theorem setUnsignedBytes_stores (host : VMHost) (h off len : Int) (b : Bytes)
    (hload : MemLoad host off len = .ok b) :
    bigIntAt (v1_4_bigIntSetUnsignedBytes host h off len).1 h = some (bigSetBytes b)
    ∧ (v1_4_bigIntSetUnsignedBytes host h off len).1.runtime.memory = host.runtime.memory := by
  have hload2 : MemLoad (UseGas host host.metering.gasSchedule.BigIntSetUnsignedBytes) off len
      = .ok b := by
    rw [MemLoad_congr host _ _ _ (UseGas_memory _ _)]; exact hload
  unfold v1_4_bigIntSetUnsignedBytes
  simp only
  rw [hload2]
  exact setBytes_stores host _ bigSetBytes h b

theorem getSignedBytes_writes (host : VMHost) (h out : Int) (v : Int)
    (hv : bigIntAt host h = some v) (hout0 : 0 ≤ out)
    (hout : out + (twosToBytes v).length ≤ host.runtime.memory.length) :
    (v1_4_bigIntGetSignedBytes host h out).2 = toInt32 (twosToBytes v).length
    ∧ MemLoad (v1_4_bigIntGetSignedBytes host h out).1 out (twosToBytes v).length
        = .ok (twosToBytes v) := by
  obtain ⟨host2, hstore, -, -, hld⟩ :=
    MemLoad_MemStore (UseGas host host.metering.gasSchedule.BigIntGetSignedBytes) out
      (twosToBytes v) hout0 hout
  have hget : GetBigInt (UseGas host host.metering.gasSchedule.BigIntGetSignedBytes) h
      = .ok v := by
    unfold bigIntAt at hv
    unfold GetBigInt
    show (match mapGet? host.managedTypes.bigIntValues h with | some value => Except.ok value | none => Except.error HostError.ErrNoBigIntUnderThisHandle) = Except.ok v
    rw [hv]
  unfold v1_4_bigIntGetSignedBytes
  simp only
  rw [hget]
  simp only
  rw [hstore]
  simp only
  refine ⟨trivial, ?_⟩
  rw [MemLoad_congr host2 _ _ _ (UseGas_memory _ _)]
  exact hld

theorem getUnsignedBytes_writes (host : VMHost) (h out : Int) (v : Int)
    (hv : bigIntAt host h = some v) (hout0 : 0 ≤ out)
    (hout : out + (bigBytes v).length ≤ host.runtime.memory.length) :
    (v1_4_bigIntGetUnsignedBytes host h out).2 = toInt32 (bigBytes v).length
    ∧ MemLoad (v1_4_bigIntGetUnsignedBytes host h out).1 out (bigBytes v).length
        = .ok (bigBytes v) := by
  obtain ⟨host2, hstore, -, -, hld⟩ :=
    MemLoad_MemStore (UseGas host host.metering.gasSchedule.BigIntGetUnsignedBytes) out
      (bigBytes v) hout0 hout
  have hget : GetBigInt (UseGas host host.metering.gasSchedule.BigIntGetUnsignedBytes) h
      = .ok v := by
    unfold bigIntAt at hv
    unfold GetBigInt
    show (match mapGet? host.managedTypes.bigIntValues h with
      | some value => Except.ok value
      | none => Except.error HostError.ErrNoBigIntUnderThisHandle) = Except.ok v
    rw [hv]
  unfold v1_4_bigIntGetUnsignedBytes
  simp only
  rw [hget]
  simp only
  rw [hstore]
  simp only
  refine ⟨trivial, ?_⟩
  rw [MemLoad_congr host2 _ _ _ (UseGas_memory _ _)]
  exact hld

/-- C4: for bytes `b` read from memory, setting a big int from `b` and getting it back writes
exactly `b` and returns `len(b)`: with the signed functions when `b` has no redundant sign
byte, with the unsigned functions when `b` has no leading zero byte. -/
theorem bigInt_bytes_roundtrip (host : VMHost) (h off out : Int) (b : Bytes)
    (hbytes : ∀ x ∈ b, x < 256) (hlen : (b.length : Int) < 2 ^ 31)
    (hload : MemLoad host off b.length = .ok b)
    (hout0 : 0 ≤ out) (hout : out + b.length ≤ host.runtime.memory.length) :
    (hasRedundantSignByte b = false →
      (v1_4_bigIntGetSignedBytes (v1_4_bigIntSetSignedBytes host h off b.length).1 h out).2
          = b.length
      ∧ MemLoad
          (v1_4_bigIntGetSignedBytes (v1_4_bigIntSetSignedBytes host h off b.length).1 h out).1
          out b.length = .ok b)
    ∧ (hasLeadingZeroByte b = false →
      (v1_4_bigIntGetUnsignedBytes (v1_4_bigIntSetUnsignedBytes host h off b.length).1 h out).2
          = b.length
      ∧ MemLoad
          (v1_4_bigIntGetUnsignedBytes (v1_4_bigIntSetUnsignedBytes host h off b.length).1 h
            out).1
          out b.length = .ok b) := by
  constructor
  · intro hcanon
    obtain ⟨hv, hmem⟩ := setSignedBytes_stores host h off b.length b hload
    have hrt := twosToBytes_twosSetBytes b hbytes hcanon
    have hout2 : out + (twosToBytes (twosSetBytes b)).length
        ≤ (v1_4_bigIntSetSignedBytes host h off b.length).1.runtime.memory.length := by
      rw [hrt, hmem]; exact hout
    have hg := getSignedBytes_writes _ h out _ hv hout0 hout2
    rw [hrt] at hg
    rw [toInt32_of_small _ hlen] at hg
    exact hg
  · intro hlead
    obtain ⟨hv, hmem⟩ := setUnsignedBytes_stores host h off b.length b hload
    have hrt : bigBytes (bigSetBytes b) = b := by
      unfold bigBytes bigSetBytes
      rw [Int.natAbs_ofNat]
      exact (natBytes_bytesToNat b hbytes hlead).1
    have hout2 : out + (bigBytes (bigSetBytes b)).length
        ≤ (v1_4_bigIntSetUnsignedBytes host h off b.length).1.runtime.memory.length := by
      rw [hrt, hmem]; exact hout
    have hg := getUnsignedBytes_writes _ h out _ hv hout0 hout2
    rw [hrt] at hg
    rw [toInt32_of_small _ hlen] at hg
    exact hg

/-! ## Claims on the big-int host functions -/

/-- Witness for C4: the bytes `[255, 127]` (the value -129) at offset 0, written back at
offset 4. -/
theorem bigInt_bytes_roundtrip_witness :
    hasRedundantSignByte [255, 127] = false
    ∧ (v1_4_bigIntGetSignedBytes (v1_4_bigIntSetSignedBytes bigIntHost 7 0 2).1 7 4).2 = 2
    ∧ MemLoad (v1_4_bigIntGetSignedBytes (v1_4_bigIntSetSignedBytes bigIntHost 7 0 2).1 7 4).1
        4 2 = .ok [255, 127] :=
  ⟨rfl, (bigInt_bytes_roundtrip bigIntHost 7 0 4 [255, 127] (by decide) (by decide) rfl
    (by decide) (by decide)).1 rfl⟩

/-- Witness for C3: -7 and 2 under the handles 0 and 1 of the sample host. -/
theorem bigInt_division_identities_witness :
    ∃ q r q2 r2 : Int,
      bigIntAt (v1_4_bigIntTDiv bigIntHost 9 0 1).1 9 = some q
      ∧ bigIntAt (v1_4_bigIntTMod bigIntHost 9 0 1).1 9 = some r
      ∧ bigIntAt (v1_4_bigIntEDiv bigIntHost 9 0 1).1 9 = some q2
      ∧ bigIntAt (v1_4_bigIntEMod bigIntHost 9 0 1).1 9 = some r2
      ∧ (-7 : Int) = q * 2 + r ∧ (r = 0 ∨ Int.sign r = Int.sign (-7)) ∧ |r| < |(2 : Int)|
      ∧ (-7 : Int) = q2 * 2 + r2 ∧ 0 ≤ r2 ∧ r2 < |(2 : Int)| :=
  bigInt_division_identities bigIntHost 9 9 9 9 0 1 (-7) 2 rfl rfl (by decide)

/-- Witness for C6: dividing -7 (handle 0) by 0 (handle 2) into the existing handle 3. -/
theorem bigInt_division_by_zero_witness :
    (v1_4_bigIntTDiv bigIntHost 3 0 2).2 = some .ErrDivZero
    ∧ bigIntAt (v1_4_bigIntTDiv bigIntHost 3 0 2).1 3 = some 5 :=
  ⟨(bigInt_division_by_zero bigIntHost 3 0 2 (-7) rfl rfl).1.1,
   (bigInt_division_by_zero bigIntHost 3 0 2 (-7) rfl rfl).1.2 3 5 rfl⟩

theorem GetBigInt_ok (host : VMHost) (h : Int) (a : Int) (ha : bigIntAt host h = some a) :
    GetBigInt host h = .ok a := by
  unfold bigIntAt at ha
  unfold GetBigInt
  rw [ha]

theorem bigIntAt_faultExit_after_copy (host : VMHost) (values : List Int) (err : HostError)
    (h : Int) :
    bigIntAt (faultExit (ConsumeGasForBigIntCopy host values) err).1 h = bigIntAt host h := by
  unfold bigIntAt
  rw [faultExit_managedTypes, ConsumeGasForBigIntCopy_managedTypes]

/-- The failure path of `bigIntNot` on a negative operand. -/
theorem bigIntNot_negative (host : VMHost) (d h1 : Int) (a : Int)
    (ha : bigIntAt host h1 = some a) (hneg : a < 0) :
    (v1_4_bigIntNot host d h1).2 = some .ErrBitwiseNegative
    ∧ ∀ h v, bigIntAt host h = some v → bigIntAt (v1_4_bigIntNot host d h1).1 h = some v := by
  have ha1 := GetBigInt_ok _ h1 a
    (bigIntAt_GetBigIntOrCreate (UseGas host host.metering.gasSchedule.BigIntSub) d h1 a ha)
  unfold v1_4_bigIntNot
  simp only
  rw [ha1]
  simp only [hneg, if_true]
  refine ⟨rfl, ?_⟩
  intro h v hv
  rw [bigIntAt_faultExit_after_copy]
  exact bigIntAt_GetBigIntOrCreate _ d h v hv

/-- The failure path of the binary bitwise host functions on a negative operand. -/
theorem bigIntBitwise_negative (op : Nat → Nat → Nat) (host : VMHost) (d h1 h2 : Int)
    (a b : Int) (ha : bigIntAt host h1 = some a) (hb : bigIntAt host h2 = some b)
    (hneg : a < 0 ∨ b < 0) :
    (bigIntBitwise op host d h1 h2).2 = some .ErrBitwiseNegative
    ∧ ∀ h v, bigIntAt host h = some v →
        bigIntAt (bigIntBitwise op host d h1 h2).1 h = some v := by
  have hab := GetTwoBigInt_ok _ h1 h2 a b
    (bigIntAt_GetBigIntOrCreate (UseGas host host.metering.gasSchedule.BigIntSub) d h1 a ha)
    (bigIntAt_GetBigIntOrCreate (UseGas host host.metering.gasSchedule.BigIntSub) d h2 b hb)
  unfold bigIntBitwise
  simp only
  rw [hab]
  simp only [hneg, if_true]
  refine ⟨rfl, ?_⟩
  intro h v hv
  rw [bigIntAt_faultExit_after_copy]
  exact bigIntAt_GetBigIntOrCreate _ d h v hv

/-- The failure path of the shift host functions on a negative operand. -/
theorem bigIntShift_negative (op : Nat → Nat → Nat) (host : VMHost) (d h1 bits : Int)
    (a : Int) (ha : bigIntAt host h1 = some a) (hneg : a < 0) :
    (bigIntShift op host d h1 bits).2 = some .ErrShiftNegative
    ∧ ∀ h v, bigIntAt host h = some v →
        bigIntAt (bigIntShift op host d h1 bits).1 h = some v := by
  have ha1 := GetBigInt_ok _ h1 a
    (bigIntAt_GetBigIntOrCreate (UseGas host host.metering.gasSchedule.BigIntSub) d h1 a ha)
  unfold bigIntShift
  simp only
  rw [ha1]
  simp only [hneg, true_or, if_true]
  refine ⟨rfl, ?_⟩
  intro h v hv
  rw [bigIntAt_faultExit_after_copy]
  exact bigIntAt_GetBigIntOrCreate _ d h v hv

/-- C5 (as amended): with the operands under existing handles, a negative operand makes
`bigIntNot`, `bigIntAnd`, `bigIntOr` and `bigIntXor` fail with the bitwise-negative error and
makes `bigIntShr` and `bigIntShl` fail with the shift-negative error; in each case the value
under every handle that existed before the call, the destination included, is unchanged. -/
theorem bigInt_bitwise_negative_operand (host : VMHost) (d h1 h2 bits : Int) (a b : Int)
    (ha : bigIntAt host h1 = some a) (hb : bigIntAt host h2 = some b) :
    (a < 0 →
      ((v1_4_bigIntNot host d h1).2 = some .ErrBitwiseNegative
        ∧ ∀ h v, bigIntAt host h = some v → bigIntAt (v1_4_bigIntNot host d h1).1 h = some v)
      ∧ ((v1_4_bigIntShr host d h1 bits).2 = some .ErrShiftNegative
        ∧ ∀ h v, bigIntAt host h = some v →
            bigIntAt (v1_4_bigIntShr host d h1 bits).1 h = some v)
      ∧ ((v1_4_bigIntShl host d h1 bits).2 = some .ErrShiftNegative
        ∧ ∀ h v, bigIntAt host h = some v →
            bigIntAt (v1_4_bigIntShl host d h1 bits).1 h = some v))
    ∧ (a < 0 ∨ b < 0 →
      ((v1_4_bigIntAnd host d h1 h2).2 = some .ErrBitwiseNegative
        ∧ ∀ h v, bigIntAt host h = some v → bigIntAt (v1_4_bigIntAnd host d h1 h2).1 h = some v)
      ∧ ((v1_4_bigIntOr host d h1 h2).2 = some .ErrBitwiseNegative
        ∧ ∀ h v, bigIntAt host h = some v → bigIntAt (v1_4_bigIntOr host d h1 h2).1 h = some v)
      ∧ ((v1_4_bigIntXor host d h1 h2).2 = some .ErrBitwiseNegative
        ∧ ∀ h v, bigIntAt host h = some v →
            bigIntAt (v1_4_bigIntXor host d h1 h2).1 h = some v)) :=
  ⟨fun hneg => ⟨bigIntNot_negative host d h1 a ha hneg,
      bigIntShift_negative _ host d h1 bits a ha hneg,
      bigIntShift_negative _ host d h1 bits a ha hneg⟩,
   fun hneg => ⟨bigIntBitwise_negative _ host d h1 h2 a b ha hb hneg,
      bigIntBitwise_negative _ host d h1 h2 a b ha hb hneg,
      bigIntBitwise_negative _ host d h1 h2 a b ha hb hneg⟩⟩

/-- Witness for C5: shifting and masking -7 (handle 0) into the existing handle 3. -/
theorem bigInt_bitwise_negative_operand_witness :
    (v1_4_bigIntShl bigIntHost 3 0 1).2 = some .ErrShiftNegative
    ∧ (v1_4_bigIntAnd bigIntHost 3 0 1).2 = some .ErrBitwiseNegative
    ∧ bigIntAt (v1_4_bigIntAnd bigIntHost 3 0 1).1 3 = some 5 :=
  ⟨((bigInt_bitwise_negative_operand bigIntHost 3 0 1 1 (-7) 2 rfl rfl).1 (by decide)).2.2.1,
   ((bigInt_bitwise_negative_operand bigIntHost 3 0 1 1 (-7) 2 rfl rfl).2
      (Or.inl (by decide))).1.1,
   ((bigInt_bitwise_negative_operand bigIntHost 3 0 1 1 (-7) 2 rfl rfl).2
      (Or.inl (by decide))).1.2 3 5 rfl⟩

/-- C5 (as stated) fails: `bigIntShr` of the negative operand -7 fails with the
shift-negative error, not the bitwise-negative one. -/
theorem bigIntShr_negative_not_bitwise_error :
    bigIntAt bigIntHost 0 = some (-7)
    ∧ (v1_4_bigIntShr bigIntHost 3 0 1).2 = some .ErrShiftNegative
    ∧ (v1_4_bigIntShr bigIntHost 3 0 1).2 ≠ some .ErrBitwiseNegative := by
  decide

/-! ## Indirect calls -/

theorem WithFault_readOnly (err : Option HostError) (host : VMHost) (flag : Bool) :
    (WithFault err host flag).1.runtime.readOnly = host.runtime.readOnly := by
  unfold WithFault FailExecution
  cases err with
  | none => rfl
  | some e => cases flag <;> rfl

/-- Whenever `ExecuteReadOnlyWithTypedArguments` reaches the nested execution (same shard, no
built-in function), the frame is not read-only afterwards, whatever it was before. -/
theorem ExecuteReadOnlyWithTypedArguments_readOnly_after (env : Collaborators) (host : VMHost)
    (gasLimit : Int) (function dest : Bytes) (args : List Bytes)
    (hshard : env.AreInSameShard host.runtime.scAddress dest = true)
    (hbuiltin : isBuiltInCall env function = false) :
    (ExecuteReadOnlyWithTypedArguments env host gasLimit function dest args).1.runtime.readOnly
      = false := by
  have hprep : prepareIndirectContractCallInput env
      (UseGas host host.metering.gasSchedule.ExecuteReadOnly)
      (UseGas host host.metering.gasSchedule.ExecuteReadOnly).runtime.scAddress
      (UseGas host host.metering.gasSchedule.ExecuteReadOnly).runtime.callValue gasLimit dest
      function args host.metering.gasSchedule.ExecuteReadOnly true
      = .ok { CallerAddr := host.runtime.scAddress, Arguments := args,
              CallValue := host.runtime.callValue, GasPrice := 0,
              GasProvided := BoundGasLimit
                (UseGas host host.metering.gasSchedule.ExecuteReadOnly) gasLimit,
              RecipientAddr := dest, Function := function } := by
    unfold prepareIndirectContractCallInput
    have : (UseGas host host.metering.gasSchedule.ExecuteReadOnly).runtime.scAddress
        = host.runtime.scAddress := rfl
    rw [this, hshard]
    rfl
  unfold ExecuteReadOnlyWithTypedArguments
  simp only
  rw [hprep]
  simp only [hbuiltin, Bool.false_eq_true, if_false]
  split
  · rename_i host3 heq
    have hro := congrArg (fun w : VMHost × Bool => w.1.runtime.readOnly) heq
    simp only [WithFault_readOnly] at hro
    exact hro.symm
  · rename_i host3 heq
    have hro := congrArg (fun w : VMHost × Bool => w.1.runtime.readOnly) heq
    simp only [WithFault_readOnly] at hro
    exact hro.symm

/-- C7: evaluation at the failing input. A read-only frame makes a successful read-only call
(the nested execution leaves the runtime state as it found it, the result is 0) and is no
longer read-only afterwards. -/
theorem executeReadOnly_clears_readOnly_of_caller :
    (callHost [21]).runtime.readOnly = true
    ∧ (ExecuteReadOnlyWithTypedArguments sampleCollaborators (callHost [21]) 100 [102, 110]
        (List.replicate 32 3) []).2 = 0
    ∧ (ExecuteReadOnlyWithTypedArguments sampleCollaborators (callHost [21]) 100 [102, 110]
        (List.replicate 32 3) []).1.runtime.readOnly = false := by
  decide

/-- C8: evaluation at the failing input `numArguments = -1`. Reading the arguments fails, yet
`extractIndirectContractCallArguments` returns no error (with no arguments), and
`executeReadOnly` goes on to perform the call and returns 0. -/
theorem extractIndirectContractCallArguments_swallows_error :
    (getArgumentsFromMemory (callHost [21]) (-1) 0 0).2.2 = some .ErrNegativeNumArguments
    ∧ (extractIndirectContractCallArguments (callHost [21]) 0 0 false 32 2 (-1) 0 0).2
        = .ok { dest := List.replicate 32 3, value := none, function := [102, 110], args := [],
                actualLen := 0 }
    ∧ (ExecuteReadOnlyWithHost sampleCollaborators (callHost [21]) 100 0 32 2 (-1) 0 0).2 = 0 := by
  refine ⟨by decide, rfl, by decide⟩

/-! ## Async calls -/

theorem setupCallsGasLoop_ok (gasLeft : Nat) (hmax : gasLeft ≤ MaxUint64) :
    ∀ (calls : List AsyncGeneratedCall) (g z : Nat),
      g + sumProvidedGasCalls calls ≤ gasLeft →
      setupCallsGasLoop gasLeft calls g z
        = (calls.map withProvidedGas, g + sumProvidedGasCalls calls,
            z + countZeroGasCalls calls, none) := by
  intro calls
  induction calls with
  | nil => intro g z _; simp [setupCallsGasLoop, sumProvidedGasCalls, countZeroGasCalls]
  | cons c rest ih =>
    intro g z hsum
    have hs : sumProvidedGasCalls (c :: rest) = c.ProvidedGas + sumProvidedGasCalls rest := by
      simp [sumProvidedGasCalls]
    rw [hs] at hsum ⊢
    have hadd : AddUint64WithErr g c.ProvidedGas = .ok (g + c.ProvidedGas) := by
      unfold AddUint64WithErr
      rw [if_neg (by omega)]
    have hle : ¬ gasLeft < g + c.ProvidedGas := by omega
    unfold setupCallsGasLoop
    rw [hadd]
    simp only [hle, if_false]
    by_cases h0 : c.ProvidedGas = 0
    · simp only [h0, if_true]
      rw [ih (g + 0) (z + 1) (by omega)]
      simp [withProvidedGas, h0, countZeroGasCalls]
      omega
    · simp only [h0, if_false]
      rw [ih (g + c.ProvidedGas) z (by omega)]
      simp [withProvidedGas, h0, countZeroGasCalls]
      omega

theorem setupCallsGasLoop_fail (gasLeft : Nat) :
    ∀ (calls : List AsyncGeneratedCall) (g z : Nat),
      gasLeft < g + sumProvidedGasCalls calls → g ≤ gasLeft →
      ∃ e, (setupCallsGasLoop gasLeft calls g z).2.2.2 = some e
        ∧ (g + sumProvidedGasCalls calls ≤ MaxUint64 → e = .ErrNotEnoughGas) := by
  intro calls
  induction calls with
  | nil => intro g z h hg; simp [sumProvidedGasCalls] at h; omega
  | cons c rest ih =>
    intro g z hsum hg
    have hs : sumProvidedGasCalls (c :: rest) = c.ProvidedGas + sumProvidedGasCalls rest := by
      simp [sumProvidedGasCalls]
    rw [hs] at hsum ⊢
    unfold setupCallsGasLoop
    by_cases hov : MaxUint64 < g + c.ProvidedGas
    · have hadd : AddUint64WithErr g c.ProvidedGas = .error .ErrAdditionOverflow := by
        unfold AddUint64WithErr
        rw [if_pos hov]
      rw [hadd]
      exact ⟨_, rfl, fun h => by omega⟩
    · have hadd : AddUint64WithErr g c.ProvidedGas = .ok (g + c.ProvidedGas) := by
        unfold AddUint64WithErr
        rw [if_neg hov]
      rw [hadd]
      by_cases hlt : gasLeft < g + c.ProvidedGas
      · simp only [hlt, if_true]
        exact ⟨_, rfl, fun _ => rfl⟩
      · simp only [hlt, if_false]
        by_cases h0 : c.ProvidedGas = 0
        · simp only [h0, if_true]
          obtain ⟨e, he, hk⟩ := ih (g + 0) (z + 1) (by omega) (by omega)
          exact ⟨e, he, fun h => hk (by omega)⟩
        · simp only [h0, if_false]
          obtain ⟨e, he, hk⟩ := ih (g + c.ProvidedGas) z (by omega) (by omega)
          exact ⟨e, he, fun h => hk (by omega)⟩

theorem setupContextsGasLoop_ok (gasLeft : Nat) (hmax : gasLeft ≤ MaxUint64) :
    ∀ (contexts : List (Bytes × AsyncContext)) (g z : Nat),
      g + sumProvidedGas contexts ≤ gasLeft →
      setupContextsGasLoop gasLeft contexts g z
        = (withProvidedGasAll contexts, g + sumProvidedGas contexts,
            z + countZeroGas contexts, none) := by
  intro contexts
  induction contexts with
  | nil =>
    intro g z _
    simp [setupContextsGasLoop, sumProvidedGas, countZeroGas, withProvidedGasAll]
  | cons entry rest ih =>
    intro g z hsum
    obtain ⟨identifier, asyncContext⟩ := entry
    have hs : sumProvidedGas ((identifier, asyncContext) :: rest)
        = sumProvidedGasCalls asyncContext.AsyncCalls + sumProvidedGas rest := by
      simp [sumProvidedGas]
    rw [hs] at hsum ⊢
    unfold setupContextsGasLoop
    rw [setupCallsGasLoop_ok gasLeft hmax asyncContext.AsyncCalls g z (by omega)]
    simp only
    rw [ih _ _ (by omega)]
    simp [withProvidedGasAll, countZeroGas]
    omega

theorem setupContextsGasLoop_fail (gasLeft : Nat) (hmax : gasLeft ≤ MaxUint64) :
    ∀ (contexts : List (Bytes × AsyncContext)) (g z : Nat),
      gasLeft < g + sumProvidedGas contexts → g ≤ gasLeft →
      ∃ e, (setupContextsGasLoop gasLeft contexts g z).2.2.2 = some e
        ∧ (g + sumProvidedGas contexts ≤ MaxUint64 → e = .ErrNotEnoughGas) := by
  intro contexts
  induction contexts with
  | nil => intro g z h hg; simp [sumProvidedGas] at h; omega
  | cons entry rest ih =>
    intro g z hsum hg
    obtain ⟨identifier, asyncContext⟩ := entry
    have hs : sumProvidedGas ((identifier, asyncContext) :: rest)
        = sumProvidedGasCalls asyncContext.AsyncCalls + sumProvidedGas rest := by
      simp [sumProvidedGas]
    rw [hs] at hsum ⊢
    unfold setupContextsGasLoop
    by_cases hctx : gasLeft < g + sumProvidedGasCalls asyncContext.AsyncCalls
    · obtain ⟨e, he, hk⟩ := setupCallsGasLoop_fail gasLeft asyncContext.AsyncCalls g z hctx hg
      generalize setupCallsGasLoop gasLeft asyncContext.AsyncCalls g z = r at he
      obtain ⟨cs, g2, z2, e2⟩ := r
      simp only at he
      subst he
      exact ⟨e, rfl, fun h => hk (by omega)⟩
    · rw [setupCallsGasLoop_ok gasLeft hmax asyncContext.AsyncCalls g z (by omega)]
      simp only
      obtain ⟨e, he, hk⟩ := ih (g + sumProvidedGasCalls asyncContext.AsyncCalls)
        (z + countZeroGasCalls asyncContext.AsyncCalls) (by omega) (by omega)
      exact ⟨e, he, fun h => hk (by omega)⟩

theorem shareGasLoop_withProvidedGasAll (gasShare : Nat)
    (contexts : List (Bytes × AsyncContext)) :
    shareGasLoop gasShare (withProvidedGasAll contexts) = assignGasLimits gasShare contexts := by
  unfold shareGasLoop withProvidedGasAll assignGasLimits
  rw [List.map_map]
  apply List.map_congr_left
  intro entry _
  simp only [Function.comp, List.map_map]
  congr 2
  apply List.map_congr_left
  intro c _
  simp only [Function.comp, withProvidedGas]
  by_cases h0 : c.ProvidedGas = 0
  · simp [h0]
  · simp [h0]

theorem withProvidedGas_of_no_zero (gasShare : Nat) (calls : List AsyncGeneratedCall)
    (hz : countZeroGasCalls calls = 0) :
    calls.map withProvidedGas
      = calls.map (fun asyncCall =>
          { asyncCall with
            GasLimit := if asyncCall.ProvidedGas = 0 then gasShare
              else asyncCall.ProvidedGas }) := by
  apply List.map_congr_left
  intro c hc
  have h0 : c.ProvidedGas ≠ 0 := by
    intro h
    unfold countZeroGasCalls at hz
    have hmem : c ∈ calls.filter (fun asyncCall => decide (asyncCall.ProvidedGas = 0)) := by
      simp [List.mem_filter, hc, h]
    rw [List.length_eq_zero] at hz
    rw [hz] at hmem
    exact absurd hmem (by simp)
  simp [withProvidedGas, h0]

theorem withProvidedGasAll_of_no_zero (gasShare : Nat) (contexts : List (Bytes × AsyncContext))
    (hz : countZeroGas contexts = 0) :
    withProvidedGasAll contexts = assignGasLimits gasShare contexts := by
  unfold withProvidedGasAll assignGasLimits
  apply List.map_congr_left
  intro entry hentry
  have hz2 : countZeroGasCalls entry.2.AsyncCalls = 0 := by
    unfold countZeroGas at hz
    have := List.sum_eq_zero_iff.mp hz (countZeroGasCalls entry.2.AsyncCalls)
      (List.mem_map.mpr ⟨entry, hentry, rfl⟩)
    exact this
  rw [withProvidedGas_of_no_zero gasShare _ hz2]

theorem GasLeft_le (host : VMHost) : GasLeft host ≤ host.metering.gasForExecution := by
  unfold GasLeft
  simp only
  split <;> omega

/-- C9 (as amended): `setupAsyncCallsGas` fails exactly when the sum of the calls' provided gas
exceeds the gas left, or reaches it while some call has no provided gas; the error is
not-enough-gas whenever that sum fits 64 bits; when it succeeds, every call with provided gas
gets it as gas limit and every call without gets the integer share
`(gasLeft - sum) / (number of calls without provided gas)`. -/
theorem setupAsyncCallsGas_partition (host : VMHost) (asyncInfo : AsyncContextInfo)
    (hwf : host.metering.gasForExecution ≤ MaxUint64) :
    ((setupAsyncCallsGas host asyncInfo).2 ≠ none ↔
        (GasLeft host < sumProvidedGas asyncInfo.AsyncContextMap
          ∨ (0 < countZeroGas asyncInfo.AsyncContextMap
              ∧ GasLeft host ≤ sumProvidedGas asyncInfo.AsyncContextMap)))
    ∧ (∀ e, (setupAsyncCallsGas host asyncInfo).2 = some e →
        sumProvidedGas asyncInfo.AsyncContextMap ≤ MaxUint64 → e = .ErrNotEnoughGas)
    ∧ ((setupAsyncCallsGas host asyncInfo).2 = none →
        (setupAsyncCallsGas host asyncInfo).1
          = { asyncInfo with
              AsyncContextMap :=
                assignGasLimits
                  ((GasLeft host - sumProvidedGas asyncInfo.AsyncContextMap)
                    / countZeroGas asyncInfo.AsyncContextMap)
                  asyncInfo.AsyncContextMap }) := by
  have hmax : GasLeft host ≤ MaxUint64 := le_trans (GasLeft_le host) hwf
  by_cases hsum : GasLeft host < sumProvidedGas asyncInfo.AsyncContextMap
  · -- the first loop fails
    obtain ⟨e, he, hk⟩ := setupContextsGasLoop_fail (GasLeft host) hmax
      asyncInfo.AsyncContextMap 0 0 (by omega) (by omega)
    have hres : (setupAsyncCallsGas host asyncInfo).2 = some e := by
      unfold setupAsyncCallsGas
      simp only
      generalize setupContextsGasLoop (GasLeft host) asyncInfo.AsyncContextMap 0 0 = r at he
      obtain ⟨cs, g2, z2, e2⟩ := r
      simp only at he
      subst he
      rfl
    refine ⟨⟨fun _ => Or.inl hsum, fun _ => by rw [hres]; simp⟩, ?_, ?_⟩
    · intro e2 he2 hfit
      rw [hres] at he2
      have : e = e2 := by simpa using he2
      rw [← this]
      exact hk (by omega)
    · intro hnone
      rw [hres] at hnone
      exact absurd hnone (by simp)
  · -- the first loop succeeds
    have hloop := setupContextsGasLoop_ok (GasLeft host) hmax asyncInfo.AsyncContextMap 0 0
      (by omega)
    simp only [Nat.zero_add] at hloop
    by_cases hz : countZeroGas asyncInfo.AsyncContextMap = 0
    · have hres : setupAsyncCallsGas host asyncInfo
          = ({ asyncInfo with
               AsyncContextMap := withProvidedGasAll asyncInfo.AsyncContextMap }, none) := by
        unfold setupAsyncCallsGas
        simp only
        rw [hloop]
        simp only [hz, if_true]
      rw [hres]
      refine ⟨⟨fun h => absurd rfl h, fun h => ?_⟩, fun e he => by simp at he, fun _ => ?_⟩
      · rcases h with h | ⟨h, _⟩ <;> omega
      · simp only
        rw [withProvidedGasAll_of_no_zero _ _ hz]
    · by_cases hle : GasLeft host ≤ sumProvidedGas asyncInfo.AsyncContextMap
      · have hres : setupAsyncCallsGas host asyncInfo
            = ({ asyncInfo with
                 AsyncContextMap := withProvidedGasAll asyncInfo.AsyncContextMap },
                some .ErrNotEnoughGas) := by
          unfold setupAsyncCallsGas
          simp only
          rw [hloop]
          simp only [hz, if_false, hle, if_true]
        rw [hres]
        refine ⟨⟨fun _ => Or.inr ⟨by omega, hle⟩, fun _ => by simp⟩, ?_, fun h => by simp at h⟩
        intro e he _
        simpa using he.symm
      · have hres : setupAsyncCallsGas host asyncInfo
            = ({ asyncInfo with
                 AsyncContextMap :=
                   shareGasLoop
                     ((GasLeft host - sumProvidedGas asyncInfo.AsyncContextMap)
                       / countZeroGas asyncInfo.AsyncContextMap)
                     (withProvidedGasAll asyncInfo.AsyncContextMap) }, none) := by
          unfold setupAsyncCallsGas
          simp only
          rw [hloop]
          simp only [hz, if_false, hle]
        rw [hres]
        refine ⟨⟨fun h => absurd rfl h, fun h => ?_⟩, fun e he => by simp at he, fun _ => ?_⟩
        · rcases h with h | ⟨_, h⟩ <;> omega
        · simp only
          rw [shareGasLoop_withProvidedGasAll]

/-- C9 (as stated) fails: with 1000 gas left, a call with 1000 gas provided and a call with
none, the provided gas does not exceed the gas left, yet the function fails with
not-enough-gas. -/
theorem setupAsyncCallsGas_fails_at_equal_sum :
    GasLeft (callHost []) = 1000
    ∧ sumProvidedGas fullAndEmptyCalls.AsyncContextMap = 1000
    ∧ (setupAsyncCallsGas (callHost []) fullAndEmptyCalls).2 = some .ErrNotEnoughGas := by
  decide

/-- Witness for C9: two calls without provided gas share the 1000 gas left. -/
theorem setupAsyncCallsGas_partition_witness :
    (callHost []).metering.gasForExecution ≤ MaxUint64
    ∧ (setupAsyncCallsGas (callHost []) twoPendingCalls).2 = none
    ∧ (setupAsyncCallsGas (callHost []) twoPendingCalls).1
        = { twoPendingCalls with
            AsyncContextMap := assignGasLimits 500 twoPendingCalls.AsyncContextMap } :=
  ⟨by decide, by decide,
   (setupAsyncCallsGas_partition (callHost []) twoPendingCalls (by decide)).2.2 (by decide)⟩

/-- With nothing stored under the async-call storage key, `processCallbackStack` returns no
error and leaves the host as it is. -/
theorem processCallbackStack_no_record (env : Collaborators) (host : VMHost)
    (hempty : GetStorageUnmetered host (asyncCallStorageKey env host) = []) :
    processCallbackStack env host = (host, none) := by
  unfold processCallbackStack
  simp only [hempty, List.length_nil, if_true]

/-- C10: evaluation at the failing input. With two pending calls stored, the callback from
`[21]` and then the callback from `[22]` are processed without error, and the record is
still stored under the async-call storage key. -/
theorem processCallbackStack_keeps_record :
    (processCallbackStack sampleCollaborators (callHost [21])).2 = none
    ∧ (processCallbackStack sampleCollaborators
        (withCaller (processCallbackStack sampleCollaborators (callHost [21])).1 [22])).2 = none
    ∧ GetStorageUnmetered
        (processCallbackStack sampleCollaborators
          (withCaller (processCallbackStack sampleCollaborators (callHost [21])).1 [22])).1
        (asyncCallStorageKey sampleCollaborators (callHost [21])) = [1] := by
  decide

theorem MulUint64_eq_min (a b : Nat) : MulUint64 a b = min (a * b) MaxUint64 := by
  unfold MulUint64
  split <;> omega

theorem cappedInitialCost_eq (code : Bytes) (baseCost costPerByte : Nat) :
    AddUint64 baseCost (MulUint64 code.length costPerByte)
      = cappedInitialCost code baseCost costPerByte := by
  unfold cappedInitialCost
  rw [MulUint64_eq_min, AddUint64_eq_min]
  omega

/-- What `deductInitialGas` does, in terms of the capped cost. -/
theorem deductInitialGas_spec (host : VMHost) (code : Bytes) (baseCost costPerByte : Nat) :
    (host.runtime.gasProvided < cappedInitialCost code baseCost costPerByte →
      deductInitialGas host code baseCost costPerByte = (host, some .ErrNotEnoughGas))
    ∧ (cappedInitialCost code baseCost costPerByte ≤ host.runtime.gasProvided →
      (deductInitialGas host code baseCost costPerByte).2 = none
      ∧ (deductInitialGas host code baseCost costPerByte).1.metering.initialCost
          = cappedInitialCost code baseCost costPerByte
      ∧ (deductInitialGas host code baseCost costPerByte).1.metering.gasForExecution
          = host.runtime.gasProvided - cappedInitialCost code baseCost costPerByte
      ∧ (deductInitialGas host code baseCost costPerByte).1.metering.initialCost
          + (deductInitialGas host code baseCost costPerByte).1.metering.gasForExecution
          = host.runtime.gasProvided) := by
  constructor
  · intro hlt
    unfold deductInitialGas
    simp only [cappedInitialCost_eq, hlt, if_true]
  · intro hle
    have hnot : ¬ host.runtime.gasProvided < cappedInitialCost code baseCost costPerByte := by
      omega
    unfold deductInitialGas
    simp only [cappedInitialCost_eq, hnot, if_false]
    refine ⟨trivial, trivial, trivial, ?_⟩
    omega

theorem DeductInitialGasForExecution_eq (host : VMHost) (contract : Bytes) :
    DeductInitialGasForExecution host contract
      = deductInitialGas host contract host.metering.gasSchedule.GetCode
          host.metering.gasSchedule.AoTPreparePerByte := by
  unfold DeductInitialGasForExecution
  simp only
  generalize deductInitialGas host contract host.metering.gasSchedule.GetCode
    host.metering.gasSchedule.AoTPreparePerByte = r
  obtain ⟨h, e⟩ := r
  cases e <;> rfl

/-- C18 (as amended): the three deductions compute `initialCost` as
`GetCode + len(code) × AoTPreparePerByte` (direct deployment:
`CreateContract + len(code) × CompilePerByte`; indirect deployment:
`len(code) × CompilePerByte`), capped at `MaxUint64`; each fails with not-enough-gas, leaving
the host unchanged, exactly when that cost exceeds the gas provided, and otherwise sets
`initialCost` and `gasForExecution = GasProvided - initialCost`, so that their sum is the gas
provided. -/
theorem deductInitialGas_costs (host : VMHost) (code : Bytes) :
    ((host.runtime.gasProvided
          < cappedInitialCost code host.metering.gasSchedule.GetCode
              host.metering.gasSchedule.AoTPreparePerByte →
        DeductInitialGasForExecution host code = (host, some .ErrNotEnoughGas))
      ∧ (cappedInitialCost code host.metering.gasSchedule.GetCode
            host.metering.gasSchedule.AoTPreparePerByte ≤ host.runtime.gasProvided →
        (DeductInitialGasForExecution host code).2 = none
        ∧ (DeductInitialGasForExecution host code).1.metering.initialCost
            = cappedInitialCost code host.metering.gasSchedule.GetCode
                host.metering.gasSchedule.AoTPreparePerByte
        ∧ (DeductInitialGasForExecution host code).1.metering.gasForExecution
            = host.runtime.gasProvided
              - cappedInitialCost code host.metering.gasSchedule.GetCode
                  host.metering.gasSchedule.AoTPreparePerByte
        ∧ (DeductInitialGasForExecution host code).1.metering.initialCost
            + (DeductInitialGasForExecution host code).1.metering.gasForExecution
            = host.runtime.gasProvided))
    ∧ ((host.runtime.gasProvided
          < cappedInitialCost code host.metering.gasSchedule.CreateContract
              host.metering.gasSchedule.CompilePerByte →
        DeductInitialGasForDirectDeployment host ⟨code⟩ = (host, some .ErrNotEnoughGas))
      ∧ (cappedInitialCost code host.metering.gasSchedule.CreateContract
            host.metering.gasSchedule.CompilePerByte ≤ host.runtime.gasProvided →
        (DeductInitialGasForDirectDeployment host ⟨code⟩).2 = none
        ∧ (DeductInitialGasForDirectDeployment host ⟨code⟩).1.metering.initialCost
            = cappedInitialCost code host.metering.gasSchedule.CreateContract
                host.metering.gasSchedule.CompilePerByte
        ∧ (DeductInitialGasForDirectDeployment host ⟨code⟩).1.metering.gasForExecution
            = host.runtime.gasProvided
              - cappedInitialCost code host.metering.gasSchedule.CreateContract
                  host.metering.gasSchedule.CompilePerByte
        ∧ (DeductInitialGasForDirectDeployment host ⟨code⟩).1.metering.initialCost
            + (DeductInitialGasForDirectDeployment host ⟨code⟩).1.metering.gasForExecution
            = host.runtime.gasProvided))
    ∧ ((host.runtime.gasProvided
          < cappedInitialCost code 0 host.metering.gasSchedule.CompilePerByte →
        DeductInitialGasForIndirectDeployment host ⟨code⟩ = (host, some .ErrNotEnoughGas))
      ∧ (cappedInitialCost code 0 host.metering.gasSchedule.CompilePerByte
            ≤ host.runtime.gasProvided →
        (DeductInitialGasForIndirectDeployment host ⟨code⟩).2 = none
        ∧ (DeductInitialGasForIndirectDeployment host ⟨code⟩).1.metering.initialCost
            = cappedInitialCost code 0 host.metering.gasSchedule.CompilePerByte
        ∧ (DeductInitialGasForIndirectDeployment host ⟨code⟩).1.metering.gasForExecution
            = host.runtime.gasProvided
              - cappedInitialCost code 0 host.metering.gasSchedule.CompilePerByte
        ∧ (DeductInitialGasForIndirectDeployment host ⟨code⟩).1.metering.initialCost
            + (DeductInitialGasForIndirectDeployment host ⟨code⟩).1.metering.gasForExecution
            = host.runtime.gasProvided)) := by
  refine ⟨?_, deductInitialGas_spec host code _ _, deductInitialGas_spec host code _ _⟩
  rw [DeductInitialGasForExecution_eq]
  exact deductInitialGas_spec host code _ _

/-- Witness for C18: a direct deployment of 2 bytes with 100 gas provided costs 7 + 2 × 3. -/
theorem deductInitialGas_costs_witness :
    cappedInitialCost [1, 2] (deployHost 100).metering.gasSchedule.CreateContract
        (deployHost 100).metering.gasSchedule.CompilePerByte ≤ (deployHost 100).runtime.gasProvided
    ∧ (DeductInitialGasForDirectDeployment (deployHost 100) ⟨[1, 2]⟩).1.metering.initialCost = 13
    ∧ (DeductInitialGasForDirectDeployment (deployHost 100) ⟨[1, 2]⟩).1.metering.gasForExecution
        = 87 :=
  ⟨by decide,
   ((deductInitialGas_costs (deployHost 100) [1, 2]).2.1.2 (by decide)).2.1.trans (by decide),
   ((deductInitialGas_costs (deployHost 100) [1, 2]).2.1.2 (by decide)).2.2.1.trans
     (by decide)⟩

/-- C18 (as stated) fails: with `2 ^ 64 - 1` gas provided and a 2-byte code at `2 ^ 63` per
byte, the exact cost `5 + 2 × 2 ^ 63` exceeds the gas provided, yet the deduction succeeds,
with `initialCost = 2 ^ 64 - 1`. -/
theorem deductInitialGas_saturated_cost_accepted :
    (deployHost MaxUint64).runtime.gasProvided
        < (deployHost MaxUint64).metering.gasSchedule.GetCode
          + [1, 2].length * (deployHost MaxUint64).metering.gasSchedule.AoTPreparePerByte
    ∧ (DeductInitialGasForExecution (deployHost MaxUint64) [1, 2]).2 = none
    ∧ (DeductInitialGasForExecution (deployHost MaxUint64) [1, 2]).1.metering.initialCost
        = 2 ^ 64 - 1 := by
  decide

/-- C19 (as amended): `RestoreGas n` leaves the points used at `pointsUsed - n` when
`n ≤ pointsUsed`, and leaves the host unchanged when `n > pointsUsed`. -/
theorem restoreGas_points (host : VMHost) (n : Nat) :
    (n ≤ host.runtime.pointsUsed →
      (RestoreGas host n).runtime.pointsUsed = host.runtime.pointsUsed - n)
    ∧ (host.runtime.pointsUsed < n → RestoreGas host n = host) := by
  constructor
  · intro hle
    unfold RestoreGas SubUint64
    simp only [hle, if_true]
    split <;> omega
  · intro hlt
    have hnot : ¬ n ≤ host.runtime.pointsUsed := by omega
    unfold RestoreGas
    simp only [hnot, if_false]

/-- Witness for C19: restoring 10 of 30 points used leaves 20. -/
theorem restoreGas_points_witness :
    (10 : Nat) ≤ (deployHost 100).runtime.pointsUsed
    ∧ (RestoreGas (deployHost 100) 10).runtime.pointsUsed = 20 :=
  ⟨by decide, ((restoreGas_points (deployHost 100) 10).1 (by decide)).trans (by decide)⟩

/-- C19 (as stated) fails: restoring 31 points when 30 are used leaves 30 used, not 0. -/
theorem restoreGas_beyond_points_used_keeps_them :
    (deployHost 100).runtime.pointsUsed = 30
    ∧ (RestoreGas (deployHost 100) 31).runtime.pointsUsed = 30
    ∧ (RestoreGas (deployHost 100) 31).runtime.pointsUsed ≠ 0 := by
  decide

theorem toUint64_of_nonneg (v : Int) (h0 : 0 ≤ v) (h63 : v < 2 ^ 63) : toUint64 v = v.toNat := by
  unfold toUint64
  have : v % 2 ^ 64 = v := Int.emod_eq_of_lt h0 (by omega)
  rw [this]

/-- C20: for every `int64` `v ≥ 0`, `BoundGasLimit v = min (GasLeft) v`; so the gas provided
of a call input built by `prepareIndirectContractCallInput` exceeds neither the gas left nor
the requested limit. -/
theorem boundGasLimit_min (env : Collaborators) (host : VMHost) (v : Int)
    (h0 : 0 ≤ v) (h63 : v < 2 ^ 63) :
    BoundGasLimit host v = min (GasLeft host) v.toNat
    ∧ ∀ (sender destination function : Bytes) (value : Int) (data : List Bytes) (gasToUse : Nat)
        (syncExecutionRequired : Bool) (input : ContractCallInput),
        prepareIndirectContractCallInput env host sender value v destination function data
            gasToUse syncExecutionRequired = .ok input →
        input.GasProvided ≤ GasLeft host ∧ (input.GasProvided : Int) ≤ v := by
  have hb : BoundGasLimit host v = min (GasLeft host) v.toNat := by
    unfold BoundGasLimit
    simp only [toUint64_of_nonneg v h0 h63]
    split <;> omega
  refine ⟨hb, ?_⟩
  intro sender destination function value data gasToUse sync input hprep
  unfold prepareIndirectContractCallInput at hprep
  split at hprep
  · exact absurd hprep (by simp)
  · simp only [Except.ok.injEq] at hprep
    subst hprep
    simp only
    rw [hb]
    omega

/-- Witness for C20: with 70 gas left, a limit of 50 gives 50 and a limit of 90 gives 70. -/
theorem boundGasLimit_min_witness :
    BoundGasLimit (deployHost 100) 50 = 50 ∧ BoundGasLimit (deployHost 100) 90 = 70 :=
  ⟨(boundGasLimit_min sampleCollaborators (deployHost 100) 50 (by decide) (by decide)).1.trans
      (by decide),
   (boundGasLimit_min sampleCollaborators (deployHost 100) 90 (by decide) (by decide)).1.trans
      (by decide)⟩

theorem mem_keys_of_mapGet? {κ ν : Type} [DecidableEq κ] (m : List (κ × ν)) (k : κ)
    (h : mapGet? m k ≠ none) : k ∈ m.map Prod.fst := by
  induction m with
  | nil => simp [mapGet?] at h
  | cons p rest ih =>
    obtain ⟨k', v'⟩ := p
    by_cases hk : k' = k
    · simp [hk]
    · simp only [mapGet?, hk, if_false] at h
      simp only [List.map_cons, List.mem_cons]
      exact Or.inr (ih h)

theorem mapGet?_none_of_not_mem {κ ν : Type} [DecidableEq κ] (m : List (κ × ν)) (k : κ)
    (h : k ∉ m.map Prod.fst) : mapGet? m k = none := by
  by_contra hne
  exact h (mem_keys_of_mapGet? m k hne)

theorem mapSet_length_of_none {κ ν : Type} [DecidableEq κ] (m : List (κ × ν)) (k : κ) (v : ν)
    (h : mapGet? m k = none) : (mapSet m k v).length = m.length + 1 := by
  induction m with
  | nil => simp [mapSet]
  | cons p rest ih =>
    obtain ⟨k', v'⟩ := p
    by_cases hk : k' = k
    · simp [mapGet?, hk] at h
    · simp only [mapGet?, hk, if_false] at h
      simp [mapSet, hk, ih h]

/-- A table of `n` entries leaves one of the `n + 1` handles `n, ..., 2n` free. -/
theorem exists_free_handle (m : List (Int × Int)) :
    ∃ j : Nat, j < m.length + 1 ∧ mapGet? m ((m.length : Int) + j) = none := by
  by_contra hall
  push_neg at hall
  have hsub : (Finset.range (m.length + 1)).image (fun j : Nat => (m.length : Int) + j)
      ⊆ (m.map Prod.fst).toFinset := by
    intro x hx
    simp only [Finset.mem_image, Finset.mem_range] at hx
    obtain ⟨j, hj, rfl⟩ := hx
    rw [List.mem_toFinset]
    exact mem_keys_of_mapGet? m _ (hall j hj)
  have hcard : ((Finset.range (m.length + 1)).image
      (fun j : Nat => (m.length : Int) + j)).card = m.length + 1 := by
    rw [Finset.card_image_of_injective]
    · simp
    · intro a b hab
      simp only at hab
      omega
  have h1 := Finset.card_le_card hsub
  have h2 := List.toFinset_card_le (m.map Prod.fst)
  rw [hcard] at h1
  simp only [List.length_map] at h2
  omega

theorem toInt32_of_range (k : Int) (h0 : 0 ≤ k) (h1 : k < 2 ^ 31) : toInt32 k = k := by
  unfold toInt32
  norm_num at h1 ⊢
  omega

/-- The probe stops at the least free handle from its start on, when one lies within reach
and below `2 ^ 31`. -/
theorem probeBigIntHandle_least (m : List (Int × Int)) :
    ∀ (fuel : Nat) (k : Int), 0 ≤ k → k + fuel < 2 ^ 31 →
      (∃ j : Nat, j < fuel ∧ mapGet? m (k + j) = none) →
      k ≤ probeBigIntHandle m fuel k
      ∧ mapGet? m (probeBigIntHandle m fuel k) = none
      ∧ ∀ x : Int, k ≤ x → x < probeBigIntHandle m fuel k → mapGet? m x ≠ none := by
  intro fuel
  induction fuel with
  | zero =>
    intro k _ _ hfree
    obtain ⟨j, hj, _⟩ := hfree
    omega
  | succ fuel ih =>
    intro k hk0 hbound hfree
    by_cases hocc : (mapGet? m k).isSome = true
    · have hstep : probeBigIntHandle m (fuel + 1) k
          = probeBigIntHandle m fuel (toInt32 (k + 1)) := by
        simp [probeBigIntHandle, hocc]
      rw [hstep]
      have hne : mapGet? m k ≠ none := by
        intro h
        rw [h] at hocc
        simp at hocc
      have hk1 : toInt32 (k + 1) = k + 1 := by
        apply toInt32_of_range
        · omega
        · push_cast at hbound
          omega
      rw [hk1]
      obtain ⟨j, hj, hjfree⟩ := hfree
      have hj0 : j ≠ 0 := by
        intro h0
        subst h0
        simp only [Nat.cast_zero, add_zero] at hjfree
        exact hne hjfree
      have hfree2 : ∃ j2 : Nat, j2 < fuel ∧ mapGet? m (k + 1 + j2) = none := by
        refine ⟨j - 1, by omega, ?_⟩
        have : k + 1 + ((j - 1 : Nat) : Int) = k + j := by omega
        rw [this]
        exact hjfree
      obtain ⟨h1, h2, h3⟩ := ih (k + 1) (by omega) (by push_cast at hbound ⊢; omega) hfree2
      refine ⟨by omega, h2, ?_⟩
      intro x hx1 hx2
      by_cases hxk : x = k
      · rw [hxk]; exact hne
      · exact h3 x (by omega) hx2
    · have hnone : mapGet? m k = none := by
        cases hm : mapGet? m k with
        | none => rfl
        | some v => rw [hm] at hocc; simp at hocc
      have hstep : probeBigIntHandle m (fuel + 1) k = k := by
        simp [probeBigIntHandle, hnone]
      rw [hstep]
      refine ⟨le_refl _, hnone, ?_⟩
      intro x hx1 hx2
      omega

/-- What `PutBigInt` returns and stores. -/
theorem putBigInt_least_free_handle_aux (host : VMHost) (v : Int)
    (hsize : 2 * (host.managedTypes.bigIntValues.length : Int) < 2 ^ 31) :
    (host.managedTypes.bigIntValues.length : Int) ≤ (PutBigInt host v).2
    ∧ bigIntAt host (PutBigInt host v).2 = none
    ∧ (∀ x : Int, (host.managedTypes.bigIntValues.length : Int) ≤ x → x < (PutBigInt host v).2 →
        bigIntAt host x ≠ none)
    ∧ GetBigInt (PutBigInt host v).1 (PutBigInt host v).2 = .ok v
    ∧ ∀ x : Int, x ≠ (PutBigInt host v).2 →
        bigIntAt (PutBigInt host v).1 x = bigIntAt host x := by
  have hstart : toInt32 (host.managedTypes.bigIntValues.length : Int)
      = host.managedTypes.bigIntValues.length :=
    toInt32_of_range _ (by omega) (by omega)
  obtain ⟨h1, h2, h3⟩ := probeBigIntHandle_least host.managedTypes.bigIntValues
    (host.managedTypes.bigIntValues.length + 1) host.managedTypes.bigIntValues.length
    (by omega) (by push_cast; omega) (exists_free_handle _)
  have hput : (PutBigInt host v).2 = probeBigIntHandle host.managedTypes.bigIntValues
      (host.managedTypes.bigIntValues.length + 1) host.managedTypes.bigIntValues.length := by
    unfold PutBigInt
    simp only [hstart]
  rw [hput]
  refine ⟨h1, h2, h3, ?_, ?_⟩
  · apply GetBigInt_ok
    unfold bigIntAt PutBigInt
    simp only [hstart]
    exact mapGet?_mapSet_self _ _ _
  · intro x hx
    unfold bigIntAt PutBigInt
    simp only [hstart]
    exact mapGet?_mapSet_other _ _ _ _ hx

/-- C16: `PutBigInt v` returns the least handle that is at least the number of stored big
ints and under which nothing was stored; afterwards `GetBigInt` of that handle gives `v` and
the value under every other handle is unchanged (for a table whose doubled size is within
`int32`). -/
theorem putBigInt_least_free_handle (host : VMHost) (v : Int)
    (hsize : 2 * (host.managedTypes.bigIntValues.length : Int) < 2 ^ 31) :
    (host.managedTypes.bigIntValues.length : Int) ≤ (PutBigInt host v).2
    ∧ bigIntAt host (PutBigInt host v).2 = none
    ∧ (∀ x : Int, (host.managedTypes.bigIntValues.length : Int) ≤ x → x < (PutBigInt host v).2 →
        bigIntAt host x ≠ none)
    ∧ GetBigInt (PutBigInt host v).1 (PutBigInt host v).2 = .ok v
    ∧ ∀ x : Int, x ≠ (PutBigInt host v).2 →
        bigIntAt (PutBigInt host v).1 x = bigIntAt host x :=
  putBigInt_least_free_handle_aux host v hsize

/-- Witness for C16: the sample table holds the handles 0 to 3, so 4 is allocated. -/
theorem putBigInt_least_free_handle_witness :
    (PutBigInt bigIntHost 42).2 = 4
    ∧ GetBigInt (PutBigInt bigIntHost 42).1 (PutBigInt bigIntHost 42).2 = .ok 42 :=
  ⟨by decide, (putBigInt_least_free_handle bigIntHost 42 (by decide)).2.2.2.1⟩

theorem runHandleOps_put (value : Int) (rest : List HandleOp) (host : VMHost) :
    (runHandleOps (.put value :: rest) host).2
      = (PutBigInt host value).2 :: (runHandleOps rest (PutBigInt host value).1).2 := rfl

theorem runHandleOps_getOrCreate (handle : Int) (rest : List HandleOp) (host : VMHost) :
    (runHandleOps (.getOrCreate handle :: rest) host).2
      = (runHandleOps rest (GetBigIntOrCreate host handle).1).2 := rfl

theorem PutBigInt_length (host : VMHost) (v : Int)
    (hsize : 2 * (host.managedTypes.bigIntValues.length : Int) < 2 ^ 31) :
    (PutBigInt host v).1.managedTypes.bigIntValues.length
      = host.managedTypes.bigIntValues.length + 1 := by
  have hfree := (putBigInt_least_free_handle_aux host v hsize).2.1
  unfold bigIntAt at hfree
  exact mapSet_length_of_none _ _ _ hfree

theorem GetBigIntOrCreate_length (host : VMHost) (handle : Int) :
    host.managedTypes.bigIntValues.length
        ≤ (GetBigIntOrCreate host handle).1.managedTypes.bigIntValues.length
    ∧ (GetBigIntOrCreate host handle).1.managedTypes.bigIntValues.length
        ≤ host.managedTypes.bigIntValues.length + 1 := by
  unfold GetBigIntOrCreate
  split
  · simp
  · rename_i hnone
    simp only
    rw [mapSet_length_of_none _ _ _ hnone]
    omega

theorem bigIntAt_none_of_GetBigIntOrCreate (host : VMHost) (handle x : Int)
    (h : bigIntAt (GetBigIntOrCreate host handle).1 x = none) : bigIntAt host x = none := by
  cases hx : bigIntAt host x with
  | none => rfl
  | some v =>
    rw [bigIntAt_GetBigIntOrCreate host handle x v hx] at h
    exact absurd h (by simp)

/-- The handles that `PutBigInt` returns along a run increase strictly, and each is a free
handle of the starting table at or above its size. -/
theorem runHandleOps_increasing (ops : List HandleOp) :
    ∀ host : VMHost,
      2 * ((host.managedTypes.bigIntValues.length : Int) + ops.length) < 2 ^ 31 →
      List.Pairwise (fun a b => a < b) (runHandleOps ops host).2
      ∧ ∀ h ∈ (runHandleOps ops host).2,
          (host.managedTypes.bigIntValues.length : Int) ≤ h ∧ bigIntAt host h = none := by
  induction ops with
  | nil =>
    intro host _
    simp [runHandleOps]
  | cons op rest ih =>
    intro host hsize
    simp only [List.length_cons, Nat.cast_add, Nat.cast_one] at hsize
    cases op with
    | put value =>
      have hsize0 : 2 * (host.managedTypes.bigIntValues.length : Int) < 2 ^ 31 := by omega
      obtain ⟨h1, h2, h3, h4, h5⟩ := putBigInt_least_free_handle_aux host value hsize0
      have hlen := PutBigInt_length host value hsize0
      obtain ⟨ihp, ihm⟩ := ih (PutBigInt host value).1 (by rw [hlen]; push_cast; omega)
      rw [runHandleOps_put]
      have hlater : ∀ h ∈ (runHandleOps rest (PutBigInt host value).1).2,
          (PutBigInt host value).2 < h ∧ bigIntAt host h = none := by
        intro h hmem
        obtain ⟨hge, hfree⟩ := ihm h hmem
        rw [hlen] at hge
        push_cast at hge
        have hne : h ≠ (PutBigInt host value).2 := by
          intro heq
          rw [heq] at hfree
          have hsome : bigIntAt (PutBigInt host value).1 (PutBigInt host value).2 = some value := by
            unfold GetBigInt at h4
            unfold bigIntAt
            split at h4
            · rename_i v hv
              simp only [Except.ok.injEq] at h4
              rw [hv, h4]
            · exact absurd h4 (by simp)
          rw [hsome] at hfree
          exact absurd hfree (by simp)
        have hfree0 : bigIntAt host h = none := by rw [← h5 h hne]; exact hfree
        refine ⟨?_, hfree0⟩
        by_contra hnot
        have hlt : h < (PutBigInt host value).2 := by omega
        exact h3 h (by omega) hlt hfree0
      refine ⟨List.pairwise_cons.mpr ⟨fun h hmem => (hlater h hmem).1, ihp⟩, ?_⟩
      intro h hmem
      rcases List.mem_cons.mp hmem with heq | hmem2
      · rw [heq]; exact ⟨h1, h2⟩
      · obtain ⟨hge, _⟩ := ihm h hmem2
        rw [hlen] at hge
        push_cast at hge
        exact ⟨by omega, (hlater h hmem2).2⟩
    | getOrCreate handle =>
      obtain ⟨hl1, hl2⟩ := GetBigIntOrCreate_length host handle
      obtain ⟨ihp, ihm⟩ := ih (GetBigIntOrCreate host handle).1 (by
        have : ((GetBigIntOrCreate host handle).1.managedTypes.bigIntValues.length : Int)
            ≤ host.managedTypes.bigIntValues.length + 1 := by exact_mod_cast hl2
        omega)
      rw [runHandleOps_getOrCreate]
      refine ⟨ihp, ?_⟩
      intro h hmem
      obtain ⟨hge, hfree⟩ := ihm h hmem
      have : (host.managedTypes.bigIntValues.length : Int)
          ≤ (GetBigIntOrCreate host handle).1.managedTypes.bigIntValues.length := by
        exact_mod_cast hl1
      exact ⟨by omega, bigIntAt_none_of_GetBigIntOrCreate host handle h hfree⟩

/-- C17: in any run of `PutBigInt` and `GetBigIntOrCreate` calls on one managed-types state,
every handle that `PutBigInt` returns is strictly greater than every handle it returned
earlier (for tables whose doubled size stays within `int32`). -/
theorem putBigInt_handles_strictly_increase (ops : List HandleOp) (host : VMHost)
    (hsize : 2 * ((host.managedTypes.bigIntValues.length : Int) + ops.length) < 2 ^ 31) :
    List.Pairwise (fun earlier later => earlier < later) (runHandleOps ops host).2 :=
  (runHandleOps_increasing ops host hsize).1

/-- Witness for C17: four allocations interleaved with creations at the handles 7, 6, -1. -/
theorem putBigInt_handles_strictly_increase_witness :
    (runHandleOps [.put 1, .getOrCreate 7, .getOrCreate 6, .put 2, .put 3, .getOrCreate (-1),
        .put 4] bigIntHost).2 = [4, 8, 9, 10]
    ∧ List.Pairwise (fun earlier later => earlier < later)
        (runHandleOps [.put 1, .getOrCreate 7, .getOrCreate 6, .put 2, .put 3,
          .getOrCreate (-1), .put 4] bigIntHost).2 :=
  ⟨by decide, putBigInt_handles_strictly_increase _ bigIntHost (by decide)⟩

/-- With a nil async call, `createCallbackContractCallInput` always panics. -/
theorem createCallbackContractCallInput_nil_panics (env : Collaborators) (host : VMHost)
    (destinationVMOutput : VMOutput) (callbackInitiator callbackFunction : Bytes)
    (destinationErr : Option HostError) :
    createCallbackContractCallInput env host none destinationVMOutput callbackInitiator
        callbackFunction destinationErr = .error .PanicNilDereference := by
  unfold createCallbackContractCallInput
  rfl

/-- C11: evaluation at the failing input. The stored record has one pending call, to `[21]`;
the callback from `[21]` resolves it, the caller's code is available locally, the storage key
is cleared, and building the callback input then panics on the nil async call. -/
theorem processCallbackStack_last_call_panics :
    canExecuteSynchronously onePendingCollaborators onePendingCall.CallerAddr
        onePendingCall.ReturnData = true
    ∧ (processCallbackStack onePendingCollaborators (callbackHost [21] [2])).2
        = some .PanicNilDereference
    ∧ GetStorageUnmetered
        (processCallbackStack onePendingCollaborators (callbackHost [21] [2])).1
        (asyncCallStorageKey onePendingCollaborators (callbackHost [21] [2])) = [] := by
  decide

/-- The branches of `determineAsyncCallExecutionMode`: unparsable data gives `AsyncUnknown`
with the parser's error; for a name that is not built in the mode is `SyncCall` when `GetCode`
gives non-empty code for the destination without error, and `AsyncUnknown` otherwise; for a
built-in name it is `AsyncBuiltinFuncCrossShard` when the shards differ and
`AsyncBuiltinFuncIntraShard` or `ESDTTransferOnCallBack` when they coincide. -/
theorem determineAsyncCallExecutionMode_cases (env : Collaborators) (host : VMHost)
    (asyncCallInfo : AsyncCallInfo) :
    (∀ err, (env.ParseData asyncCallInfo.Data).2.2 = some err →
      determineAsyncCallExecutionMode env host asyncCallInfo = (.AsyncUnknown, some err))
    ∧ ((env.ParseData asyncCallInfo.Data).2.2 = none →
        env.IsBuiltinFunctionName (env.ParseData asyncCallInfo.Data).1 = false →
        ((0 < (env.GetCode asyncCallInfo.Destination).1.length
            ∧ (env.GetCode asyncCallInfo.Destination).2 = none) →
          determineAsyncCallExecutionMode env host asyncCallInfo = (.SyncCall, none))
        ∧ (¬ (0 < (env.GetCode asyncCallInfo.Destination).1.length
            ∧ (env.GetCode asyncCallInfo.Destination).2 = none) →
          determineAsyncCallExecutionMode env host asyncCallInfo = (.AsyncUnknown, none)))
    ∧ ((env.ParseData asyncCallInfo.Data).2.2 = none →
        env.IsBuiltinFunctionName (env.ParseData asyncCallInfo.Data).1 = true →
        (env.AreInSameShard host.runtime.scAddress asyncCallInfo.Destination = false →
          determineAsyncCallExecutionMode env host asyncCallInfo
            = (.AsyncBuiltinFuncCrossShard, none))
        ∧ (env.AreInSameShard host.runtime.scAddress asyncCallInfo.Destination = true →
          determineAsyncCallExecutionMode env host asyncCallInfo
              = (.AsyncBuiltinFuncIntraShard, none)
          ∨ determineAsyncCallExecutionMode env host asyncCallInfo
              = (.ESDTTransferOnCallBack, none))) := by
  unfold determineAsyncCallExecutionMode
  generalize env.ParseData asyncCallInfo.Data = parsed
  obtain ⟨functionName, args, perr⟩ := parsed
  refine ⟨?_, ?_, ?_⟩
  · intro err herr
    simp only at herr
    subst herr
    rfl
  · intro hnone hbuiltin
    simp only at hnone hbuiltin
    subst hnone
    simp only [hbuiltin, Bool.false_eq_true, if_false]
    constructor
    · intro hcode
      exact if_pos hcode
    · intro hcode
      exact if_neg hcode
  · intro hnone hbuiltin
    simp only at hnone hbuiltin
    subst hnone
    simp only [hbuiltin, if_true]
    constructor
    · intro hshard
      simp only [hshard, Bool.false_eq_true, if_false]
    · intro hshard
      simp only [hshard, if_true]
      split
      · exact Or.inr rfl
      · exact Or.inl rfl

/-- C12: on a node whose blockchain hook holds code only for accounts of the shard of the
running contract (`hlocal`, for the destination of the call): for a function name that is not
built in, `determineAsyncCallExecutionMode` returns `SyncCall` when the destination is in the
same shard and has non-empty code, and only then, and `AsyncUnknown` otherwise; for a built-in
name it returns `AsyncBuiltinFuncCrossShard` when the shards differ and
`AsyncBuiltinFuncIntraShard` or `ESDTTransferOnCallBack` when they coincide; data that cannot
be parsed yields the parser's error. -/
theorem determineAsyncCallExecutionMode_modes (env : Collaborators) (host : VMHost)
    (asyncCallInfo : AsyncCallInfo)
    (hlocal : 0 < (env.GetCode asyncCallInfo.Destination).1.length
        ∧ (env.GetCode asyncCallInfo.Destination).2 = none →
      env.AreInSameShard host.runtime.scAddress asyncCallInfo.Destination = true) :
    (∀ err, (env.ParseData asyncCallInfo.Data).2.2 = some err →
      determineAsyncCallExecutionMode env host asyncCallInfo = (.AsyncUnknown, some err))
    ∧ ((env.ParseData asyncCallInfo.Data).2.2 = none →
        env.IsBuiltinFunctionName (env.ParseData asyncCallInfo.Data).1 = false →
        (determineAsyncCallExecutionMode env host asyncCallInfo = (.SyncCall, none) ↔
          env.AreInSameShard host.runtime.scAddress asyncCallInfo.Destination = true
          ∧ 0 < (env.GetCode asyncCallInfo.Destination).1.length
          ∧ (env.GetCode asyncCallInfo.Destination).2 = none)
        ∧ (¬ (env.AreInSameShard host.runtime.scAddress asyncCallInfo.Destination = true
            ∧ 0 < (env.GetCode asyncCallInfo.Destination).1.length
            ∧ (env.GetCode asyncCallInfo.Destination).2 = none) →
          determineAsyncCallExecutionMode env host asyncCallInfo = (.AsyncUnknown, none)))
    ∧ ((env.ParseData asyncCallInfo.Data).2.2 = none →
        env.IsBuiltinFunctionName (env.ParseData asyncCallInfo.Data).1 = true →
        (env.AreInSameShard host.runtime.scAddress asyncCallInfo.Destination = false →
          determineAsyncCallExecutionMode env host asyncCallInfo
            = (.AsyncBuiltinFuncCrossShard, none))
        ∧ (env.AreInSameShard host.runtime.scAddress asyncCallInfo.Destination = true →
          determineAsyncCallExecutionMode env host asyncCallInfo
              = (.AsyncBuiltinFuncIntraShard, none)
          ∨ determineAsyncCallExecutionMode env host asyncCallInfo
              = (.ESDTTransferOnCallBack, none))) := by
  obtain ⟨hparse, hplain, hbuiltin⟩ := determineAsyncCallExecutionMode_cases env host asyncCallInfo
  refine ⟨hparse, ?_, hbuiltin⟩
  intro hnone hname
  obtain ⟨hsync, hasync⟩ := hplain hnone hname
  refine ⟨⟨?_, ?_⟩, ?_⟩
  · intro hmode
    by_cases hcode : 0 < (env.GetCode asyncCallInfo.Destination).1.length
        ∧ (env.GetCode asyncCallInfo.Destination).2 = none
    · exact ⟨hlocal hcode, hcode⟩
    · rw [hasync hcode] at hmode
      cases hmode
  · intro hboth
    exact hsync hboth.2
  · intro hnot
    exact hasync (fun hcode => hnot ⟨hlocal hcode, hcode⟩)

/-- Witness for C12: seen from the contract `[1]`, a call to `[5]`, of the same shard and with
code, is a `SyncCall`, and a call to `[21]`, of another shard, is `AsyncUnknown`. -/
theorem determineAsyncCallExecutionMode_modes_witness :
    determineAsyncCallExecutionMode twoShardCollaborators (callbackHost [9] [])
      (asyncCallTo [5]) = (.SyncCall, none)
    ∧ determineAsyncCallExecutionMode twoShardCollaborators (callbackHost [9] [])
      (asyncCallTo [21]) = (.AsyncUnknown, none) :=
  ⟨((determineAsyncCallExecutionMode_modes twoShardCollaborators (callbackHost [9] [])
      (asyncCallTo [5]) (by decide)).2.1 rfl rfl).1.2 (by decide),
   ((determineAsyncCallExecutionMode_modes twoShardCollaborators (callbackHost [9] [])
      (asyncCallTo [21]) (by decide)).2.1 rfl rfl).2 (by decide)⟩

/-- C13: when `createCallbackContractCallInput` builds a call input, it is a call of type
`AsynchronousCallBack` to the running contract; if the destination call returned no error and
return code Ok and its return data is not an ESDT transfer, the arguments are the return code
bytes followed by the return data, in order; otherwise they are exactly the return code bytes
and the return message, and `ReturnCallAfterError` is set. -/
theorem createCallbackContractCallInput_arguments (env : Collaborators) (host : VMHost)
    (asyncCallInfo : AsyncCallInfo) (destinationVMOutput : VMOutput)
    (callbackInitiator callbackFunction : Bytes) (destinationErr : Option HostError)
    (input : ContractCallInput)
    (hbuilt : createCallbackContractCallInput env host (some asyncCallInfo) destinationVMOutput
        callbackInitiator callbackFunction destinationErr = .ok input) :
    input.CallType = .AsynchronousCallBack
    ∧ input.RecipientAddr = host.runtime.scAddress
    ∧ ((destinationErr = none ∧ destinationVMOutput.ReturnCode = 0) →
        (isESDTTransferOnReturnDataWithNoAdditionalData env callbackInitiator
          host.runtime.scAddress destinationVMOutput).1 = false →
        input.Arguments
          = bigBytes (destinationVMOutput.ReturnCode : Int) :: destinationVMOutput.ReturnData
        ∧ input.ReturnCallAfterError = false)
    ∧ (¬ (destinationErr = none ∧ destinationVMOutput.ReturnCode = 0) →
        input.Arguments
          = [bigBytes (destinationVMOutput.ReturnCode : Int), destinationVMOutput.ReturnMessage]
        ∧ input.ReturnCallAfterError = true) := by
  unfold createCallbackContractCallInput at hbuilt
  simp only at hbuilt
  by_cases hok : destinationErr = none ∧ destinationVMOutput.ReturnCode = 0
  · have hdec : (decide (destinationErr = none) && decide (destinationVMOutput.ReturnCode = 0))
        = true := by
      simp only [Bool.and_eq_true, decide_eq_true_eq]
      exact hok
    simp only [hdec, if_true, Bool.not_true] at hbuilt
    split at hbuilt
    · exact absurd hbuilt (by simp)
    · split at hbuilt
      · rename_i hes
        simp only [Except.ok.injEq] at hbuilt
        subst hbuilt
        refine ⟨rfl, rfl, ?_, ?_⟩
        · intro _ hesdt
          rw [hesdt] at hes
          exact absurd hes (by simp)
        · intro hnot
          exact absurd hok hnot
      · simp only [Except.ok.injEq] at hbuilt
        subst hbuilt
        refine ⟨rfl, rfl, ?_, ?_⟩
        · intro _ _
          exact ⟨rfl, rfl⟩
        · intro hnot
          exact absurd hok hnot
  · have hdec : (decide (destinationErr = none) && decide (destinationVMOutput.ReturnCode = 0))
        = false := by
      by_contra hne
      simp only [Bool.not_eq_false, Bool.and_eq_true, decide_eq_true_eq] at hne
      exact hok hne
    simp only [hdec, Bool.false_eq_true, if_false, Bool.not_false] at hbuilt
    split at hbuilt
    · exact absurd hbuilt (by simp)
    · simp only [Except.ok.injEq] at hbuilt
      subst hbuilt
      refine ⟨rfl, rfl, ?_, ?_⟩
      · intro h
        exact absurd h hok
      · intro _
        exact ⟨rfl, rfl⟩

/-- Witness for C13: the callback input for a destination that returned Ok with two data. -/
theorem createCallbackContractCallInput_arguments_witness :
    ∃ input : ContractCallInput,
      createCallbackContractCallInput sampleCollaborators (callbackHost [21] [2])
          (some (asyncCallTo [21])) okDestinationOutput [21] CallbackFunctionName none
        = .ok input
      ∧ input.CallType = .AsynchronousCallBack
      ∧ input.Arguments = [[], [1, 2], [3]] :=
  ⟨_, rfl,
   (createCallbackContractCallInput_arguments sampleCollaborators (callbackHost [21] [2])
      (asyncCallTo [21]) okDestinationOutput [21] CallbackFunctionName none _ rfl).1,
   ((createCallbackContractCallInput_arguments sampleCollaborators (callbackHost [21] [2])
      (asyncCallTo [21]) okDestinationOutput [21] CallbackFunctionName none _ rfl).2.2.1
        ⟨rfl, rfl⟩ rfl).1.trans (by decide)⟩

theorem mem_mapSet {κ ν : Type} [DecidableEq κ] (m : List (κ × ν)) (k : κ) (v : ν)
    (e : κ × ν) (he : e ∈ mapSet m k v) : e ∈ m ∨ e = (k, v) := by
  induction m with
  | nil =>
    simp only [mapSet, List.mem_singleton] at he
    exact Or.inr he
  | cons p rest ih =>
    obtain ⟨k', v'⟩ := p
    by_cases hk : k' = k
    · simp only [mapSet, hk, if_true, List.mem_cons] at he
      rcases he with he | he
      · exact Or.inr he
      · exact Or.inl (List.mem_cons_of_mem _ he)
    · simp only [mapSet, hk, if_false, List.mem_cons] at he
      rcases he with he | he
      · exact Or.inl (by rw [he]; exact List.mem_cons_self _ _)
      · rcases ih he with h | h
        · exact Or.inl (List.mem_cons_of_mem _ h)
        · exact Or.inr h

theorem mem_of_mapGet? {κ ν : Type} [DecidableEq κ] (m : List (κ × ν)) (k : κ) (v : ν)
    (h : mapGet? m k = some v) : (k, v) ∈ m := by
  induction m with
  | nil => simp [mapGet?] at h
  | cons p rest ih =>
    obtain ⟨k', v'⟩ := p
    by_cases hk : k' = k
    · simp only [mapGet?, hk, if_true, Option.some.injEq] at h
      rw [hk, h]
      exact List.mem_cons_self _ _
    · simp only [mapGet?, hk, if_false] at h
      exact List.mem_cons_of_mem _ (ih h)

theorem bigIntOf_append_left (bigInts extra : List Int) (p : Nat) (hp : p < bigInts.length) :
    managedTypesContext.bigIntOf (bigInts ++ extra) p = managedTypesContext.bigIntOf bigInts p := by
  unfold managedTypesContext.bigIntOf
  simp only [List.get?_eq_getElem?]
  rw [List.getElem?_append_left hp]

theorem bigIntOf_set_ne (bigInts : List Int) (d p : Nat) (v : Int) (hne : d ≠ p) :
    managedTypesContext.bigIntOf (bigInts.set d v) p = managedTypesContext.bigIntOf bigInts p := by
  unfold managedTypesContext.bigIntOf
  simp only [List.get?_eq_getElem?]
  rw [List.getElem?_set_ne hne]

/-- What the big-int loop of `clone` builds. -/
theorem cloneBigIntValues_spec (table : List (Int × Nat)) :
    ∀ bigInts : List Int, (∀ entry ∈ table, entry.2 < bigInts.length) →
      (managedTypesContext.cloneBigIntValues bigInts table).1.length = bigInts.length + table.length
      ∧ (∀ p, p < bigInts.length →
          managedTypesContext.bigIntOf (managedTypesContext.cloneBigIntValues bigInts table).1 p = managedTypesContext.bigIntOf bigInts p)
      ∧ (∀ entry ∈ (managedTypesContext.cloneBigIntValues bigInts table).2,
          bigInts.length ≤ entry.2 ∧ entry.2 < bigInts.length + table.length)
      ∧ (managedTypesContext.cloneBigIntValues bigInts table).2.map
            (fun entry => (entry.1, managedTypesContext.bigIntOf (managedTypesContext.cloneBigIntValues bigInts table).1 entry.2))
          = table.map (fun entry => (entry.1, managedTypesContext.bigIntOf bigInts entry.2)) := by
  induction table with
  | nil =>
    intro bigInts _
    simp [managedTypesContext.cloneBigIntValues]
  | cons first rest ih =>
    intro bigInts hvalid
    obtain ⟨handle, pointer⟩ := first
    have hp : pointer < bigInts.length := hvalid (handle, pointer) (List.mem_cons_self _ _)
    have hrest : ∀ entry ∈ rest, entry.2 < (bigInts ++ [managedTypesContext.bigIntOf bigInts pointer]).length := by
      intro entry hmem
      have := hvalid entry (List.mem_cons_of_mem _ hmem)
      simp only [List.length_append, List.length_singleton]
      omega
    obtain ⟨h1, h2, h3, h4⟩ := ih (bigInts ++ [managedTypesContext.bigIntOf bigInts pointer]) hrest
    simp only [List.length_append, List.length_singleton] at h1 h2 h3
    have heq : managedTypesContext.cloneBigIntValues bigInts ((handle, pointer) :: rest)
        = ((managedTypesContext.cloneBigIntValues (bigInts ++ [managedTypesContext.bigIntOf bigInts pointer]) rest).1,
            (handle, bigInts.length)
              :: (managedTypesContext.cloneBigIntValues (bigInts ++ [managedTypesContext.bigIntOf bigInts pointer]) rest).2) := rfl
    rw [heq]
    simp only [List.length_cons, List.map_cons, List.mem_cons]
    refine ⟨by omega, ?_, ?_, ?_⟩
    · intro p hlt
      rw [h2 p (by omega), bigIntOf_append_left _ _ _ hlt]
    · intro entry hmem
      rcases hmem with heq2 | hmem
      · rw [heq2]
        simp only
        omega
      · have := h3 entry hmem
        omega
    · congr 1
      · rw [h2 bigInts.length (by omega)]
        unfold managedTypesContext.bigIntOf
        simp
      · rw [h4]
        apply List.map_congr_left
        intro entry hmem
        have := hvalid entry (List.mem_cons_of_mem _ hmem)
        rw [bigIntOf_append_left _ _ _ this]

theorem GetBigIntOrCreate_avoid (lo hi : Nat) (context : managedTypesContext) (handle : Int)
    (hinv : bigIntPointersAvoid lo hi context) :
    bigIntPointersAvoid lo hi (context.GetBigIntOrCreate handle).1
    ∧ (context.GetBigIntOrCreate handle).1.managedTypesStack = context.managedTypesStack
    ∧ (∀ p, p < hi → managedTypesContext.bigIntOf (context.GetBigIntOrCreate handle).1.bigInts p
        = managedTypesContext.bigIntOf context.bigInts p)
    ∧ (handle, (context.GetBigIntOrCreate handle).2)
        ∈ (context.GetBigIntOrCreate handle).1.managedTypesValues.bigIntValues := by
  obtain ⟨htable, hhi⟩ := hinv
  unfold managedTypesContext.GetBigIntOrCreate
  split
  · rename_i value hget
    exact ⟨⟨htable, hhi⟩, rfl, fun _ _ => rfl, mem_of_mapGet? _ _ _ hget⟩
  · refine ⟨⟨?_, ?_⟩, rfl, ?_, ?_⟩
    · intro entry hmem
      simp only [List.length_append, List.length_singleton]
      rcases mem_mapSet _ _ _ _ hmem with h | h
      · have := htable entry h
        omega
      · rw [h]
        simp only
        omega
    · simp only [List.length_append, List.length_singleton]
      omega
    · intro p hp
      exact bigIntOf_append_left _ _ _ (by omega)
    · simp only
      exact mem_of_mapGet? _ _ _ (mapGet?_mapSet_self _ _ _)

theorem writeBigInt_avoid (lo hi : Nat) (context : managedTypesContext) (pointer : Nat)
    (value : Int) (hinv : bigIntPointersAvoid lo hi context)
    (hptr : pointer < lo ∨ hi ≤ pointer) :
    bigIntPointersAvoid lo hi (context.writeBigInt pointer value)
    ∧ (context.writeBigInt pointer value).managedTypesStack = context.managedTypesStack
    ∧ (∀ p, lo ≤ p → p < hi → managedTypesContext.bigIntOf (context.writeBigInt pointer value).bigInts p
        = managedTypesContext.bigIntOf context.bigInts p) := by
  obtain ⟨htable, hhi⟩ := hinv
  unfold managedTypesContext.writeBigInt
  refine ⟨⟨?_, ?_⟩, rfl, ?_⟩
  · intro entry hmem
    simp only [List.length_set]
    exact htable entry hmem
  · simp only [List.length_set]
    exact hhi
  · intro p hlo hlt
    exact bigIntOf_set_ne _ _ _ _ (by omega)

theorem PutBigInt_avoid (lo hi : Nat) (context : managedTypesContext) (value : Int)
    (hinv : bigIntPointersAvoid lo hi context) :
    bigIntPointersAvoid lo hi (context.PutBigInt value).1
    ∧ (context.PutBigInt value).1.managedTypesStack = context.managedTypesStack
    ∧ (∀ p, p < hi → managedTypesContext.bigIntOf (context.PutBigInt value).1.bigInts p
        = managedTypesContext.bigIntOf context.bigInts p) := by
  obtain ⟨htable, hhi⟩ := hinv
  unfold managedTypesContext.PutBigInt
  refine ⟨⟨?_, ?_⟩, rfl, ?_⟩
  · intro entry hmem
    simp only [List.length_append, List.length_singleton]
    rcases mem_mapSet _ _ _ _ hmem with h | h
    · have := htable entry h
      omega
    · rw [h]
      simp only
      omega
  · simp only [List.length_append, List.length_singleton]
    omega
  · intro p hp
    exact bigIntOf_append_left _ _ _ (by omega)

/-- One big-int operation keeps the pointers of the current table off the frozen range, and
leaves the stack and the objects of the frozen range as they are. -/
theorem applyBigIntOp_avoid (lo hi : Nat) (context : managedTypesContext) (op : BigIntOp)
    (hinv : bigIntPointersAvoid lo hi context) :
    bigIntPointersAvoid lo hi (applyBigIntOp context op)
    ∧ (applyBigIntOp context op).managedTypesStack = context.managedTypesStack
    ∧ (∀ p, lo ≤ p → p < hi → managedTypesContext.bigIntOf (applyBigIntOp context op).bigInts p
        = managedTypesContext.bigIntOf context.bigInts p) := by
  cases op with
  | getOrCreate handle =>
    obtain ⟨h1, h2, h3, _⟩ := GetBigIntOrCreate_avoid lo hi context handle hinv
    exact ⟨h1, h2, fun p _ hp => h3 p hp⟩
  | put value =>
    obtain ⟨h1, h2, h3⟩ := PutBigInt_avoid lo hi context value hinv
    exact ⟨h1, h2, fun p _ hp => h3 p hp⟩
  | setInt64 destinationHandle value =>
    obtain ⟨h1, h2, h3, h4⟩ := GetBigIntOrCreate_avoid lo hi context destinationHandle hinv
    have hptr := (h1.1 _ h4).2
    obtain ⟨w1, w2, w3⟩ := writeBigInt_avoid lo hi _ _ value h1 hptr
    refine ⟨w1, w2.trans h2, fun p hlo hp => ?_⟩
    exact (w3 p hlo hp).trans (h3 p hp)
  | add destinationHandle op1Handle op2Handle =>
    obtain ⟨h1, h2, h3, h4⟩ := GetBigIntOrCreate_avoid lo hi context destinationHandle hinv
    have hptr := (h1.1 _ h4).2
    show bigIntPointersAvoid lo hi (context.bigIntAdd destinationHandle op1Handle op2Handle)
      ∧ (context.bigIntAdd destinationHandle op1Handle op2Handle).managedTypesStack
          = context.managedTypesStack
      ∧ ∀ p, lo ≤ p → p < hi →
          managedTypesContext.bigIntOf (context.bigIntAdd destinationHandle op1Handle op2Handle).bigInts p
            = managedTypesContext.bigIntOf context.bigInts p
    unfold managedTypesContext.bigIntAdd
    simp only
    split
    · exact ⟨h1, h2, fun p _ hp => h3 p hp⟩
    · obtain ⟨w1, w2, w3⟩ := writeBigInt_avoid lo hi _ _
        (managedTypesContext.bigIntOf (context.GetBigIntOrCreate destinationHandle).1.bigInts _
          + managedTypesContext.bigIntOf (context.GetBigIntOrCreate destinationHandle).1.bigInts _) h1 hptr
      refine ⟨w1, w2.trans h2, fun p hlo hp => ?_⟩
      exact (w3 p hlo hp).trans (h3 p hp)

theorem applyBigIntOps_avoid (lo hi : Nat) (ops : List BigIntOp) :
    ∀ context : managedTypesContext, bigIntPointersAvoid lo hi context →
      (applyBigIntOps context ops).managedTypesStack = context.managedTypesStack
      ∧ (∀ p, lo ≤ p → p < hi → managedTypesContext.bigIntOf (applyBigIntOps context ops).bigInts p
          = managedTypesContext.bigIntOf context.bigInts p) := by
  induction ops with
  | nil =>
    intro context _
    exact ⟨rfl, fun _ _ _ => rfl⟩
  | cons op rest ih =>
    intro context hinv
    obtain ⟨h1, h2, h3⟩ := applyBigIntOp_avoid lo hi context op hinv
    obtain ⟨r1, r2⟩ := ih (applyBigIntOp context op) h1
    have hfold : applyBigIntOps context (op :: rest)
        = applyBigIntOps (applyBigIntOp context op) rest := rfl
    rw [hfold]
    exact ⟨r1.trans h2, fun p hlo hp => (r2 p hlo hp).trans (h3 p hlo hp)⟩

theorem PushState_eq (context : managedTypesContext) :
    context.PushState =
      { bigInts := (managedTypesContext.cloneBigIntValues context.bigInts context.managedTypesValues.bigIntValues).1,
        arrays := context.arrays,
        managedTypesValues := context.managedTypesValues,
        managedTypesStack := context.managedTypesStack ++
          [{ bigIntValues :=
               (managedTypesContext.cloneBigIntValues context.bigInts context.managedTypesValues.bigIntValues).2,
             mBufferValues := context.managedTypesValues.mBufferValues,
             ecValues := context.managedTypesValues.ecValues }] } := rfl

theorem PopSetActiveState_of_stack (context : managedTypesContext)
    (stack : List managedTypesState) (prevState : managedTypesState)
    (hstack : context.managedTypesStack = stack ++ [prevState]) :
    context.PopSetActiveState =
      { context with
        managedTypesValues :=
          { bigIntValues := prevState.bigIntValues, mBufferValues := prevState.mBufferValues,
            ecValues := prevState.ecValues },
        managedTypesStack := stack } := by
  unfold managedTypesContext.PopSetActiveState
  rw [hstack]
  simp

/-- C15: after `PushState`, any sequence of big-int operations on the current state (creating
handles, putting new values, `SetInt64` and `Add` into existing handles) followed by
`PopSetActiveState` leaves the big-int table as it was at `PushState`, the same handles with
the same values, and the state stack as it was. The pointers of the table at `PushState` refer
to objects of the heap, as every `*big.Int` of the Go map does. -/
theorem pushState_ops_popSetActiveState_restores_bigInts (context : managedTypesContext)
    (ops : List BigIntOp) (hvalid : bigIntPointersValid context) :
    bigIntTable (applyBigIntOps context.PushState ops).PopSetActiveState = bigIntTable context
    ∧ (applyBigIntOps context.PushState ops).PopSetActiveState.managedTypesStack
        = context.managedTypesStack := by
  obtain ⟨hlen, hprefix, hrange, hview⟩ :=
    cloneBigIntValues_spec context.managedTypesValues.bigIntValues context.bigInts hvalid
  have hinv : bigIntPointersAvoid context.bigInts.length
      (context.bigInts.length + context.managedTypesValues.bigIntValues.length)
      context.PushState := by
    rw [PushState_eq]
    refine ⟨?_, ?_⟩
    · intro entry hmem
      have := hvalid entry hmem
      simp only [hlen]
      omega
    · simp only [hlen]
      exact Nat.le_refl _
  obtain ⟨hstack, hfrozen⟩ := applyBigIntOps_avoid _ _ ops context.PushState hinv
  have hstack2 : (applyBigIntOps context.PushState ops).managedTypesStack
      = context.managedTypesStack ++
          [{ bigIntValues :=
               (managedTypesContext.cloneBigIntValues context.bigInts context.managedTypesValues.bigIntValues).2,
             mBufferValues := context.managedTypesValues.mBufferValues,
             ecValues := context.managedTypesValues.ecValues }] := by
    rw [hstack, PushState_eq]
  rw [PopSetActiveState_of_stack _ _ _ hstack2]
  refine ⟨?_, rfl⟩
  unfold bigIntTable
  simp only
  rw [← hview]
  apply List.map_congr_left
  intro entry hmem
  obtain ⟨hlo, hhi⟩ := hrange entry hmem
  rw [hfrozen entry.2 hlo hhi, PushState_eq]

theorem pushState_ops_popSetActiveState_restores_bigInts_witness :
    bigIntPointersValid bufferContext
    ∧ bigIntTable (applyBigIntOps bufferContext.PushState
          [.add 0 0 1, .put 5, .setInt64 1 7, .getOrCreate 9]).PopSetActiveState
        = bigIntTable bufferContext
    ∧ (applyBigIntOps bufferContext.PushState
          [.add 0 0 1, .put 5, .setInt64 1 7, .getOrCreate 9]).PopSetActiveState.managedTypesStack
        = bufferContext.managedTypesStack :=
  ⟨by unfold bigIntPointersValid; decide,
    pushState_ops_popSetActiveState_restores_bigInts bufferContext
      [.add 0 0 1, .put 5, .setInt64 1 7, .getOrCreate 9]
      (by unfold bigIntPointersValid; decide)⟩

/-- The operations of the witness do change the current table before the pop. -/
theorem applyBigIntOps_changes_current_table :
    bigIntTable (applyBigIntOps bufferContext.PushState
        [.add 0 0 1, .put 5, .setInt64 1 7, .getOrCreate 9])
      = [(0, 30), (1, 7), (2, 5), (9, 0)] := by
  decide

/-- C14: `PushState` keeps the buffers' slices, not their bytes. With `[1, 2, 3, 4]` under
handle 0, `PushState`, then `DeleteSlice(0, 0, 1)` on the current state, then
`PopSetActiveState` leaves `[2, 3, 4, 4]` under handle 0: the deletion moved the bytes inside
the array the stacked snapshot shares. -/
theorem pushState_deleteSlice_changes_snapshot :
    bufferContext.GetBytes 0 = .ok [1, 2, 3, 4]
    ∧ (bufferContext.PushState.DeleteSlice 0 0 1).2 = .ok [2, 3, 4]
    ∧ (bufferContext.PushState.DeleteSlice 0 0 1).1.PopSetActiveState.GetBytes 0
        = .ok [2, 3, 4, 4] :=
  ⟨rfl, rfl, rfl⟩

theorem mapSet_values_le {κ : Type} [DecidableEq κ] (m : List (κ × Nat)) (k : κ) (v bound : Nat)
    (hm : ∀ entry ∈ m, entry.2 ≤ bound) (hv : v ≤ bound) :
    ∀ entry ∈ mapSet m k v, entry.2 ≤ bound := by
  intro entry hmem
  rcases mem_mapSet m k v entry hmem with h | h
  · exact hm entry h
  · rw [h]
    exact hv

theorem mapGet?_getD_le {κ : Type} [DecidableEq κ] (m : List (κ × Nat)) (k : κ) (bound : Nat)
    (hm : ∀ entry ∈ m, entry.2 ≤ bound) : (mapGet? m k).getD 0 ≤ bound := by
  cases hget : mapGet? m k with
  | none => simp
  | some v =>
    simp only [Option.getD_some]
    exact hm (k, v) (mem_of_mapGet? m k v hget)

theorem gasUsed_le_sumGasUsed (accounts : List (Bytes × OutputAccount))
    (entry : Bytes × OutputAccount) (hmem : entry ∈ accounts) :
    entry.2.GasUsed ≤ sumGasUsed accounts := by
  induction accounts with
  | nil => simp at hmem
  | cons first rest ih =>
    simp only [sumGasUsed, List.map_cons, List.sum_cons]
    rcases List.mem_cons.mp hmem with h | h
    · rw [h]
      omega
    · have := ih h
      simp only [sumGasUsed] at this
      omega

theorem updateSCGasUsed_values_le (host : VMHost)
    (hwf : ∀ entry ∈ host.metering.gasUsedByAccounts, entry.2 ≤ MaxUint64) :
    ∀ entry ∈ (updateSCGasUsed host).metering.gasUsedByAccounts, entry.2 ≤ MaxUint64 := by
  unfold updateSCGasUsed
  simp only [GetOutputAccount_metering]
  apply mapSet_values_le _ _ _ _ hwf
  unfold SubUint64 GasSpentByContract AddUint64 MaxUint64
  split <;> split <;> split <;> omega

theorem UpdateGasStateOnSuccess_accounts (host host' : VMHost)
    (h : UpdateGasStateOnSuccess host = (host', none)) :
    host'.output.OutputAccounts
      = (updateSCGasUsed host).output.OutputAccounts.map (fun entry =>
          (entry.1,
            { entry.2 with
              GasUsed :=
                (mapGet? (updateSCGasUsed host).metering.gasUsedByAccounts entry.1).getD 0 })) := by
  unfold UpdateGasStateOnSuccess at h
  simp only at h
  split at h
  · simp at h
  · rename_i host2 hset
    split at h
    · simp at h
    · simp only [Prod.mk.injEq, and_true] at h
      subst h
      unfold setGasUsedToOutputAccounts at hset
      simp only at hset
      split at hset
      · simp only [Prod.mk.injEq, and_true] at hset
        subst hset
        rfl
      · simp at hset

/-- C21: whenever `UpdateGasStateOnSuccess` returns no error, the `GasUsed` it has set on
every output account is at most the gas provided (the gas tracked per account being `uint64`
values). -/
theorem updateGasStateOnSuccess_gasUsed_le_provided (host host' : VMHost)
    (h : UpdateGasStateOnSuccess host = (host', none))
    (hwf : ∀ entry ∈ host.metering.gasUsedByAccounts, entry.2 ≤ MaxUint64) :
    ∀ entry ∈ host'.output.OutputAccounts, entry.2.GasUsed ≤ GetGasProvided host := by
  intro entry hmem
  obtain ⟨hcheck, hprov⟩ := UpdateGasStateOnSuccess_none host host' h
  have hmin := checkGas_none host' hcheck
  have hsum := gasUsed_le_sumGasUsed _ entry hmem
  have hmax : entry.2.GasUsed ≤ MaxUint64 := by
    rw [UpdateGasStateOnSuccess_accounts host host' h] at hmem
    obtain ⟨source, _, hsource⟩ := List.mem_map.mp hmem
    rw [← hsource]
    exact mapGet?_getD_le _ _ _ (updateSCGasUsed_values_le host hwf)
  rw [hprov] at hmin
  omega

/-- Witness for C21: at the host with one locked async transfer, 10 gas provided. -/
theorem updateGasStateOnSuccess_gasUsed_le_provided_witness :
    (UpdateGasStateOnSuccess asyncTransferHost).2 = none
    ∧ ∀ entry ∈ (UpdateGasStateOnSuccess asyncTransferHost).1.output.OutputAccounts,
        entry.2.GasUsed ≤ 10 :=
  ⟨by decide,
   updateGasStateOnSuccess_gasUsed_le_provided asyncTransferHost
     (UpdateGasStateOnSuccess asyncTransferHost).1 (by decide) (by decide)⟩

theorem take_drop_take_drop (backing : List Nat) (offset len start count : Nat)
    (h : start + count ≤ len) :
    (((backing.drop offset).take len).drop start).take count
      = (backing.drop (offset + start)).take count := by
  rw [List.drop_take, List.take_take, List.drop_drop]
  congr 1
  omega

/-- C22: for an existing buffer of length `n` (a Go slice within its capacity, `n` an
`int32`), `GetSlice h start length` returns the bytes at the positions from `start` up to
`start + length` exactly when `0 ≤ start`, `0 ≤ length` and `start + length ≤ n`, and fails
with the bad-bounds error otherwise; for a missing handle it fails with
`ErrNoManagedBufferUnderThisHandle`; the context is never changed. -/
theorem getSlice_bounds (context : managedTypesContext) (mBufferHandle startPosition
    lengthOfSlice : Int) :
    (context.GetSlice mBufferHandle startPosition lengthOfSlice).1 = context
    ∧ (mapGet? context.managedTypesValues.mBufferValues mBufferHandle = none →
        (context.GetSlice mBufferHandle startPosition lengthOfSlice).2
          = .error .ErrNoManagedBufferUnderThisHandle)
    ∧ ∀ mBuffer, mapGet? context.managedTypesValues.mBufferValues mBufferHandle = some mBuffer →
        mBuffer.len ≤ mBuffer.cap → (mBuffer.len : Int) < 2 ^ 31 →
        ((0 ≤ startPosition ∧ 0 ≤ lengthOfSlice
            ∧ startPosition + lengthOfSlice ≤ (mBuffer.len : Int)) →
          (context.GetSlice mBufferHandle startPosition lengthOfSlice).2
            = .ok (((managedTypesContext.sliceBytes context.arrays mBuffer).drop
                startPosition.toNat).take lengthOfSlice.toNat))
        ∧ (¬ (0 ≤ startPosition ∧ 0 ≤ lengthOfSlice
            ∧ startPosition + lengthOfSlice ≤ (mBuffer.len : Int)) →
          (context.GetSlice mBufferHandle startPosition lengthOfSlice).2
            = .error .ErrBadBounds) := by
  refine ⟨?_, ?_, ?_⟩
  · unfold managedTypesContext.GetSlice
    split
    · rfl
    · simp only
      split
      · rfl
      · split <;> rfl
  · intro hnone
    unfold managedTypesContext.GetSlice
    rw [hnone]
  · intro mBuffer hsome hcap hint
    unfold managedTypesContext.GetSlice
    rw [hsome]
    simp only
    constructor
    · rintro ⟨hstart, hlength, hsum⟩
      have hcheck : ¬ ((mBuffer.len : Int) - startPosition < lengthOfSlice ∨ lengthOfSlice < 0
          ∨ startPosition < 0) := by omega
      have hhigh : toInt32 (startPosition + lengthOfSlice) = startPosition + lengthOfSlice := by
        unfold toInt32
        omega
      have hpanic : ¬ (startPosition + lengthOfSlice < startPosition
          ∨ (mBuffer.cap : Int) < startPosition + lengthOfSlice) := by omega
      simp only [hcheck, if_false, hhigh, hpanic]
      congr 1
      unfold managedTypesContext.sliceBytes
      simp only
      have hcount : (startPosition + lengthOfSlice - startPosition).toNat
          = lengthOfSlice.toNat := by omega
      rw [hcount]
      exact (take_drop_take_drop _ _ _ _ _ (by omega)).symm
    · intro hnot
      have hcheck : (mBuffer.len : Int) - startPosition < lengthOfSlice ∨ lengthOfSlice < 0
          ∨ startPosition < 0 := by omega
      simp only [hcheck, if_true]

/-- Witness for C22: slicing `[1, 2, 3, 4]` from position 1 to the end gives `[2, 3, 4]`. -/
theorem getSlice_bounds_witness :
    (bufferContext.GetSlice 0 1 3).2 = .ok [2, 3, 4] :=
  (((getSlice_bounds bufferContext 0 1 3).2.2 { array := 0, offset := 0, len := 4, cap := 4 }
      rfl (by decide) (by decide)).1 (by decide)).trans rfl

theorem sliceBytes_length (arrays : List (List Nat)) (slice : GoSlice)
    (hwf : sliceWellFormed arrays slice) :
    (managedTypesContext.sliceBytes arrays slice).length = slice.len := by
  obtain ⟨backing, hget, hcap, hlen⟩ := hwf
  unfold managedTypesContext.sliceBytes
  rw [hget]
  simp only [Option.getD_some, List.length_take, List.length_drop]
  omega

theorem sliceBytes_head (arrays : List (List Nat)) (slice : GoSlice) (p : Nat)
    (hp : p ≤ slice.len) :
    managedTypesContext.sliceBytes arrays { slice with len := p }
      = (managedTypesContext.sliceBytes arrays slice).take p := by
  unfold managedTypesContext.sliceBytes
  simp only
  rw [List.take_take]
  congr 1
  omega

theorem sliceBytes_tail (arrays : List (List Nat)) (slice : GoSlice) (p : Nat) :
    managedTypesContext.sliceBytes arrays
        { array := slice.array, offset := slice.offset + p, len := slice.len - p,
          cap := slice.cap - p }
      = (managedTypesContext.sliceBytes arrays slice).drop p := by
  unfold managedTypesContext.sliceBytes
  simp only
  rw [List.drop_take, List.drop_drop]

/-- Go's `append` gives the slice's bytes followed by the data, in place or in a new array. -/
theorem goAppend_bytes (arrays : List (List Nat)) (slice : GoSlice) (data : Bytes)
    (hwf : sliceWellFormed arrays slice) :
    managedTypesContext.sliceBytes (managedTypesContext.goAppend arrays slice data).1
        (managedTypesContext.goAppend arrays slice data).2
      = managedTypesContext.sliceBytes arrays slice ++ data := by
  obtain ⟨backing, hget, hcap, hlen⟩ := hwf
  have hindex : slice.array < arrays.length := by
    by_contra hnot
    have : arrays.get? slice.array = none := by
      rw [List.get?_eq_getElem?]
      exact List.getElem?_eq_none (by omega)
    rw [this] at hget
    exact absurd hget (by simp)
  unfold managedTypesContext.goAppend
  split
  · rename_i hfit
    unfold managedTypesContext.sliceBytes managedTypesContext.writeAt
    simp only [hget, Option.getD_some, List.get?_eq_getElem?]
    rw [List.getElem?_set_self hindex]
    simp only [Option.getD_some]
    have h1 : (List.take (slice.offset + slice.len) backing).length
        = slice.offset + slice.len := by
      rw [List.length_take]
      omega
    rw [List.append_assoc, List.drop_append_of_le_length (by omega)]
    rw [List.drop_take]
    have h2 : slice.offset + slice.len - slice.offset = slice.len := by omega
    rw [h2]
    have h3 : (List.take slice.len (List.drop slice.offset backing)).length = slice.len := by
      rw [List.length_take, List.length_drop]
      omega
    rw [← List.append_assoc, List.take_append_of_le_length (by
      rw [List.length_append, h3])]
    rw [List.take_of_length_le (by rw [List.length_append, h3])]
  · unfold managedTypesContext.sliceBytes
    simp only [hget, Option.getD_some, List.get?_eq_getElem?, List.drop_zero]
    rw [List.getElem?_append_right (Nat.le_refl _)]
    simp only [Nat.sub_self, List.getElem?_cons_zero, Option.getD_some, List.length_append]
    exact List.take_left' (by rw [List.length_append])

/-- Go's `append` leaves every other array of the heap as it was. -/
theorem goAppend_other (arrays : List (List Nat)) (slice : GoSlice) (data : Bytes)
    (index : Nat) (hne : index ≠ slice.array) (hindex : index < arrays.length) :
    (managedTypesContext.goAppend arrays slice data).1.get? index = arrays.get? index := by
  unfold managedTypesContext.goAppend
  split
  · simp only [List.get?_eq_getElem?]
    rw [List.getElem?_set_ne (fun h => hne h.symm)]
  · simp only [List.get?_eq_getElem?]
    rw [List.getElem?_append_left hindex]

/-- The bytes of a slice depend only on its own backing array. -/
theorem sliceBytes_congr (arrays arrays2 : List (List Nat)) (slice : GoSlice)
    (h : arrays2.get? slice.array = arrays.get? slice.array) :
    managedTypesContext.sliceBytes arrays2 slice = managedTypesContext.sliceBytes arrays slice := by
  unfold managedTypesContext.sliceBytes
  rw [h]

theorem sliceWellFormed_index (arrays : List (List Nat)) (slice : GoSlice)
    (hwf : sliceWellFormed arrays slice) : slice.array < arrays.length := by
  obtain ⟨backing, hget, _, _⟩ := hwf
  by_contra hnot
  have : arrays.get? slice.array = none := by
    rw [List.get?_eq_getElem?]
    exact List.getElem?_eq_none (by omega)
  rw [this] at hget
  exact absurd hget (by simp)

/-- For an inserted slice with a backing array of its own, `InsertSlice` does what its
comment says: below 0 and beyond `n - 1` it fails with the bad-bounds error and leaves the
context unchanged; otherwise the buffer becomes its first `p` bytes, then the bytes of the
slice, then its remaining bytes, of length `n + len(s)`, and that is the value returned. -/
theorem insertSlice_of_separate_slice (context : managedTypesContext)
    (mBufferHandle startPosition : Int) (slice mBuffer : GoSlice)
    (hsome : mapGet? context.managedTypesValues.mBufferValues mBufferHandle = some mBuffer)
    (hwf : sliceWellFormed context.arrays mBuffer) (hint : (mBuffer.len : Int) < 2 ^ 31)
    (hslice : sliceWellFormed context.arrays slice)
    (hseparate : slice.array ≠ mBuffer.array) :
    ((startPosition < 0 ∨ (mBuffer.len : Int) - 1 < startPosition) →
      context.InsertSlice mBufferHandle startPosition slice = (context, .error .ErrBadBounds))
    ∧ ((0 ≤ startPosition ∧ startPosition ≤ (mBuffer.len : Int) - 1) →
      (context.InsertSlice mBufferHandle startPosition slice).2
        = .ok ((managedTypesContext.sliceBytes context.arrays mBuffer).take startPosition.toNat
            ++ managedTypesContext.sliceBytes context.arrays slice
            ++ (managedTypesContext.sliceBytes context.arrays mBuffer).drop startPosition.toNat)
      ∧ (context.InsertSlice mBufferHandle startPosition slice).1.GetBytes mBufferHandle
        = .ok ((managedTypesContext.sliceBytes context.arrays mBuffer).take startPosition.toNat
            ++ managedTypesContext.sliceBytes context.arrays slice
            ++ (managedTypesContext.sliceBytes context.arrays mBuffer).drop startPosition.toNat)
      ∧ ((managedTypesContext.sliceBytes context.arrays mBuffer).take startPosition.toNat
            ++ managedTypesContext.sliceBytes context.arrays slice
            ++ (managedTypesContext.sliceBytes context.arrays mBuffer).drop
                startPosition.toNat).length
          = mBuffer.len + slice.len) := by
  have hlen32 : toInt32 (toInt32 (mBuffer.len : Int) - 1) = (mBuffer.len : Int) - 1 := by
    unfold toInt32
    omega
  have hbytes := sliceBytes_length context.arrays mBuffer hwf
  have hsbytes := sliceBytes_length context.arrays slice hslice
  constructor
  · intro hbad
    unfold managedTypesContext.InsertSlice
    rw [hsome]
    simp only [hlen32]
    rw [if_pos hbad]
  · rintro ⟨hlo, hhi⟩
    have hgood : ¬ (startPosition < 0 ∨ (mBuffer.len : Int) - 1 < startPosition) := by omega
    have hp : startPosition.toNat ≤ mBuffer.len := by omega
    obtain ⟨backing, hget, hcap, hlencap⟩ := id hwf
    have hindex := sliceWellFormed_index context.arrays mBuffer hwf
    have htail := sliceBytes_tail context.arrays mBuffer startPosition.toNat
    have hinner := goAppend_bytes context.arrays slice
      ((managedTypesContext.sliceBytes context.arrays mBuffer).drop startPosition.toNat) hslice
    have hkept := goAppend_other context.arrays slice
      ((managedTypesContext.sliceBytes context.arrays mBuffer).drop startPosition.toNat)
      mBuffer.array (fun h => hseparate h.symm) hindex
    have hheadwf : sliceWellFormed
        (managedTypesContext.goAppend context.arrays slice
          ((managedTypesContext.sliceBytes context.arrays mBuffer).drop startPosition.toNat)).1
        { mBuffer with len := startPosition.toNat } :=
      ⟨backing, hkept.trans hget, hcap, by simp only; omega⟩
    have houter := goAppend_bytes _ { mBuffer with len := startPosition.toNat }
      (managedTypesContext.sliceBytes context.arrays slice
        ++ (managedTypesContext.sliceBytes context.arrays mBuffer).drop startPosition.toNat)
      hheadwf
    rw [sliceBytes_congr context.arrays _ { mBuffer with len := startPosition.toNat } hkept,
      sliceBytes_head _ _ _ hp, ← List.append_assoc] at houter
    refine ⟨?_, ?_, ?_⟩
    · unfold managedTypesContext.InsertSlice
      rw [hsome]
      simp only [hlen32]
      rw [if_neg hgood]
      simp only
      rw [htail, hinner, houter]
    · unfold managedTypesContext.InsertSlice managedTypesContext.GetBytes
      rw [hsome]
      simp only [hlen32]
      rw [if_neg hgood]
      simp only [mapGet?_mapSet_self]
      rw [htail, hinner, houter]
    · simp only [List.length_append, List.length_take, List.length_drop, hbytes, hsbytes]
      omega

theorem growLoop_ge (newLen : Nat) (fuel newcap : Nat) (hfuel : newLen ≤ newcap + fuel) :
    newLen ≤ managedTypesContext.growLoop newLen fuel newcap := by
  induction fuel generalizing newcap with
  | zero =>
    unfold managedTypesContext.growLoop
    omega
  | succ fuel ih =>
    unfold managedTypesContext.growLoop
    split
    · exact ih _ (by omega)
    · omega

theorem roundupsize_ge (size : Nat) : size ≤ managedTypesContext.roundupsize size := by
  unfold managedTypesContext.roundupsize
  split
  · rename_i sizeClass hfind
    have := List.find?_some hfind
    exact of_decide_eq_true this
  · omega

/-- The capacity of a grown slice holds the bytes it has to hold: the fuel of the loop is
enough. -/
theorem growCap_ge (oldCap newLen : Nat) :
    newLen ≤ managedTypesContext.growCap oldCap newLen := by
  unfold managedTypesContext.growCap
  simp only
  refine Nat.le_trans ?_ (roundupsize_ge _)
  split
  · exact Nat.le_refl _
  · split
    · omega
    · exact growLoop_ge newLen newLen oldCap (by omega)

/-- Go's `append` keeps a slice well formed. -/
theorem goAppend_wellFormed (arrays : List (List Nat)) (slice : GoSlice) (data : Bytes)
    (hwf : sliceWellFormed arrays slice) :
    sliceWellFormed (managedTypesContext.goAppend arrays slice data).1
      (managedTypesContext.goAppend arrays slice data).2 := by
  have hindex := sliceWellFormed_index arrays slice hwf
  obtain ⟨backing, hget, hcap, hlen⟩ := hwf
  unfold managedTypesContext.goAppend
  split
  · rename_i hfit
    refine ⟨managedTypesContext.writeAt backing (slice.offset + slice.len) data, ?_, ?_, hfit⟩
    · simp only [List.get?_eq_getElem?] at hget ⊢
      rw [List.getElem?_set_self hindex, hget]
      rfl
    · unfold managedTypesContext.writeAt
      simp only [List.length_append, List.length_take, List.length_drop]
      omega
  · have hge := growCap_ge slice.cap (managedTypesContext.sliceBytes arrays slice ++ data).length
    refine ⟨managedTypesContext.sliceBytes arrays slice ++ data
        ++ List.replicate (managedTypesContext.growCap slice.cap
            (managedTypesContext.sliceBytes arrays slice ++ data).length
          - (managedTypesContext.sliceBytes arrays slice ++ data).length) 0, ?_, ?_, hge⟩
    · simp only [List.get?_eq_getElem?]
      rw [List.getElem?_append_right (Nat.le_refl _)]
      simp only [Nat.sub_self, List.getElem?_cons_zero]
    · simp only [List.length_append, List.length_replicate] at hge ⊢
      omega

/-- Appending one byte to a full slice of four bytes gives a new array of capacity 8. -/
theorem goAppend_grows_capacity :
    managedTypesContext.goAppend [[1, 2, 3, 4]] { array := 0, offset := 0, len := 4, cap := 4 }
        [5]
      = ([[1, 2, 3, 4], [1, 2, 3, 4, 5, 0, 0, 0]],
         { array := 1, offset := 0, len := 5, cap := 8 }) := by
  decide

/-- On success `GetSlice` returns the bytes of the slice `GetSliceHeader` describes. -/
theorem getSlice_of_header (context : managedTypesContext)
    (mBufferHandle startPosition lengthOfSlice : Int) (slice : GoSlice)
    (hheader : context.GetSliceHeader mBufferHandle startPosition lengthOfSlice = some slice) :
    context.GetSlice mBufferHandle startPosition lengthOfSlice
      = (context, .ok (managedTypesContext.sliceBytes context.arrays slice)) := by
  unfold managedTypesContext.GetSliceHeader at hheader
  unfold managedTypesContext.GetSlice
  split at hheader
  · cases hheader
  · rename_i mBuffer hsome
    simp only at hheader ⊢
    split at hheader
    · cases hheader
    · rename_i hbounds
      rw [if_neg hbounds]
      split at hheader
      · cases hheader
      · rename_i hhigh
        rw [if_neg hhigh]
        simp only [Option.some.injEq] at hheader
        rw [hheader]

/-- Witness of `insertSlice_of_separate_slice`: the byte `[1]`, held in an array of its own
under handle 1, is inserted at position 2 of `[1, 2, 3, 4]`. -/
theorem insertSlice_of_separate_slice_witness :
    ((bufferContext.SetBytes 1 [1]).InsertSlice 0 2
        { array := 1, offset := 0, len := 1, cap := 1 }).2 = .ok [1, 2, 1, 3, 4] :=
  ((insertSlice_of_separate_slice (bufferContext.SetBytes 1 [1]) 0 2
      { array := 1, offset := 0, len := 1, cap := 1 }
      { array := 0, offset := 0, len := 4, cap := 4 }
      rfl ⟨[1, 2, 3, 4], rfl, by decide, by decide⟩ (by decide)
      ⟨[1], rfl, by decide, by decide⟩ (by decide)).2 (by decide)).1.trans rfl

/-- C23, the failing input: the buffer `[1, 2, 3, 4]` is held under handle 0 in an array of
capacity 4; `GetSlice(0, 0, 1)` returns the slice `mBuffer[0:1]`, the byte `[1]` in the
buffer's own array with capacity 4; `InsertSlice(0, 2, s)` with that slice returns
`[1, 3, 1, 3, 4]` and leaves it under the handle, where the claim gives
`[1, 2] ++ [1] ++ [3, 4]`: the inner `append` has written `[3, 4]` behind `s`, over the
second and third byte of the buffer, before the outer one reads `mBuffer[:2]`. The same byte
coming from an array of its own gives `[1, 2, 1, 3, 4]`. -/
theorem insertSlice_aliased_slice_overwrites :
    bufferContext.GetBytes 0 = .ok [1, 2, 3, 4]
    ∧ bufferContext.GetSliceHeader 0 0 1
        = some { array := 0, offset := 0, len := 1, cap := 4 }
    ∧ bufferContext.GetSlice 0 0 1 = (bufferContext, .ok [1])
    ∧ (bufferContext.InsertSlice 0 2 { array := 0, offset := 0, len := 1, cap := 4 }).2
        = .ok [1, 3, 1, 3, 4]
    ∧ (bufferContext.InsertSlice 0 2
          { array := 0, offset := 0, len := 1, cap := 4 }).1.GetBytes 0
        = .ok [1, 3, 1, 3, 4]
    ∧ [1, 3, 1, 3, 4] ≠ [1, 2] ++ [1] ++ [3, 4]
    ∧ ((bufferContext.SetBytes 1 [1]).InsertSlice 0 2
          { array := 1, offset := 0, len := 1, cap := 1 }).2 = .ok [1, 2, 1, 3, 4] :=
  ⟨rfl, rfl, rfl, rfl, rfl, by decide, rfl⟩

theorem toInt32_of_int32 (v : Int) (hlo : -2 ^ 31 ≤ v) (hhi : v < 2 ^ 31) : toInt32 v = v := by
  unfold toInt32
  omega

/-- C24, amended: for a curve stored under the handle whose field size, read as
`int32(curve.BitSize)`, is 224, 256, 384 or 521 the three multiplier functions return 100,
135, 200, 250, then 100, 110, 150, 190, then 2000, 100, 200, 400; for a missing handle, and
for any other value of `int32(curve.BitSize)`, each returns -1; a field size within `int32`
is read as itself. -/
theorem curveGasCostMultipliers (context : managedTypesContext) (ecHandle : Int) :
    (mapGet? context.managedTypesValues.ecValues ecHandle = none →
      context.Get100xCurveGasCostMultiplier ecHandle = -1
      ∧ context.GetScalarMult100xCurveGasCostMultiplier ecHandle = -1
      ∧ context.GetUCompressed100xCurveGasCostMultiplier ecHandle = -1)
    ∧ ∀ curve, mapGet? context.managedTypesValues.ecValues ecHandle = some curve →
        (toInt32 curve.BitSize = 224 →
          context.Get100xCurveGasCostMultiplier ecHandle = 100
          ∧ context.GetScalarMult100xCurveGasCostMultiplier ecHandle = 100
          ∧ context.GetUCompressed100xCurveGasCostMultiplier ecHandle = 2000)
        ∧ (toInt32 curve.BitSize = 256 →
          context.Get100xCurveGasCostMultiplier ecHandle = 135
          ∧ context.GetScalarMult100xCurveGasCostMultiplier ecHandle = 110
          ∧ context.GetUCompressed100xCurveGasCostMultiplier ecHandle = 100)
        ∧ (toInt32 curve.BitSize = 384 →
          context.Get100xCurveGasCostMultiplier ecHandle = 200
          ∧ context.GetScalarMult100xCurveGasCostMultiplier ecHandle = 150
          ∧ context.GetUCompressed100xCurveGasCostMultiplier ecHandle = 200)
        ∧ (toInt32 curve.BitSize = 521 →
          context.Get100xCurveGasCostMultiplier ecHandle = 250
          ∧ context.GetScalarMult100xCurveGasCostMultiplier ecHandle = 190
          ∧ context.GetUCompressed100xCurveGasCostMultiplier ecHandle = 400)
        ∧ (toInt32 curve.BitSize ≠ 224 → toInt32 curve.BitSize ≠ 256 →
          toInt32 curve.BitSize ≠ 384 → toInt32 curve.BitSize ≠ 521 →
          context.Get100xCurveGasCostMultiplier ecHandle = -1
          ∧ context.GetScalarMult100xCurveGasCostMultiplier ecHandle = -1
          ∧ context.GetUCompressed100xCurveGasCostMultiplier ecHandle = -1)
        ∧ (-2 ^ 31 ≤ curve.BitSize → curve.BitSize < 2 ^ 31 →
          toInt32 curve.BitSize = curve.BitSize) := by
  unfold managedTypesContext.Get100xCurveGasCostMultiplier
    managedTypesContext.GetScalarMult100xCurveGasCostMultiplier
    managedTypesContext.GetUCompressed100xCurveGasCostMultiplier
    managedTypesContext.GetEllipticCurveSizeOfField
  constructor
  · intro hnone
    rw [hnone]
    decide
  · intro curve hsome
    rw [hsome]
    simp only
    refine ⟨?_, ?_, ?_, ?_, ?_, ?_⟩
    · intro hsize
      simp only [hsize]
      decide
    · intro hsize
      simp only [hsize]
      decide
    · intro hsize
      simp only [hsize]
      decide
    · intro hsize
      simp only [hsize]
      decide
    · intro h224 h256 h384 h521
      simp only [h224, h256, h384, h521, if_false]
      refine ⟨?_, ?_, ?_⟩ <;> split <;> rfl
    · intro hlo hhi
      exact toInt32_of_int32 _ hlo hhi

/-- Witness for C24: the curve of field size 512 under handle 4 gets -1, the one of field
size 256 under handle 1 gets 135. -/
theorem curveGasCostMultipliers_witness :
    curveContext.Get100xCurveGasCostMultiplier 4 = -1
    ∧ curveContext.Get100xCurveGasCostMultiplier 1 = 135 :=
  ⟨(((curveGasCostMultipliers curveContext 4).2 _ rfl).2.2.2.2.1 (by decide) (by decide)
      (by decide) (by decide)).1,
   (((curveGasCostMultipliers curveContext 1).2 _ rfl).2.1 (by decide)).1⟩

/-- C24 (as stated) fails: the curve that `PutEllipticCurve` has stored under handle 0 of
`wideCurveContext` has the field size 2^32 + 224, none of 224, 256, 384 and 521, and the
three functions return 100, 100 and 2000 instead of -1. -/
theorem curveGasCostMultipliers_wrapped_field_size :
    (∃ curve, mapGet? wideCurveContext.managedTypesValues.ecValues 0 = some curve
      ∧ curve.BitSize = 2 ^ 32 + 224
      ∧ curve.BitSize ≠ 224 ∧ curve.BitSize ≠ 256 ∧ curve.BitSize ≠ 384
      ∧ curve.BitSize ≠ 521)
    ∧ wideCurveContext.Get100xCurveGasCostMultiplier 0 = 100
    ∧ wideCurveContext.GetScalarMult100xCurveGasCostMultiplier 0 = 100
    ∧ wideCurveContext.GetUCompressed100xCurveGasCostMultiplier 0 = 2000
    ∧ wideCurveContext.Get100xCurveGasCostMultiplier 0 ≠ -1 := by
  refine ⟨⟨_, rfl, ?_⟩, ?_⟩ <;> decide

theorem foldl_append_flatten (data : List Bytes) (init : Bytes) (f : Bytes → Bytes) :
    data.foldl (fun callData arg => callData ++ f arg) init
      = init ++ (data.map f).flatten := by
  induction data generalizing init with
  | nil => simp
  | cons arg rest ih =>
    simp only [List.foldl_cons, List.map_cons, List.flatten_cons]
    rw [ih, List.append_assoc]

theorem minAsyncCallCost_eq (step lock : Nat) :
    AddUint64 (MulUint64 2 step) lock = min (2 * step + lock) MaxUint64 := by
  unfold AddUint64 MulUint64
  split <;> split <;> omega

/-- C25 (as amended): with `gasLimit` read as unsigned at least
`2 × AsyncCallStep + AsyncCallbackGasLock` capped at `MaxUint64`, `upgradeContract` hands
`runtime.ExecuteAsyncCall` the destination, the value and the data
`upgradeContract@hex(code)@hex(metadata)` followed by `@hex(arg)` for each argument in
order; below that floor it sets the OutOfGas breakpoint and leaves the runtime's async call
as it was. -/
theorem upgradeContract_call_data (env : Collaborators) (host : VMHost)
    (destContractAddress code codeMetadata value : Bytes) (data : List Bytes) (gasLimit : Int) :
    (min (2 * host.metering.gasSchedule.AsyncCallStep
          + host.metering.gasSchedule.AsyncCallbackGasLock) MaxUint64 ≤ toUint64 gasLimit →
      upgradeContract env host destContractAddress code codeMetadata value data gasLimit
        = (env.ExecuteAsyncCall host destContractAddress
            (upgradeCallData code codeMetadata data) value).1)
    ∧ (toUint64 gasLimit < min (2 * host.metering.gasSchedule.AsyncCallStep
          + host.metering.gasSchedule.AsyncCallbackGasLock) MaxUint64 →
      upgradeContract env host destContractAddress code codeMetadata value data gasLimit
        = SetRuntimeBreakpointValue host .BreakpointOutOfGas
      ∧ (upgradeContract env host destContractAddress code codeMetadata value data
            gasLimit).runtime.breakpoint = .BreakpointOutOfGas
      ∧ (upgradeContract env host destContractAddress code codeMetadata value data
            gasLimit).runtime.asyncCallInfo = host.runtime.asyncCallInfo) := by
  unfold upgradeContract
  simp only [minAsyncCallCost_eq]
  constructor
  · intro hfloor
    rw [if_neg (by omega)]
    unfold upgradeCallData
    rw [foldl_append_flatten data _ (fun arg => [64] ++ hexEncode arg)]
  · intro hbelow
    rw [if_pos hbelow]
    exact ⟨rfl, rfl, rfl⟩

/-- Witness for C25: with floor `2 × 1 + 4`, a gas limit of 6 registers the call to `[7]` with
the data `upgradeContract@0061@0100@ff@0102`. -/
theorem upgradeContract_call_data_witness :
    (upgradeContract sampleCollaborators (upgradeHost 1) [7] [0, 97] [1, 0] []
        [[255], [1, 2]] 6).runtime.asyncCallInfo
      = some { Destination := [7],
               Data := [117, 112, 103, 114, 97, 100, 101, 67, 111, 110, 116, 114, 97, 99, 116,
                        64, 48, 48, 54, 49, 64, 48, 49, 48, 48, 64, 102, 102, 64, 48, 49, 48, 50],
               GasLimit := 70, GasLocked := 0, ValueBytes := [] } :=
  (congrArg (fun h => h.runtime.asyncCallInfo)
    ((upgradeContract_call_data sampleCollaborators (upgradeHost 1) [7] [0, 97] [1, 0] []
      [[255], [1, 2]] 6).1 (by decide))).trans (by decide)

/-- C25 (as stated) fails: with `AsyncCallStep = 2 ^ 63` the floor
`2 × AsyncCallStep + AsyncCallbackGasLock` is `2 ^ 64 + 4`, above every unsigned gas limit,
yet with gas limit -1 (read as `2 ^ 64 - 1`) the async call is registered. -/
theorem upgradeContract_registers_below_floor :
    toUint64 (-1) < 2 * (upgradeHost (2 ^ 63)).metering.gasSchedule.AsyncCallStep
        + (upgradeHost (2 ^ 63)).metering.gasSchedule.AsyncCallbackGasLock
    ∧ (upgradeContract sampleCollaborators (upgradeHost (2 ^ 63)) [7] [0, 97] [1, 0] []
        [[255], [1, 2]] (-1)).runtime.breakpoint = .BreakpointNone
    ∧ ((upgradeContract sampleCollaborators (upgradeHost (2 ^ 63)) [7] [0, 97] [1, 0] []
        [[255], [1, 2]] (-1)).runtime.asyncCallInfo.map (fun call => call.Destination))
        = some [7] := by
  decide

set_option maxRecDepth 100000 in
/-- C27: evaluation at the failing input. The big int `2 ^ 256` has 33 bytes, yet
`ConsumeGasForBigIntCopy` uses no gas for it: it takes `BitLen / 8 = 257 / 8 = 32` as the
byte length. For `2 ^ 264`, of 34 bytes, it charges for 33. -/
theorem consumeGasForBigIntCopy_rounds_down :
    (bigBytes (2 ^ 256)).length = 33
    ∧ bigIntHost.metering.gasSchedule.DataCopyPerByte = 1
    ∧ ConsumeGasForBigIntCopy bigIntHost [2 ^ 256] = bigIntHost
    ∧ (bigBytes (2 ^ 264)).length = 34
    ∧ (ConsumeGasForBigIntCopy bigIntHost [2 ^ 264]).runtime.pointsUsed
        = bigIntHost.runtime.pointsUsed + 33 := by
  decide

theorem bytesToNat_natBytes (n : Nat) : bytesToNat (natBytes n) = n := by
  induction n using Nat.strong_induction_on with
  | _ n ih =>
    by_cases hn : n = 0
    · subst hn
      rw [natBytes_zero]
      rfl
    · rw [natBytes_pos n (by omega), bytesToNat_append, ih (n / 256) (by omega)]
      omega

theorem toInt64_of_nonneg (v : Int) (h0 : 0 ≤ v) (h63 : v < 2 ^ 63) : toInt64 v = v := by
  unfold toInt64
  omega

theorem bigSetBytes_bigBytes (v : Int) (h0 : 0 ≤ v) : bigSetBytes (bigBytes v) = v := by
  unfold bigSetBytes bigBytes
  rw [bytesToNat_natBytes]
  omega

/-- What `v1_4_setStorageLock` does when the key is readable and the frame is not read-only. -/
theorem v1_4_setStorageLock_ok (env : Collaborators) (host : VMHost)
    (keyOffset keyLength lockTimestamp : Int) (key : Bytes)
    (hkey : MemLoad host keyOffset keyLength = .ok key)
    (hwrite : host.runtime.readOnly = false) :
    (v1_4_setStorageLock env host keyOffset keyLength lockTimestamp).1
      = { UseGas host host.metering.gasSchedule.Int64StorageStore with
          storage := mapSet host.storage (timeLockStorageKey env key) (bigBytes lockTimestamp) } := by
  unfold v1_4_setStorageLock
  simp only
  rw [MemLoad_congr host _ keyOffset keyLength (UseGas_memory _ _), hkey]
  simp only [SetProtectedStorage, UseGas, hwrite, Bool.false_eq_true, if_false]

/-- What `v1_4_getStorageLock` returns when the key is readable. -/
theorem v1_4_getStorageLock_ok (env : Collaborators) (host : VMHost)
    (keyOffset keyLength : Int) (key : Bytes)
    (hkey : MemLoad host keyOffset keyLength = .ok key) :
    (v1_4_getStorageLock env host keyOffset keyLength).2
      = toInt64 (bigSetBytes ((mapGet? host.storage (timeLockStorageKey env key)).getD [])) := by
  unfold v1_4_getStorageLock
  simp only
  rw [MemLoad_congr host _ keyOffset keyLength (UseGas_memory _ _), hkey]
  rfl

theorem v1_4_isStorageLocked_eq (env : Collaborators) (host : VMHost)
    (keyOffset keyLength : Int) :
    (v1_4_isStorageLocked env host keyOffset keyLength).2
      = if (v1_4_getStorageLock env host keyOffset keyLength).2 < 0 then -1
        else if (v1_4_getStorageLock env host keyOffset keyLength).2
            ≤ toInt64 env.CurrentTimeStamp then 0
        else 1 := by
  unfold v1_4_isStorageLocked v1_4_getBlockTimestamp
  simp only
  split
  · rfl
  · split <;> rfl

/-- The lock that `v1_4_getStorageLock` reads after `v1_4_setStorageLock` of a timestamp. -/
theorem v1_4_getStorageLock_after_set (env : Collaborators) (host : VMHost)
    (keyOffset keyLength lockTimestamp : Int) (key : Bytes)
    (hkey : MemLoad host keyOffset keyLength = .ok key)
    (hwrite : host.runtime.readOnly = false)
    (h0 : 0 ≤ lockTimestamp) (h63 : lockTimestamp < 2 ^ 63) :
    (v1_4_getStorageLock env
        (v1_4_setStorageLock env host keyOffset keyLength lockTimestamp).1
        keyOffset keyLength).2 = lockTimestamp := by
  have hkey2 : MemLoad (v1_4_setStorageLock env host keyOffset keyLength lockTimestamp).1
      keyOffset keyLength = .ok key := by
    rw [v1_4_setStorageLock_ok env host keyOffset keyLength lockTimestamp key hkey hwrite]
    exact (MemLoad_congr host _ keyOffset keyLength rfl).trans hkey
  rw [v1_4_getStorageLock_ok env _ keyOffset keyLength key hkey2]
  rw [v1_4_setStorageLock_ok env host keyOffset keyLength lockTimestamp key hkey hwrite]
  simp only [mapGet?_mapSet_self, Option.getD_some]
  rw [bigSetBytes_bigBytes _ h0, toInt64_of_nonneg _ h0 h63]

/-- C26 (as amended): for a readable key and a timestamp `0 ≤ ts < 2 ^ 63`, after
`setStorageLock(key, ts)` succeeds (the frame is not read-only), `getStorageLock(key)`
returns `ts`, and `isStorageLocked(key)` returns 1 exactly when `ts` is greater than the
current block timestamp read as `int64(CurrentTimeStamp())` and 0 otherwise; after
`clearStorageLock(key)` it returns 0 when that reading is not negative and 1 when it is; a
block timestamp below `2 ^ 63` is read as itself. -/
theorem storageLock_roundtrip (env : Collaborators) (host : VMHost)
    (keyOffset keyLength lockTimestamp : Int) (key : Bytes)
    (hkey : MemLoad host keyOffset keyLength = .ok key)
    (hwrite : host.runtime.readOnly = false)
    (h0 : 0 ≤ lockTimestamp) (h63 : lockTimestamp < 2 ^ 63) :
    (v1_4_getStorageLock env
        (v1_4_setStorageLock env host keyOffset keyLength lockTimestamp).1
        keyOffset keyLength).2 = lockTimestamp
    ∧ (v1_4_isStorageLocked env
        (v1_4_setStorageLock env host keyOffset keyLength lockTimestamp).1
        keyOffset keyLength).2
        = (if toInt64 env.CurrentTimeStamp < lockTimestamp then 1 else 0)
    ∧ (v1_4_isStorageLocked env
        (v1_4_clearStorageLock env
          (v1_4_setStorageLock env host keyOffset keyLength lockTimestamp).1
          keyOffset keyLength).1
        keyOffset keyLength).2 = (if 0 ≤ toInt64 env.CurrentTimeStamp then 0 else 1)
    ∧ ((env.CurrentTimeStamp : Int) < 2 ^ 63 →
        toInt64 env.CurrentTimeStamp = env.CurrentTimeStamp) := by
  have hget := v1_4_getStorageLock_after_set env host keyOffset keyLength lockTimestamp key
    hkey hwrite h0 h63
  refine ⟨hget, ?_, ?_, ?_⟩
  · rw [v1_4_isStorageLocked_eq, hget]
    split
    · omega
    · split
      · rw [if_neg (by omega)]
      · rw [if_pos (by omega)]
  · have hkey2 : MemLoad (v1_4_setStorageLock env host keyOffset keyLength lockTimestamp).1
        keyOffset keyLength = .ok key := by
      rw [v1_4_setStorageLock_ok env host keyOffset keyLength lockTimestamp key hkey hwrite]
      exact (MemLoad_congr host _ keyOffset keyLength rfl).trans hkey
    have hwrite2 : (v1_4_setStorageLock env host keyOffset keyLength
        lockTimestamp).1.runtime.readOnly = false := by
      rw [v1_4_setStorageLock_ok env host keyOffset keyLength lockTimestamp key hkey hwrite]
      exact hwrite
    have hclear := v1_4_getStorageLock_after_set env
      (v1_4_setStorageLock env host keyOffset keyLength lockTimestamp).1
      keyOffset keyLength 0 key hkey2 hwrite2 (by omega) (by omega)
    rw [v1_4_isStorageLocked_eq]
    unfold v1_4_clearStorageLock
    rw [hclear]
    rw [if_neg (by omega)]
  · intro hnow
    exact toInt64_of_nonneg _ (by omega) hnow

/-- Witness for C26: a lock until 1500 under the key `[255, 127]`, at block timestamp 1000. -/
theorem storageLock_roundtrip_witness :
    (v1_4_getStorageLock sampleCollaborators
        (v1_4_setStorageLock sampleCollaborators bigIntHost 0 2 1500).1 0 2).2 = 1500
    ∧ (v1_4_isStorageLocked sampleCollaborators
        (v1_4_setStorageLock sampleCollaborators bigIntHost 0 2 1500).1 0 2).2 = 1 :=
  ⟨(storageLock_roundtrip sampleCollaborators bigIntHost 0 2 1500 [255, 127] rfl rfl
      (by decide) (by decide)).1,
   (storageLock_roundtrip sampleCollaborators bigIntHost 0 2 1500 [255, 127] rfl rfl
      (by decide) (by decide)).2.1.trans (by decide)⟩

/-- C26 (as stated) fails: `setStorageLock(key, -5)` succeeds and `getStorageLock(key)` then
returns 5; after `setStorageLock(key, -5000)`, at block timestamp 1000, `isStorageLocked(key)`
returns 1; and at block timestamp 2^63, after `setStorageLock(key, 1500)`,
`isStorageLocked(key)` returns 1 although 1500 is not greater than 2^63, and still 1 after
`clearStorageLock(key)`. -/
theorem storageLock_negative_timestamp_loses_sign :
    (v1_4_setStorageLock sampleCollaborators bigIntHost 0 2 (-5)).1.runtime.errors = []
    ∧ (v1_4_setStorageLock sampleCollaborators bigIntHost 0 2 (-5)).2 ≠ -1
    ∧ (v1_4_getStorageLock sampleCollaborators
        (v1_4_setStorageLock sampleCollaborators bigIntHost 0 2 (-5)).1 0 2).2 = 5
    ∧ sampleCollaborators.CurrentTimeStamp = 1000
    ∧ (v1_4_isStorageLocked sampleCollaborators
        (v1_4_setStorageLock sampleCollaborators bigIntHost 0 2 (-5000)).1 0 2).2 = 1
    ∧ lateBlockCollaborators.CurrentTimeStamp = 2 ^ 63
    ∧ (v1_4_setStorageLock lateBlockCollaborators bigIntHost 0 2 1500).2 ≠ -1
    ∧ (v1_4_isStorageLocked lateBlockCollaborators
        (v1_4_setStorageLock lateBlockCollaborators bigIntHost 0 2 1500).1 0 2).2 = 1
    ∧ (v1_4_isStorageLocked lateBlockCollaborators
        (v1_4_clearStorageLock lateBlockCollaborators
          (v1_4_setStorageLock lateBlockCollaborators bigIntHost 0 2 1500).1 0 2).1
        0 2).2 = 1 := by
  decide

/-- When the gas config cannot be built, `GasScheduleChange` has already replaced the host's
stored map and leaves the metering context as it was. -/
theorem GasScheduleChange_of_error (env : Collaborators) (host : VMHost)
    (newGasSchedule : GasScheduleMap) (err : HostError)
    (hfail : env.CreateGasConfig newGasSchedule = .error err) :
    (GasScheduleChange env host newGasSchedule).gasSchedule = newGasSchedule
    ∧ (GasScheduleChange env host newGasSchedule).metering = host.metering := by
  unfold GasScheduleChange
  simp only [hfail]
  constructor <;> trivial

/-- When the gas config can be built, `GasScheduleChange` replaces both. -/
theorem GasScheduleChange_of_ok (env : Collaborators) (host : VMHost)
    (newGasSchedule : GasScheduleMap) (gasSchedule : GasCost)
    (hok : env.CreateGasConfig newGasSchedule = .ok gasSchedule) :
    (GasScheduleChange env host newGasSchedule).gasSchedule = newGasSchedule
    ∧ (GasScheduleChange env host newGasSchedule).metering.gasSchedule = gasSchedule := by
  unfold GasScheduleChange SetGasSchedule
  simp only [hok]
  constructor <;> trivial

/-- C28: evaluation at the failing input. For the empty schedule map the gas config cannot be
built; `GasScheduleChange` then leaves the metering context's schedule as it was, but the
host's stored map has been replaced by the empty one. -/
theorem gasScheduleChange_replaces_map_on_failure :
    sampleCollaborators.CreateGasConfig [] = .error .ErrCreateGasConfig
    ∧ scheduledHost.gasSchedule = [([66], [([71], 5)])]
    ∧ (GasScheduleChange sampleCollaborators scheduledHost []).gasSchedule = []
    ∧ (GasScheduleChange sampleCollaborators scheduledHost []).metering.gasSchedule
        = scheduledHost.metering.gasSchedule :=
  ⟨rfl, rfl, rfl, rfl⟩

theorem GasLeft_UseGas_GasLeft (host : VMHost)
    (hwf : host.metering.gasForExecution ≤ MaxUint64) :
    GasLeft (UseGas host (GasLeft host)) = 0 := by
  unfold GasLeft UseGas AddUint64
  simp only
  split <;> split <;> split <;> omega

theorem GasLeft_FailExecution (host : VMHost) (err : HostError) :
    GasLeft (FailExecution host err) = GasLeft host := rfl

/-- C29: after `sendAsyncCallToDestination` returns, whether `Transfer` accepted or rejected
the output transfer, `GasLeft = 0`; when it is rejected the execution is failed with that
error and the error is returned (the gas for execution being a `uint64`). -/
theorem sendAsyncCallToDestination_consumes_gas (env : Collaborators) (host : VMHost)
    (asyncCallInfo : AsyncCallInfo)
    (hwf : (env.Transfer host asyncCallInfo.Destination host.runtime.scAddress
        asyncCallInfo.GasLimit asyncCallInfo.GasLocked (bigSetBytes asyncCallInfo.ValueBytes)
        asyncCallInfo.Data .AsynchronousCall).1.metering.gasForExecution ≤ MaxUint64) :
    GasLeft (sendAsyncCallToDestination env host asyncCallInfo).1 = 0
    ∧ (∀ err, (env.Transfer host asyncCallInfo.Destination host.runtime.scAddress
          asyncCallInfo.GasLimit asyncCallInfo.GasLocked (bigSetBytes asyncCallInfo.ValueBytes)
          asyncCallInfo.Data .AsynchronousCall).2 = some err →
        (sendAsyncCallToDestination env host asyncCallInfo).2 = some err
        ∧ (sendAsyncCallToDestination env host asyncCallInfo).1.runtime.breakpoint
            = .BreakpointExecutionFailed
        ∧ err ∈ (sendAsyncCallToDestination env host asyncCallInfo).1.runtime.errors)
    ∧ ((env.Transfer host asyncCallInfo.Destination host.runtime.scAddress
          asyncCallInfo.GasLimit asyncCallInfo.GasLocked (bigSetBytes asyncCallInfo.ValueBytes)
          asyncCallInfo.Data .AsynchronousCall).2 = none →
        (sendAsyncCallToDestination env host asyncCallInfo).2 = none) := by
  unfold sendAsyncCallToDestination
  generalize env.Transfer host asyncCallInfo.Destination host.runtime.scAddress
    asyncCallInfo.GasLimit asyncCallInfo.GasLocked (bigSetBytes asyncCallInfo.ValueBytes)
    asyncCallInfo.Data .AsynchronousCall = transferred at hwf ⊢
  obtain ⟨host2, result⟩ := transferred
  cases result with
  | none =>
    simp only at hwf ⊢
    refine ⟨GasLeft_UseGas_GasLeft host2 hwf, ?_, fun _ => trivial⟩
    intro err herr
    exact absurd herr (by simp)
  | some e =>
    simp only at hwf ⊢
    refine ⟨?_, ?_, fun h => absurd h (by simp)⟩
    · rw [GasLeft_FailExecution]
      exact GasLeft_UseGas_GasLeft host2 hwf
    · intro err herr
      simp only [Option.some.injEq] at herr
      subst herr
      refine ⟨rfl, rfl, ?_⟩
      simp [FailExecution]

/-- Witness for C29: an accepted transfer to `[7]` and a rejected one to the empty address,
from a host with 70 gas left. -/
theorem sendAsyncCallToDestination_consumes_gas_witness :
    GasLeft (deployHost 100) = 70
    ∧ GasLeft (sendAsyncCallToDestination recordingCollaborators (deployHost 100)
        { Destination := [7], Data := [1], GasLimit := 40, GasLocked := 10,
          ValueBytes := [] }).1 = 0
    ∧ GasLeft (sendAsyncCallToDestination recordingCollaborators (deployHost 100)
        { Destination := [], Data := [1], GasLimit := 40, GasLocked := 10,
          ValueBytes := [] }).1 = 0 :=
  ⟨by decide,
   (sendAsyncCallToDestination_consumes_gas recordingCollaborators (deployHost 100)
      { Destination := [7], Data := [1], GasLimit := 40, GasLocked := 10, ValueBytes := [] }
      (by decide)).1,
   (sendAsyncCallToDestination_consumes_gas recordingCollaborators (deployHost 100)
      { Destination := [], Data := [1], GasLimit := 40, GasLocked := 10, ValueBytes := [] }
      (by decide)).1⟩

/-- C30: `sendCallbackToCurrentCaller` hands `Transfer` one output transfer to the current
caller, sent by the running contract, with call type `AsynchronousCallBack`, gas locked 0, gas
limit `GasLeft` before the call, the call value, and the data `@hex(name of the return code)`
followed by `@hex(d)` for every return datum in order; when `Transfer` accepts it, no error is
returned, and afterwards `GasLeft = 0` (the gas for execution being a `uint64`). -/
theorem sendCallbackToCurrentCaller_transfer (env : Collaborators) (host : VMHost)
    (hwf : (env.Transfer host host.runtime.callerAddr host.runtime.scAddress (GasLeft host) 0
        host.runtime.callValue
        (callbackReturnData (env.returnCodeString host.output.ReturnCode) host.output.ReturnData)
        .AsynchronousCallBack).1.metering.gasForExecution ≤ MaxUint64) :
    ((env.Transfer host host.runtime.callerAddr host.runtime.scAddress (GasLeft host) 0
        host.runtime.callValue
        (callbackReturnData (env.returnCodeString host.output.ReturnCode) host.output.ReturnData)
        .AsynchronousCallBack).2 = none →
      (sendCallbackToCurrentCaller env host).2 = none
      ∧ (sendCallbackToCurrentCaller env host).1.output
          = (env.Transfer host host.runtime.callerAddr host.runtime.scAddress (GasLeft host) 0
              host.runtime.callValue
              (callbackReturnData (env.returnCodeString host.output.ReturnCode)
                host.output.ReturnData)
              .AsynchronousCallBack).1.output)
    ∧ GasLeft (sendCallbackToCurrentCaller env host).1 = 0 := by
  unfold sendCallbackToCurrentCaller
  simp only
  rw [foldl_append_flatten host.output.ReturnData _ (fun data => [64] ++ hexEncode data)]
  have hdata : [64] ++ hexEncode (env.returnCodeString host.output.ReturnCode)
      ++ (host.output.ReturnData.map (fun data => [64] ++ hexEncode data)).flatten
      = callbackReturnData (env.returnCodeString host.output.ReturnCode)
          host.output.ReturnData := rfl
  rw [hdata]
  generalize env.Transfer host host.runtime.callerAddr host.runtime.scAddress (GasLeft host) 0
    host.runtime.callValue
    (callbackReturnData (env.returnCodeString host.output.ReturnCode) host.output.ReturnData)
    .AsynchronousCallBack = transferred at hwf ⊢
  obtain ⟨host2, result⟩ := transferred
  cases result with
  | none =>
    simp only at hwf ⊢
    exact ⟨fun _ => ⟨trivial, rfl⟩, GasLeft_UseGas_GasLeft host2 hwf⟩
  | some e =>
    simp only at hwf ⊢
    refine ⟨fun h => absurd h (by simp), ?_⟩
    rw [GasLeft_FailExecution]
    exact GasLeft_UseGas_GasLeft host2 hwf

/-- Witness for C30: with 70 gas left, return code 0 and return data `[255]`, `[1, 2]`, the
caller `[9]` gets one transfer with the data `@00@ff@0102`. -/
theorem sendCallbackToCurrentCaller_transfer_witness :
    (sendCallbackToCurrentCaller recordingCollaborators returningHost).1.output.OutputAccounts
      = [([9], { GasUsed := 0,
                 OutputTransfers :=
                   [{ GasLimit := 70, GasLocked := 0,
                      Data := [64, 48, 48, 64, 102, 102, 64, 48, 49, 48, 50], Value := 0,
                      CallType := .AsynchronousCallBack, SenderAddress := [1] }] })]
    ∧ GasLeft (sendCallbackToCurrentCaller recordingCollaborators returningHost).1 = 0 :=
  ⟨(congrArg (fun output => output.OutputAccounts)
      ((sendCallbackToCurrentCaller_transfer recordingCollaborators returningHost
        (by decide)).1 (by decide)).2).trans (by decide),
   (sendCallbackToCurrentCaller_transfer recordingCollaborators returningHost (by decide)).2⟩

/-- C31: `processCallbackVMOutput` never returns an error; without a callback error it leaves
the host as it is; with one it sets the input's `GasProvided` to 0, sets the return message
to the callback output's message and appends to the return data the name of the callback's
return code and then the current transaction hash, nothing else (a missing callback output
being the one the output context creates for the error). -/
theorem processCallbackVMOutput_never_fails (env : Collaborators) (host : VMHost)
    (callbackVMOutput : Option VMOutput) (callBackErr : HostError) :
    processCallbackVMOutput env host callbackVMOutput none = (host, none)
    ∧ (processCallbackVMOutput env host callbackVMOutput (some callBackErr)).2 = none
    ∧ (processCallbackVMOutput env host callbackVMOutput
        (some callBackErr)).1.runtime.gasProvided = 0
    ∧ (processCallbackVMOutput env host callbackVMOutput
        (some callBackErr)).1.output.ReturnMessage
        = (callbackVMOutput.getD (env.CreateVMOutputInCaseOfError callBackErr)).ReturnMessage
    ∧ (processCallbackVMOutput env host callbackVMOutput
        (some callBackErr)).1.output.ReturnData
        = host.output.ReturnData
          ++ [env.returnCodeString
                (callbackVMOutput.getD (env.CreateVMOutputInCaseOfError callBackErr)).ReturnCode,
              host.runtime.currentTxHash]
    ∧ (processCallbackVMOutput env host callbackVMOutput (some callBackErr)).1
        = { host with
            runtime := { host.runtime with gasProvided := 0 },
            output :=
              { host.output with
                ReturnMessage :=
                  (callbackVMOutput.getD
                    (env.CreateVMOutputInCaseOfError callBackErr)).ReturnMessage,
                ReturnData := host.output.ReturnData
                  ++ [env.returnCodeString
                        (callbackVMOutput.getD
                          (env.CreateVMOutputInCaseOfError callBackErr)).ReturnCode,
                      host.runtime.currentTxHash] } } := by
  refine ⟨rfl, rfl, rfl, rfl, ?_, ?_⟩
  · simp [processCallbackVMOutput, Finish, SetReturnMessage]
  · simp [processCallbackVMOutput, Finish, SetReturnMessage]

/-- C38 (as amended): for a negative `int64` `v`, `BoundGasLimit v` is the smaller of
`GasLeft` and `v` read as unsigned, `2 ^ 64 + v`; it is `GasLeft` whenever the gas left does
not exceed that, in particular whenever the gas left is below `2 ^ 63`, and then all the gas
left is the gas provided of every call input that `prepareIndirectContractCallInput` builds,
whatever its flag for synchronous execution (an input is built unless that flag is set and
the destination is in another shard), and of the creation input that `createContract` hands
to `CreateNewContract`. -/
theorem boundGasLimit_negative (env : Collaborators) (host : VMHost) (v : Int)
    (hneg : v < 0) (hlo : -2 ^ 63 ≤ v) :
    BoundGasLimit host v = min (GasLeft host) (2 ^ 64 + v).toNat
    ∧ (GasLeft host < 2 ^ 63 → GasLeft host ≤ (2 ^ 64 + v).toNat)
    ∧ (GasLeft host ≤ (2 ^ 64 + v).toNat →
        BoundGasLimit host v = GasLeft host
        ∧ (∀ (sender destination function : Bytes) (value : Int) (data : List Bytes)
            (gasToUse : Nat) (syncExecutionRequired : Bool) (input : ContractCallInput),
            prepareIndirectContractCallInput env host sender value v destination function data
                gasToUse syncExecutionRequired = .ok input →
            input.GasProvided = GasLeft host)
        ∧ (∀ (sender destination function : Bytes) (value : Int) (data : List Bytes)
            (gasToUse : Nat) (syncExecutionRequired : Bool),
            (syncExecutionRequired = true →
              env.AreInSameShard host.runtime.scAddress destination = true) →
            ∃ input, prepareIndirectContractCallInput env host sender value v destination
                function data gasToUse syncExecutionRequired = .ok input)
        ∧ ∀ (sender : Bytes) (data : List Bytes) (value : Int) (code codeMetadata : Bytes),
            createContract env host sender data value v code codeMetadata
              = env.CreateNewContract host
                  { CallerAddr := sender, Arguments := data, CallValue := value, GasPrice := 0,
                    GasProvided := GasLeft host, ContractCode := code,
                    ContractCodeMetadata := codeMetadata }) := by
  have hlimit : toUint64 v = (2 ^ 64 + v).toNat := by
    unfold toUint64
    congr 1
    omega
  have hb : BoundGasLimit host v = min (GasLeft host) (2 ^ 64 + v).toNat := by
    unfold BoundGasLimit
    simp only [hlimit]
    split <;> omega
  refine ⟨hb, by omega, ?_⟩
  intro hle
  have hall : BoundGasLimit host v = GasLeft host := by
    rw [hb]
    omega
  refine ⟨hall, ?_, ?_, ?_⟩
  · intro sender destination function value data gasToUse syncExecutionRequired input hprep
    unfold prepareIndirectContractCallInput at hprep
    split at hprep
    · cases hprep
    · simp only [Except.ok.injEq] at hprep
      subst hprep
      exact hall
  · intro sender destination function value data gasToUse syncExecutionRequired hshard
    unfold prepareIndirectContractCallInput
    cases syncExecutionRequired with
    | false => exact ⟨_, rfl⟩
    | true =>
      simp only [hshard rfl, Bool.not_true, Bool.and_false, Bool.false_eq_true, if_false]
      exact ⟨_, rfl⟩
  · intro sender data value code codeMetadata
    unfold createContract
    simp only [hall]

/-- Witness for C38: with 70 gas left, a gas limit of -1 gives 70, and a contract creation
requested with it hands all 70 to `CreateNewContract`. -/
theorem boundGasLimit_negative_witness :
    GasLeft (deployHost 100) = 70 ∧ BoundGasLimit (deployHost 100) (-1) = 70
    ∧ createContract sampleCollaborators (deployHost 100) [1] [] 0 (-1) [0, 97] [5, 0]
      = sampleCollaborators.CreateNewContract (deployHost 100)
          { CallerAddr := [1], Arguments := [], CallValue := 0, GasPrice := 0,
            GasProvided := 70, ContractCode := [0, 97], ContractCodeMetadata := [5, 0] } :=
  ⟨by decide,
   ((boundGasLimit_negative sampleCollaborators (deployHost 100) (-1) (by decide)
      (by decide)).2.2 (by decide)).1.trans (by decide),
   (((boundGasLimit_negative sampleCollaborators (deployHost 100) (-1) (by decide)
      (by decide)).2.2 (by decide)).2.2.2 [1] [] 0 [0, 97] [5, 0]).trans rfl⟩

/-- C38 (as stated) fails: with `2 ^ 64 - 31` gas left, the negative gas limit `-2 ^ 63`
gives `2 ^ 63`, not the gas left. -/
theorem boundGasLimit_negative_below_gas_left :
    GasLeft fullGasHost = 2 ^ 64 - 31
    ∧ BoundGasLimit fullGasHost (-2 ^ 63) = 2 ^ 63
    ∧ BoundGasLimit fullGasHost (-2 ^ 63) ≠ GasLeft fullGasHost := by
  decide

theorem mapSet_of_none {κ ν : Type} [DecidableEq κ] (m : List (κ × ν)) (k : κ) (v : ν)
    (h : mapGet? m k = none) : mapSet m k v = m ++ [(k, v)] := by
  induction m with
  | nil => rfl
  | cons p rest ih =>
    obtain ⟨k', v'⟩ := p
    by_cases hk : k' = k
    · simp [mapGet?, hk] at h
    · simp only [mapGet?, hk, if_false] at h
      simp only [mapSet, hk, if_false, List.cons_append, ih h]

theorem mapSet_mapSet {κ ν : Type} [DecidableEq κ] (m : List (κ × ν)) (k : κ) (v w : ν) :
    mapSet (mapSet m k v) k w = mapSet m k w := by
  induction m with
  | nil => simp [mapSet]
  | cons p rest ih =>
    obtain ⟨k', v'⟩ := p
    by_cases hk : k' = k
    · simp [mapSet, hk]
    · simp [mapSet, hk, ih]

theorem mapSet_of_mapGet? {κ ν : Type} [DecidableEq κ] (m : List (κ × ν)) (k : κ) (v : ν)
    (h : mapGet? m k = some v) : mapSet m k v = m := by
  induction m with
  | nil => simp [mapGet?] at h
  | cons p rest ih =>
    obtain ⟨k', v'⟩ := p
    by_cases hk : k' = k
    · simp only [mapGet?, hk, if_true, Option.some.injEq] at h
      simp [mapSet, hk, h]
    · simp only [mapGet?, hk, if_false] at h
      simp [mapSet, hk, ih h]

theorem mapGet?_append_singleton_ne {κ ν : Type} [DecidableEq κ] (m : List (κ × ν))
    (k k2 : κ) (v : ν) (hne : k2 ≠ k) : mapGet? (m ++ [(k, v)]) k2 = mapGet? m k2 := by
  induction m with
  | nil =>
    have : ¬ k = k2 := fun h => hne h.symm
    simp [mapGet?, this]
  | cons p rest ih =>
    obtain ⟨k', v'⟩ := p
    by_cases hk : k' = k2
    · simp [mapGet?, hk]
    · simp [mapGet?, hk, ih]

/-- The inner loop on a context that already has its entry in the pending map. -/
theorem getPendingAsyncCallsStep_foldl_some (contextIdentifier : Bytes)
    (asyncContext : AsyncContext) (calls : List AsyncGeneratedCall) :
    ∀ (pendingMap : List (Bytes × AsyncContext)) (pending : AsyncContext),
      mapGet? pendingMap contextIdentifier = some pending →
      calls.foldl (getPendingAsyncCallsStep contextIdentifier asyncContext) pendingMap
        = mapSet pendingMap contextIdentifier
            { pending with AsyncCalls := pending.AsyncCalls ++ pendingCalls calls } := by
  induction calls with
  | nil =>
    intro pendingMap pending hget
    simp only [List.foldl_nil, pendingCalls, List.filter_nil, List.append_nil]
    exact (mapSet_of_mapGet? _ _ _ hget).symm
  | cons asyncCall rest ih =>
    intro pendingMap pending hget
    simp only [List.foldl_cons]
    by_cases hstatus : asyncCall.Status = AsyncCallPending
    · have hstep : getPendingAsyncCallsStep contextIdentifier asyncContext pendingMap asyncCall
          = mapSet pendingMap contextIdentifier
              { pending with AsyncCalls := pending.AsyncCalls ++ [asyncCall] } := by
        unfold getPendingAsyncCallsStep
        simp only [hstatus, ne_eq, not_true_eq_false, if_false, hget]
      rw [hstep, ih _ _ (mapGet?_mapSet_self _ _ _), mapSet_mapSet]
      simp [pendingCalls, List.filter_cons, hstatus]
    · have hstep : getPendingAsyncCallsStep contextIdentifier asyncContext pendingMap asyncCall
          = pendingMap := by
        unfold getPendingAsyncCallsStep
        simp only [ne_eq, hstatus, not_false_eq_true, if_true]
      rw [hstep, ih _ _ hget]
      simp [pendingCalls, List.filter_cons, hstatus]

/-- The inner loop on a context that has no entry in the pending map yet. -/
theorem getPendingAsyncCallsStep_foldl_none (contextIdentifier : Bytes)
    (asyncContext : AsyncContext) (calls : List AsyncGeneratedCall) :
    ∀ (pendingMap : List (Bytes × AsyncContext)),
      mapGet? pendingMap contextIdentifier = none →
      calls.foldl (getPendingAsyncCallsStep contextIdentifier asyncContext) pendingMap
        = if pendingCalls calls = [] then pendingMap
          else pendingMap ++ [(contextIdentifier,
            { Callback := asyncContext.Callback, AsyncCalls := pendingCalls calls })] := by
  induction calls with
  | nil =>
    intro pendingMap _
    simp [pendingCalls]
  | cons asyncCall rest ih =>
    intro pendingMap hget
    simp only [List.foldl_cons]
    by_cases hstatus : asyncCall.Status = AsyncCallPending
    · have hstep : getPendingAsyncCallsStep contextIdentifier asyncContext pendingMap asyncCall
          = mapSet pendingMap contextIdentifier
              { Callback := asyncContext.Callback, AsyncCalls := [asyncCall] } := by
        unfold getPendingAsyncCallsStep
        simp only [hstatus, ne_eq, not_true_eq_false, if_false, hget, mapGet?_mapSet_self,
          mapSet_mapSet, List.nil_append]
      rw [hstep, getPendingAsyncCallsStep_foldl_some _ _ rest _ _ (mapGet?_mapSet_self _ _ _),
        mapSet_mapSet, mapSet_of_none _ _ _ hget]
      simp [pendingCalls, List.filter_cons, hstatus]
    · have hstep : getPendingAsyncCallsStep contextIdentifier asyncContext pendingMap asyncCall
          = pendingMap := by
        unfold getPendingAsyncCallsStep
        simp only [ne_eq, hstatus, not_false_eq_true, if_true]
      rw [hstep, ih _ hget]
      simp [pendingCalls, List.filter_cons, hstatus]

/-- The outer loop of `getPendingAsyncCalls` over contexts with distinct identifiers, none of
them in the pending map yet. -/
theorem getPendingAsyncCalls_foldl (contexts : List (Bytes × AsyncContext)) :
    ∀ (pendingMap : List (Bytes × AsyncContext)),
      (contexts.map Prod.fst).Nodup →
      (∀ k ∈ contexts.map Prod.fst, mapGet? pendingMap k = none) →
      contexts.foldl
          (fun pendingMap entry =>
            entry.2.AsyncCalls.foldl (getPendingAsyncCallsStep entry.1 entry.2) pendingMap)
          pendingMap
        = pendingMap ++ pendingContexts contexts := by
  induction contexts with
  | nil =>
    intro pendingMap _ _
    simp [pendingContexts]
  | cons entry rest ih =>
    intro pendingMap hnodup hfresh
    obtain ⟨identifier, asyncContext⟩ := entry
    simp only [List.map_cons, List.nodup_cons] at hnodup
    obtain ⟨hnotin, hrest⟩ := hnodup
    have hnone : mapGet? pendingMap identifier = none :=
      hfresh identifier (by simp)
    simp only [List.foldl_cons]
    rw [getPendingAsyncCallsStep_foldl_none identifier asyncContext _ pendingMap hnone]
    by_cases hempty : pendingCalls asyncContext.AsyncCalls = []
    · rw [if_pos hempty, ih pendingMap hrest (fun k hk => hfresh k (by simp [hk]))]
      simp [pendingContexts, hempty]
    · rw [if_neg hempty]
      rw [ih _ hrest (fun k hk => by
        have hne : k ≠ identifier := fun h => hnotin (h ▸ hk)
        rw [mapGet?_append_singleton_ne _ _ _ _ hne]
        exact hfresh k (by simp [hk]))]
      simp [pendingContexts, hempty]

theorem pendingCalls_idem (calls : List AsyncGeneratedCall) :
    pendingCalls (pendingCalls calls) = pendingCalls calls := by
  unfold pendingCalls
  rw [List.filter_filter]
  congr 1
  funext asyncCall
  simp

theorem pendingContexts_idem (contexts : List (Bytes × AsyncContext)) :
    pendingContexts (pendingContexts contexts) = pendingContexts contexts := by
  induction contexts with
  | nil => rfl
  | cons entry rest ih =>
    by_cases hempty : pendingCalls entry.2.AsyncCalls = []
    · have : pendingContexts (entry :: rest) = pendingContexts rest := by
        simp [pendingContexts, hempty]
      rw [this, ih]
    · have hcons : pendingContexts (entry :: rest)
          = (entry.1, { Callback := entry.2.Callback,
                        AsyncCalls := pendingCalls entry.2.AsyncCalls })
            :: pendingContexts rest := by
        simp [pendingContexts, hempty]
      rw [hcons]
      have hcons2 : pendingContexts
          ((entry.1, { Callback := entry.2.Callback,
                       AsyncCalls := pendingCalls entry.2.AsyncCalls })
            :: pendingContexts rest)
          = (entry.1, { Callback := entry.2.Callback,
                        AsyncCalls := pendingCalls entry.2.AsyncCalls })
            :: pendingContexts (pendingContexts rest) := by
        simp [pendingContexts, pendingCalls_idem, hempty]
      rw [hcons2, ih]

theorem pendingContexts_keys_sublist (contexts : List (Bytes × AsyncContext)) :
    ((pendingContexts contexts).map Prod.fst).Sublist (contexts.map Prod.fst) := by
  induction contexts with
  | nil => simp [pendingContexts]
  | cons entry rest ih =>
    by_cases hempty : pendingCalls entry.2.AsyncCalls = []
    · have : pendingContexts (entry :: rest) = pendingContexts rest := by
        simp [pendingContexts, hempty]
      rw [this]
      exact List.Sublist.cons _ ih
    · have hcons : pendingContexts (entry :: rest)
          = (entry.1, { Callback := entry.2.Callback,
                        AsyncCalls := pendingCalls entry.2.AsyncCalls })
            :: pendingContexts rest := by
        simp [pendingContexts, hempty]
      rw [hcons]
      exact List.Sublist.cons₂ _ ih

theorem getPendingAsyncCalls_eq (asyncInfo : AsyncContextInfo)
    (hkeys : (asyncInfo.AsyncContextMap.map Prod.fst).Nodup) :
    getPendingAsyncCalls asyncInfo
      = { CallerAddr := asyncInfo.CallerAddr, ReturnData := asyncInfo.ReturnData,
          AsyncContextMap := pendingContexts asyncInfo.AsyncContextMap } := by
  unfold getPendingAsyncCalls
  rw [getPendingAsyncCalls_foldl _ [] hkeys (fun _ _ => rfl)]
  simp

/-- C32: for a record whose context identifiers are distinct (the keys of a Go map),
`getPendingAsyncCalls` returns the caller address and return data of the input and, for each
context that has a pending call, its callback and exactly its pending calls in their order;
contexts without a pending call are absent, and applying the function to its own result gives
the same record. The function builds a new record and writes nothing to its input. -/
theorem getPendingAsyncCalls_pending_only (asyncInfo : AsyncContextInfo)
    (hkeys : (asyncInfo.AsyncContextMap.map Prod.fst).Nodup) :
    getPendingAsyncCalls asyncInfo
      = { CallerAddr := asyncInfo.CallerAddr, ReturnData := asyncInfo.ReturnData,
          AsyncContextMap := pendingContexts asyncInfo.AsyncContextMap }
    ∧ getPendingAsyncCalls (getPendingAsyncCalls asyncInfo) = getPendingAsyncCalls asyncInfo := by
  have heq := getPendingAsyncCalls_eq asyncInfo hkeys
  refine ⟨heq, ?_⟩
  have hkeys2 : ((getPendingAsyncCalls asyncInfo).AsyncContextMap.map Prod.fst).Nodup := by
    rw [heq]
    exact List.Nodup.sublist (pendingContexts_keys_sublist _) hkeys
  rw [getPendingAsyncCalls_eq _ hkeys2, heq]
  simp only [pendingContexts_idem]

/-- Witness for C32: of three contexts, the one with only a resolved call is dropped and the
resolved call of the first is left out. -/
theorem getPendingAsyncCalls_pending_only_witness :
    getPendingAsyncCalls mixedStatusCalls
      = { CallerAddr := [5], ReturnData := [7],
          AsyncContextMap :=
            [([97], { Callback := [1],
                      AsyncCalls := [asyncCallWithStatus 0 [22], asyncCallWithStatus 0 [23]] }),
             ([99], { Callback := [3], AsyncCalls := [asyncCallWithStatus 0 [25]] })] } :=
  (getPendingAsyncCalls_pending_only mixedStatusCalls (by decide)).1.trans (by decide)

/-- The outcome of `setupAsyncCallsGas` when the provided gas fits the gas left. -/
theorem setupAsyncCallsGas_of_fits (host : VMHost) (asyncInfo : AsyncContextInfo)
    (hwf : host.metering.gasForExecution ≤ MaxUint64)
    (hsum : sumProvidedGas asyncInfo.AsyncContextMap ≤ GasLeft host)
    (hshare : countZeroGas asyncInfo.AsyncContextMap ≠ 0 →
      sumProvidedGas asyncInfo.AsyncContextMap < GasLeft host) :
    setupAsyncCallsGas host asyncInfo
      = ({ asyncInfo with
           AsyncContextMap :=
             assignGasLimits
               ((GasLeft host - sumProvidedGas asyncInfo.AsyncContextMap)
                 / countZeroGas asyncInfo.AsyncContextMap)
               asyncInfo.AsyncContextMap }, none) := by
  have hmax : GasLeft host ≤ MaxUint64 := le_trans (GasLeft_le host) hwf
  have hloop := setupContextsGasLoop_ok (GasLeft host) hmax asyncInfo.AsyncContextMap 0 0
    (by omega)
  simp only [Nat.zero_add] at hloop
  unfold setupAsyncCallsGas
  simp only
  rw [hloop]
  by_cases hz : countZeroGas asyncInfo.AsyncContextMap = 0
  · simp only [hz, if_true]
    rw [withProvidedGasAll_of_no_zero _ _ hz]
  · have hlt := hshare hz
    have hle : ¬ GasLeft host ≤ sumProvidedGas asyncInfo.AsyncContextMap := by omega
    simp only [hz, if_false, hle]
    rw [shareGasLoop_withProvidedGasAll]

/-- When `setupAsyncCallsGas` succeeds, the provided gas fits the gas left. -/
theorem setupAsyncCallsGas_fits_of_none (host : VMHost) (asyncInfo : AsyncContextInfo)
    (hwf : host.metering.gasForExecution ≤ MaxUint64)
    (hok : (setupAsyncCallsGas host asyncInfo).2 = none) :
    sumProvidedGas asyncInfo.AsyncContextMap ≤ GasLeft host
    ∧ (countZeroGas asyncInfo.AsyncContextMap ≠ 0 →
        sumProvidedGas asyncInfo.AsyncContextMap < GasLeft host) := by
  have hmax : GasLeft host ≤ MaxUint64 := le_trans (GasLeft_le host) hwf
  by_cases hsum : GasLeft host < sumProvidedGas asyncInfo.AsyncContextMap
  · obtain ⟨e, he, _⟩ := setupContextsGasLoop_fail (GasLeft host) hmax
      asyncInfo.AsyncContextMap 0 0 (by omega) (by omega)
    have hres : (setupAsyncCallsGas host asyncInfo).2 = some e := by
      unfold setupAsyncCallsGas
      simp only
      generalize setupContextsGasLoop (GasLeft host) asyncInfo.AsyncContextMap 0 0 = r at he
      obtain ⟨cs, g2, z2, e2⟩ := r
      simp only at he
      subst he
      rfl
    rw [hres] at hok
    exact absurd hok (by simp)
  · refine ⟨by omega, fun hz => ?_⟩
    by_contra hnot
    have hle : GasLeft host ≤ sumProvidedGas asyncInfo.AsyncContextMap := by omega
    have hloop := setupContextsGasLoop_ok (GasLeft host) hmax asyncInfo.AsyncContextMap 0 0
      (by omega)
    simp only [Nat.zero_add] at hloop
    have hres : (setupAsyncCallsGas host asyncInfo).2 = some .ErrNotEnoughGas := by
      unfold setupAsyncCallsGas
      simp only
      rw [hloop]
      simp only [hz, if_false, hle, if_true]
    rw [hres] at hok
    exact absurd hok (by simp)

theorem sumAsyncGasLimit_assignGasLimits (gasShare : Nat)
    (contexts : List (Bytes × AsyncContext)) :
    sumAsyncGasLimit (assignGasLimits gasShare contexts)
      = sumProvidedGas contexts + countZeroGas contexts * gasShare := by
  have hcalls : ∀ calls : List AsyncGeneratedCall,
      ((calls.map (fun asyncCall =>
          { asyncCall with
            GasLimit := if asyncCall.ProvidedGas = 0 then gasShare
              else asyncCall.ProvidedGas })).map (fun asyncCall => asyncCall.GasLimit)).sum
        = sumProvidedGasCalls calls + countZeroGasCalls calls * gasShare := by
    intro calls
    induction calls with
    | nil => simp [sumProvidedGasCalls, countZeroGasCalls]
    | cons c rest ih =>
      simp only [List.map_cons, List.sum_cons, ih]
      by_cases h0 : c.ProvidedGas = 0
      · simp only [sumProvidedGasCalls, countZeroGasCalls, List.map_cons, List.sum_cons,
          List.filter_cons, h0, decide_True, if_true, List.length_cons]
        ring
      · simp only [sumProvidedGasCalls, countZeroGasCalls, List.map_cons, List.sum_cons,
          List.filter_cons, h0, decide_False, if_false]
        simp only [Bool.false_eq_true, if_false]
        ring
  induction contexts with
  | nil => simp [sumAsyncGasLimit, assignGasLimits, sumProvidedGas, countZeroGas]
  | cons entry rest ih =>
    have hrest : sumAsyncGasLimit (assignGasLimits gasShare (entry :: rest))
        = ((entry.2.AsyncCalls.map (fun asyncCall =>
            { asyncCall with
              GasLimit := if asyncCall.ProvidedGas = 0 then gasShare
                else asyncCall.ProvidedGas })).map (fun asyncCall => asyncCall.GasLimit)).sum
          + sumAsyncGasLimit (assignGasLimits gasShare rest) := by
      simp [sumAsyncGasLimit, assignGasLimits]
    rw [hrest, hcalls, ih]
    simp only [sumProvidedGas, countZeroGas, List.map_cons, List.sum_cons]
    ring

theorem sumProvidedGas_perm (visited contexts : List (Bytes × AsyncContext))
    (hperm : visited.Perm contexts) : sumProvidedGas visited = sumProvidedGas contexts := by
  unfold sumProvidedGas
  exact (hperm.map _).sum_eq

theorem countZeroGas_perm (visited contexts : List (Bytes × AsyncContext))
    (hperm : visited.Perm contexts) : countZeroGas visited = countZeroGas contexts := by
  unfold countZeroGas
  exact (hperm.map _).sum_eq

/-- C39: whenever `setupAsyncCallsGas` succeeds (the gas for execution being a `uint64`), the
gas limits of all calls of all contexts sum to at most `GasLeft`, and visiting the contexts
in any other order succeeds as well and gives every context the same calls with the same gas
limits. -/
theorem setupAsyncCallsGas_limits_within_gas_left (host : VMHost) (asyncInfo : AsyncContextInfo)
    (hwf : host.metering.gasForExecution ≤ MaxUint64)
    (hok : (setupAsyncCallsGas host asyncInfo).2 = none) :
    sumAsyncGasLimit (setupAsyncCallsGas host asyncInfo).1.AsyncContextMap ≤ GasLeft host
    ∧ ∀ visited : List (Bytes × AsyncContext), visited.Perm asyncInfo.AsyncContextMap →
        (setupAsyncCallsGas host { asyncInfo with AsyncContextMap := visited }).2 = none
        ∧ (setupAsyncCallsGas host
              { asyncInfo with AsyncContextMap := visited }).1.AsyncContextMap.Perm
            (setupAsyncCallsGas host asyncInfo).1.AsyncContextMap := by
  obtain ⟨hsum, hshare⟩ := setupAsyncCallsGas_fits_of_none host asyncInfo hwf hok
  have hres := setupAsyncCallsGas_of_fits host asyncInfo hwf hsum hshare
  constructor
  · rw [hres]
    simp only
    rw [sumAsyncGasLimit_assignGasLimits]
    have hdiv := Nat.div_mul_le_self
      (GasLeft host - sumProvidedGas asyncInfo.AsyncContextMap)
      (countZeroGas asyncInfo.AsyncContextMap)
    rw [Nat.mul_comm] at hdiv
    omega
  · intro visited hperm
    have hs := sumProvidedGas_perm visited _ hperm
    have hz := countZeroGas_perm visited _ hperm
    have hres2 := setupAsyncCallsGas_of_fits host { asyncInfo with AsyncContextMap := visited }
      hwf (by simp only; omega) (by simp only; rw [hs, hz]; exact hshare)
    rw [hres2, hres]
    simp only [hs, hz]
    exact ⟨trivial, hperm.map _⟩

/-- Witness for C39: two calls without provided gas get 500 each of the 1000 gas left. -/
theorem setupAsyncCallsGas_limits_within_gas_left_witness :
    sumAsyncGasLimit (setupAsyncCallsGas (callHost []) twoPendingCalls).1.AsyncContextMap
      ≤ GasLeft (callHost [])
    ∧ sumAsyncGasLimit (setupAsyncCallsGas (callHost []) twoPendingCalls).1.AsyncContextMap
      = 1000 :=
  ⟨(setupAsyncCallsGas_limits_within_gas_left (callHost []) twoPendingCalls (by decide)
      (by decide)).1, by decide⟩

theorem goIndex_negative {α : Type} (list : List α) (index : Int) (hneg : index < 0) :
    goIndex list index = .error .PanicIndexOutOfRange := by
  unfold goIndex
  rw [if_pos hneg]

/-- With a negative `id`, `v1_4_bigIntGetUnsignedArgument` passes its only check and panics
at `args[id]`, after `GetBigIntOrCreate` on the destination handle. -/
theorem v1_4_bigIntGetUnsignedArgument_negative (host : VMHost) (id destinationHandle : Int)
    (hneg : id < 0) (hlen : (host.runtime.arguments.length : Int) < 2 ^ 31) :
    v1_4_bigIntGetUnsignedArgument host id destinationHandle
      = ((GetBigIntOrCreate (UseGas host host.metering.gasSchedule.BigIntGetUnsignedArgument)
            destinationHandle).1, some .PanicIndexOutOfRange) := by
  unfold v1_4_bigIntGetUnsignedArgument
  have hcheck : ¬ toInt32 (UseGas host
      host.metering.gasSchedule.BigIntGetUnsignedArgument).runtime.arguments.length ≤ id := by
    have : (UseGas host host.metering.gasSchedule.BigIntGetUnsignedArgument).runtime.arguments
        = host.runtime.arguments := rfl
    rw [this]
    unfold toInt32
    omega
  simp only [hcheck, if_false, goIndex_negative _ _ hneg]

/-- C33: evaluation at the failing input. With one argument and `id = -1`, both functions
pass the check `int32(len(args)) <= id`, create the destination handle 9 and panic at
`args[id]`. -/
theorem bigIntGetArgument_negative_id_panics :
    esdtInputHost.runtime.arguments = [[1, 0]]
    ∧ bigIntAt esdtInputHost 9 = none
    ∧ (v1_4_bigIntGetUnsignedArgument esdtInputHost (-1) 9).2 = some .PanicIndexOutOfRange
    ∧ bigIntAt (v1_4_bigIntGetUnsignedArgument esdtInputHost (-1) 9).1 9 = some 0
    ∧ (v1_4_bigIntGetSignedArgument esdtInputHost (-1) 9).2 = some .PanicIndexOutOfRange
    ∧ bigIntAt (v1_4_bigIntGetSignedArgument esdtInputHost (-1) 9).1 9 = some 0 := by
  decide

/-- C34: evaluation at the failing input. Nothing is stored under handle 9;
`v1_4_bigIntGetInt64` records the no-big-int error and then panics on the nil value. -/
theorem bigIntGetInt64_missing_handle_panics :
    bigIntAt bigIntHost 9 = none
    ∧ (v1_4_bigIntGetInt64 bigIntHost 9).1.runtime.errors = [.ErrNoBigIntUnderThisHandle]
    ∧ (v1_4_bigIntGetInt64 bigIntHost 9).2 = .error .PanicNilDereference :=
  ⟨by decide, by decide, rfl⟩

/-- With no big int under the handle, `v1_4_bigIntGetInt64` always panics. -/
theorem v1_4_bigIntGetInt64_missing (host : VMHost) (destinationHandle : Int)
    (hmissing : bigIntAt host destinationHandle = none) :
    (v1_4_bigIntGetInt64 host destinationHandle).2 = .error .PanicNilDereference := by
  unfold v1_4_bigIntGetInt64 GetBigInt
  unfold bigIntAt at hmissing
  simp only [UseGas, hmissing]

/-- C35: evaluation at the failing input. On the buffer `[1, 2, 3, 4]` (length and capacity
4), `DeleteSlice(0, 5, 0)` panics at `mBuffer[:5]`; and after `DeleteSlice(0, 0, 2)` has left
`[3, 4]` in the same array, `DeleteSlice(0, 3, 0)` returns the 3 bytes `[3, 4, 3]`. -/
theorem deleteSlice_start_beyond_length :
    bufferContext.GetBytes 0 = .ok [1, 2, 3, 4]
    ∧ (bufferContext.DeleteSlice 0 5 0).2 = .error .PanicSliceBounds
    ∧ (bufferContext.DeleteSlice 0 0 2).1.GetBytes 0 = .ok [3, 4]
    ∧ ((bufferContext.DeleteSlice 0 0 2).1.DeleteSlice 0 3 0).2 = .ok [3, 4, 3] :=
  ⟨rfl, rfl, rfl, rfl⟩

/-- C36: evaluation at the failing input. The call input has the ESDT transfer of 300 units
of the token `[84, 75, 78]` at index 0; `v1_4_getCallValueTokenNameByIndex` writes the padded
value at offset 0, leaves the memory at the token-name offset 32 as it was and returns 0. -/
theorem getCallValueTokenNameByIndex_writes_no_name :
    (getESDTTransferFromInput esdtInputHost 0).toOption.join.map
        (fun esdtTransfer => esdtTransfer.ESDTTokenName) = some [84, 75, 78]
    ∧ (v1_4_getCallValueTokenNameByIndex esdtInputHost 0 32 0).2 = .ok 0
    ∧ ((v1_4_getCallValueTokenNameByIndex esdtInputHost 0 32 0).1.runtime.memory.drop 32).take 3
        = [7, 7, 7]
    ∧ (v1_4_getCallValueTokenNameByIndex esdtInputHost 0 32 0).1.runtime.memory.take 32
        = PadBytesLeft [1, 44] 32 :=
  ⟨rfl, rfl, by decide, by decide⟩

/-- C37: evaluation at the failing inputs. With `numTokenTransfers = -1`, destination and
function readable, `v1_4_multiTransferESDTNFTExecute` panics at `make`; with
`numTokenTransfers = 1` and a length table outside memory, reading the transfer arguments
fails and the function panics at `transferArgs[0]`; only `numTokenTransfers = 0` returns 1. -/
theorem multiTransferESDTNFTExecute_panics :
    (v1_4_multiTransferESDTNFTExecute sampleCollaborators (callHost []) 0 0 0 0 100 32 2 0 0
        0).2 = .ok 1
    ∧ (v1_4_multiTransferESDTNFTExecute sampleCollaborators (callHost []) 0 (-1) 0 0 100 32 2 0
        0 0).2 = .error .PanicMakeSliceLen
    ∧ (getArgumentsFromMemory (callHost []) 3 1000 0).2.2 = some .ErrMemLoad
    ∧ (v1_4_multiTransferESDTNFTExecute sampleCollaborators (callHost []) 0 1 1000 0 100 32 2 0
        0 0).2 = .error .PanicIndexOutOfRange :=
  ⟨rfl, rfl, by decide, rfl⟩

/-- The transfers that the loop of `v1_4_multiTransferESDTNFTExecute` builds are fungible
exactly when their nonce is 0. -/
theorem multiTransferLoop_token_types (transferArgs : List Bytes) :
    ∀ (rounds : Nat) (i : Int) (transfers : List ESDTTransfer),
      multiTransferLoop transferArgs rounds i = .ok transfers →
      ∀ transfer ∈ transfers,
        (transfer.ESDTTokenNonce = 0 → transfer.ESDTTokenType = Fungible)
        ∧ (transfer.ESDTTokenNonce ≠ 0 → transfer.ESDTTokenType = NonFungible) := by
  intro rounds
  induction rounds with
  | zero =>
    intro i transfers hloop transfer hmem
    simp only [multiTransferLoop, Except.ok.injEq] at hloop
    subst hloop
    exact absurd hmem (by simp)
  | succ rounds ih =>
    intro i transfers hloop transfer hmem
    unfold multiTransferLoop at hloop
    simp only at hloop
    split at hloop
    · exact absurd hloop (by simp)
    · split at hloop
      · exact absurd hloop (by simp)
      · split at hloop
        · exact absurd hloop (by simp)
        · split at hloop
          · exact absurd hloop (by simp)
          · rename_i rest hrest
            simp only [Except.ok.injEq] at hloop
            subst hloop
            rcases List.mem_cons.mp hmem with hhead | htail
            · subst hhead
              constructor
              · intro hzero
                split at hzero
                · rename_i hpos
                  simp only at hzero
                  omega
                · split
                  · rename_i hpos
                    simp only at hzero
                    omega
                  · rfl
              · intro hnonzero
                split at hnonzero
                · rw [if_pos (by assumption)]
                · rename_i hnot
                  simp only at hnonzero
                  omega
            · exact ih _ _ hrest transfer htail

/-- C40: evaluation at the failing input. `v1_4_transferESDTNFTExecute` with the nonce -1
hands on a transfer whose token nonce is `2 ^ 64 - 1` and whose token type is `Fungible`;
with the nonce 5 the type is `NonFungible`. -/
theorem transferESDTNFTExecute_negative_nonce_fungible :
    (v1_4_transferESDTNFTExecute esdtRecordingCollaborators (callHost []) 0 32 2 0 (-1) 100 32 2
        0 0 0).1.runtime.esdtTransfers.map
        (fun transfer => (transfer.ESDTTokenNonce, transfer.ESDTTokenType))
      = [(2 ^ 64 - 1, Fungible)]
    ∧ (v1_4_transferESDTNFTExecute esdtRecordingCollaborators (callHost []) 0 32 2 0 5 100 32 2
        0 0 0).1.runtime.esdtTransfers.map
        (fun transfer => (transfer.ESDTTokenNonce, transfer.ESDTTokenType))
      = [(5, NonFungible)] := by
  decide

end Arwen
